import Mathlib

/-!
PDAL HDF reader: chunked multi-column ingestion.

A shallow embedding of `plugins/hdf/io/Hdf5Handler.cpp` and
`plugins/hdf/io/HdfReader.cpp`.

* 64-bit unsigned quantities (`uint64_t`, `hsize_t`, `size_t`, `PointId`) are
  natural numbers; every operation that can wrap is written with `% u64`.
* C++ exceptions are the `error` case of `Except`.  Undefined behaviour
  (modulo by zero, reading through a pointer that was never assigned, running
  past the end of a buffer) is reported as `Err.undefinedBehaviour`.
* The HDF5 library is an external collaborator.  A dataset is modelled by its
  metadata and its raw bytes; a read of a hyperslab that lies inside the
  extent delivers the stored bytes.  What the library does with a hyperslab
  outside the extent is not fixed by this code base, so it is a parameter
  (`OutOfExtent`) of every function that can reach `DataSet::read`.
* Calls made to the downstream sink (`setField`) are returned as values.
-/

namespace pdal

/-- Modulus of the 64-bit unsigned integer types. -/
def u64 : Nat := 2 ^ 64

/-- Everything that can abort one of the modelled functions. -/
inductive Err where
  /-- pdal_error: Could not open HDF5 file. -/
  | couldNotOpen
  /-- Exception of `H5File::openDataSet` for a dataset that does not exist. -/
  | datasetMissing
  /-- pdal_error: All given datasets must have the same length. -/
  | lengthMismatch
  /-- pdal_error: Only 1-dimensional arrays are supported. -/
  | notOneDimensional
  /-- pdal_error: Compound types not supported. -/
  | compoundType
  /-- pdal_error: Unkown type. -/
  | unknownType
  /-- pdal_error: Required option 'map' was not set. -/
  | mapNotSet
  /-- pdal_error: Option 'dimensions' must be a JSON object. -/
  | notAnObject
  /-- pdal_error: Every value in 'dimensions' must be a string. -/
  | valueNotString (key : String)
  /-- Exception of `DataSet::read`. -/
  | readFailed
  /-- Exception `std::out_of_range` of `vector::at`. -/
  | outOfRange
  /-- Behaviour the C++ standard leaves undefined. -/
  | undefinedBehaviour
  deriving DecidableEq, Repr

/-- Datatype classes of HDF5. -/
inductive H5T_class_t where
  | H5T_INTEGER | H5T_FLOAT | H5T_TIME | H5T_STRING | H5T_BITFIELD | H5T_OPAQUE
  | H5T_COMPOUND | H5T_REFERENCE | H5T_ENUM | H5T_VLEN | H5T_ARRAY
  deriving DecidableEq, Repr

/-- Sign schemes of HDF5 integer types. -/
inductive H5T_sign_t where
  | H5T_SGN_ERROR | H5T_SGN_NONE | H5T_SGN_2
  deriving DecidableEq, Repr

/-- Byte orders of HDF5 atomic types. -/
inductive H5T_order_t where
  | H5T_ORDER_LE | H5T_ORDER_BE | H5T_ORDER_VAX | H5T_ORDER_MIXED | H5T_ORDER_NONE
  deriving DecidableEq, Repr

/-- Storage layouts of an HDF5 dataset. -/
inductive H5D_layout_t where
  | H5D_COMPACT | H5D_CONTIGUOUS | H5D_CHUNKED
  deriving DecidableEq, Repr

/-- The three base types used by the reader (`Dimension::BaseType`). -/
inductive BaseType where
  | Signed | Unsigned | Floating
  deriving DecidableEq, Repr

/-- A `Dimension::Type`: the source builds it as `BaseType | size`; the two
components are kept apart here. -/
structure DimType where
  base : BaseType
  size : Nat
  deriving DecidableEq, Repr

/-- What the HDF5 library reports for one dataset, and its raw contents. -/
structure DataSet where
  /-- Result of `getSpace().getSelectNpoints()`. -/
  npoints : Nat
  /-- Result of `getCreatePlist().getLayout()`. -/
  layout : H5D_layout_t
  /-- Return value of `getChunk(1, &chunkSize)`: the rank of the chunks. -/
  chunkRank : Nat
  /-- Value `getChunk(1, &chunkSize)` stores into `chunkSize`. -/
  chunkDim0 : Nat
  /-- Result of `getDataType().getClass()`. -/
  cls : H5T_class_t
  /-- Result of `getIntType().getSign()`. -/
  sign : H5T_sign_t
  /-- Result of `getOrder()` of the element type. -/
  order : H5T_order_t
  /-- Result of `getDataType().getSize()`: bytes per element. -/
  size : Nat
  /-- The stored elements, `size` bytes each, in file order. -/
  bytes : List Nat
  deriving DecidableEq, Repr

/-- An open HDF5 file: its datasets by path. -/
structure H5File where
  datasets : List (String × DataSet)
  deriving DecidableEq, Repr

/-- Lookup of a dataset by path (`H5File::openDataSet`); `none` when the
library raises because no such dataset exists. -/
def H5File.openDataSet (f : H5File) (datasetName : String) : Option DataSet :=
  (f.datasets.find? (fun e => e.1 == datasetName)).map Prod.snd

/-- Behaviour of the library for a read whose hyperslab `[start, start+count)`
is not inside the dataset extent: `none` when it raises, otherwise the bytes
it delivers. -/
abbrev OutOfExtent := DataSet → Nat → Nat → Option (List Nat)

/-- The library rejects every hyperslab outside the extent. -/
def rejectOutside : OutOfExtent := fun _ _ _ => none

/-- The library delivers the part of the hyperslab that exists. -/
def clipOutside : OutOfExtent :=
  fun d start count => some ((d.bytes.drop (start * d.size)).take (count * d.size))

/-- Read of `count` elements starting at element `start` with the file type
as memory type (`DataSet::read` after `selectHyperslab(H5S_SELECT_SET, ..)`):
no conversion takes place, the result is at most `count * size` raw bytes. -/
def DataSet.read (lib : OutOfExtent) (d : DataSet) (start count : Nat) :
    Option (List Nat) :=
  if start + count ≤ d.npoints then
    some ((d.bytes.drop (start * d.size)).take (count * d.size))
  else
    (lib d start count).map (fun bs => bs.take (count * d.size))

/-- Per-column description (`hdf5::DimInfo` as built in Hdf5Handler.cpp). -/
structure DimInfo where
  name : String
  hdf_type : H5T_class_t
  endianness : H5T_order_t
  sign : H5T_sign_t
  size : Nat
  chunkSize : Nat
  pdal_type : DimType
  /-- Assigned by `HdfReader::addDimensions`; unset before. -/
  id : Option Nat
  deriving DecidableEq, Repr

/-- The constructor of `DimInfo` taking an `H5::IntType`. -/
def DimInfo.ofIntType (dimName : String) (d : DataSet) (chunkSize : Nat) : DimInfo :=
  { name := dimName
    hdf_type := .H5T_INTEGER
    endianness := d.order
    sign := d.sign
    size := d.size
    chunkSize := chunkSize
    pdal_type :=
      if d.sign = .H5T_SGN_2 then ⟨.Signed, d.size⟩ else ⟨.Unsigned, d.size⟩
    id := none }

/-- The constructor of `DimInfo` taking an `H5::FloatType`. -/
def DimInfo.ofFloatType (dimName : String) (d : DataSet) (chunkSize : Nat) : DimInfo :=
  { name := dimName
    hdf_type := .H5T_FLOAT
    endianness := d.order
    sign := .H5T_SGN_ERROR
    size := d.size
    chunkSize := chunkSize
    pdal_type := ⟨.Floating, d.size⟩
    id := none }

/-- State of `Hdf5Handler`.  `m_dspaces` is left out: its selection is set
anew before every read.  `opened` and `reads` are observation logs of the
calls made to the library: dataset paths passed to `openDataSet`, and
`(column, start, count)` of every `DataSet::read`. -/
structure Hdf5Handler where
  m_h5File : Option H5File
  m_numPoints : Nat
  m_dimInfos : List DimInfo
  m_dsets : List DataSet
  m_chunkOffsets : List Nat
  m_buffers : List (List Nat)
  opened : List String
  reads : List (Nat × Nat × Nat)
  deriving DecidableEq, Repr

/-- A handler as constructed: empty vectors; `m_numPoints` has no initialiser,
`garbage` stands for whatever it holds. -/
def Hdf5Handler.fresh (garbage : Nat) : Hdf5Handler :=
  { m_h5File := none, m_numPoints := garbage, m_dimInfos := [], m_dsets := [],
    m_chunkOffsets := [], m_buffers := [], opened := [], reads := [] }

/-- Result of `std::vector<uint8_t>::resize(n)`. -/
def resize (v : List Nat) (n : Nat) : List Nat :=
  v.take n ++ List.replicate (n - v.length) 0

/-- Result of `vector::at`. -/
def vecAt {α : Type} (v : List α) (i : Nat) : Except Err α :=
  match v[i]? with
  | some x => .ok x
  | none => .error .outOfRange

/-- One iteration of the loop of `Hdf5Handler::initialize` (lines 92-145).
An error carries the handler as it is when the exception leaves. -/
def Hdf5Handler.initEntry (file : H5File) (h : Hdf5Handler) (index : Nat)
    (entry : String × String) : Except (Err × Hdf5Handler) Hdf5Handler :=
  let dimName := entry.1
  let datasetName := entry.2
  let h0 := { h with opened := h.opened ++ [datasetName] }
  match file.openDataSet datasetName with
  | none => .error (.datasetMissing, h0)
  | some dset =>
    let h1 := { h0 with m_dsets := h0.m_dsets ++ [dset] }
    if index ≠ 0 ∧ h1.m_numPoints ≠ dset.npoints then
      .error (.lengthMismatch, h1)
    else
      let h2 := { h1 with m_numPoints := if index = 0 then dset.npoints else h1.m_numPoints }
      if dset.layout = .H5D_CHUNKED ∧ dset.chunkRank ≠ 1 then
        .error (.notOneDimensional, h2)
      else
        let chunkSize := if dset.layout = .H5D_CHUNKED then dset.chunkDim0 else 1024
        let pushed : Except (Err × Hdf5Handler) Hdf5Handler :=
          if dset.cls = .H5T_COMPOUND then
            .error (.compoundType, h2)
          else if dset.cls = .H5T_INTEGER then
            .ok { h2 with m_dimInfos := h2.m_dimInfos ++ [DimInfo.ofIntType dimName dset chunkSize] }
          else if dset.cls = .H5T_FLOAT then
            .ok { h2 with m_dimInfos := h2.m_dimInfos ++ [DimInfo.ofFloatType dimName dset chunkSize] }
          else
            .error (.unknownType, h2)
        match pushed with
        | .error e => .error e
        | .ok h3 =>
          let h4 := { h3 with m_chunkOffsets := h3.m_chunkOffsets ++ [0],
                              m_buffers := h3.m_buffers ++ [[]] }
          match h4.m_buffers[index]? with
          | none => .error (.outOfRange, h4)
          | some b =>
            .ok { h4 with m_buffers :=
                    h4.m_buffers.set index (resize b ((chunkSize * dset.size) % u64)) }

/-- The loop of `Hdf5Handler::initialize` over the entries of the map, in
iteration order, with the running `index`. -/
def Hdf5Handler.initLoop (file : H5File) :
    List (String × String) → Nat → Hdf5Handler → Except (Err × Hdf5Handler) Hdf5Handler
  | [], _, h => .ok h
  | entry :: rest, index, h =>
    match Hdf5Handler.initEntry file h index entry with
    | .error e => .error e
    | .ok h' => Hdf5Handler.initLoop file rest (index + 1) h'

/-- Model of `Hdf5Handler::initialize(filename, map)`.  `fs` is the file
system: the file each name opens, `none` when `H5::H5File` raises. -/
def Hdf5Handler.initialize (fs : String → Option H5File) (h : Hdf5Handler)
    (filename : String) (map : List (String × String)) :
    Except (Err × Hdf5Handler) Hdf5Handler :=
  match fs filename with
  | none => .error (.couldNotOpen, h)
  | some file => Hdf5Handler.initLoop file map 0 { h with m_h5File := some file }

/-- Model of `Hdf5Handler::getNextChunk(index)` (lines 154-168).  The pointer
it returns is `m_buffers.at(index).data()`; callers keep `index` for it. -/
def Hdf5Handler.getNextChunk (lib : OutOfExtent) (h : Hdf5Handler) (index : Nat) :
    Except Err Hdf5Handler := do
  let offset ← vecAt h.m_chunkOffsets index
  let elementsRemaining := (h.m_numPoints + u64 - offset) % u64
  let info ← vecAt h.m_dimInfos index
  let chunkSize := info.chunkSize
  let selectionSize := min elementsRemaining chunkSize
  let data ← vecAt h.m_buffers index
  let dset ← vecAt h.m_dsets index
  match dset.read lib offset selectionSize with
  | none => .error .readFailed
  | some bs =>
    if bs.length ≤ data.length then
      .ok { h with
            m_buffers := h.m_buffers.set index (bs ++ data.drop bs.length)
            m_chunkOffsets := h.m_chunkOffsets.set index ((offset + chunkSize) % u64)
            reads := h.reads ++ [(index, offset, selectionSize)] }
    else
      .error .undefinedBehaviour

/-- Model of `Hdf5Handler::getNumPoints`. -/
def Hdf5Handler.getNumPoints (h : Hdf5Handler) : Nat := h.m_numPoints

/-- Model of `Hdf5Handler::getDimensionInfos`. -/
def Hdf5Handler.getDimensionInfos (h : Hdf5Handler) : List DimInfo := h.m_dimInfos

/-- A JSON value (`NL::json`); an object lists its members in iteration order. -/
inductive Json where
  | null
  | boolean (b : Bool)
  | number (n : Int)
  | string (s : String)
  | array (xs : List Json)
  | object (members : List (String × Json))

/-- Model of `json::is_null`. -/
def Json.is_null : Json → Bool
  | .null => true
  | _ => false

/-- Model of `json::is_object`. -/
def Json.is_object : Json → Bool
  | .object _ => true
  | _ => false

/-- Model of `json::is_string`. -/
def Json.is_string : Json → Bool
  | .string _ => true
  | _ => false

/-- Model of `json::items`: the members of an object. -/
def Json.items : Json → List (String × Json)
  | .object members => members
  | _ => []

/-- Conversion of a JSON string to `std::string`. -/
def Json.get_string : Json → String
  | .string s => s
  | _ => ""

/-- Lexicographic comparison of character sequences. -/
def lexLess : List Char → List Char → Bool
  | _, [] => false
  | [], _ :: _ => true
  | a :: as, b :: bs =>
    if a.toNat < b.toNat then true
    else if b.toNat < a.toNat then false
    else lexLess as bs

/-- The order `std::less<std::string>` of the keys of a `std::map`. -/
def keyLess (a b : String) : Bool := lexLess a.data b.data

/-- Model of `m[key] = value` on a `std::map<std::string, std::string>`, kept
as the list of its entries in key order. -/
def mapAssign : List (String × String) → String → String → List (String × String)
  | [], key, value => [(key, value)]
  | (k, v) :: rest, key, value =>
    if keyLess key k then (key, value) :: (k, v) :: rest
    else if key = k then (key, value) :: rest
    else (k, v) :: mapAssign rest key value

/-- One call of `setField` on the sink: field id, type, and the bytes it
copies from the pointer it is given, as many as the type is wide. -/
structure FieldWrite where
  id : Option Nat
  type : DimType
  bytes : List Nat
  deriving DecidableEq, Repr

/-- Model of `HdfReader::BufferInfo`.  `buffer` is the raw pointer: `some i`
when it holds `m_buffers.at(i).data()` of the handler, `none` while it has not
been assigned. -/
structure BufferInfo where
  info : DimInfo
  buffer : Option Nat
  deriving DecidableEq, Repr

/-- State of `HdfReader` (the members HdfReader.cpp uses). -/
structure HdfReader where
  m_hdf5Handler : Hdf5Handler
  m_info : List BufferInfo
  m_index : Nat
  m_filename : String
  m_pathDimJson : Json
  m_pathDimMap : List (String × String)

/-- The loop of `HdfReader::parseDimensions` over `m_pathDimJson.items()`
(lines 153-166), threading `m_pathDimMap`. -/
def HdfReader.parseLoop :
    List (String × Json) → List (String × String) → Except Err (List (String × String))
  | [], m => .ok m
  | (dimName, datasetName) :: rest, m =>
    if !datasetName.is_string then
      .error (.valueNotString dimName)
    else
      HdfReader.parseLoop rest (mapAssign m dimName datasetName.get_string)

/-- Model of `HdfReader::parseDimensions` (lines 141-167). -/
def HdfReader.parseDimensions (r : HdfReader) : Except Err HdfReader :=
  if r.m_pathDimJson.is_null then
    .error .mapNotSet
  else if !r.m_pathDimJson.is_object then
    .error .notAnObject
  else
    match HdfReader.parseLoop r.m_pathDimJson.items r.m_pathDimMap with
    | .error e => .error e
    | .ok m => .ok { r with m_pathDimMap := m }

/-- Model of `HdfReader::addDimensions` (lines 69-79).  `registerOrAssignDim`
is the layout of the pipeline. -/
def HdfReader.addDimensions (fs : String → Option H5File)
    (registerOrAssignDim : String → DimType → Nat) (r : HdfReader) :
    Except (Err × Hdf5Handler) HdfReader :=
  match Hdf5Handler.initialize fs r.m_hdf5Handler r.m_filename r.m_pathDimMap with
  | .error e => .error e
  | .ok h =>
    let added := r.m_info ++ h.getDimensionInfos.map (fun d => BufferInfo.mk d none)
    .ok { r with
          m_hdf5Handler := h
          m_info := added.map (fun d =>
            { d with info := { d.info with
                id := some (registerOrAssignDim d.info.name d.info.pdal_type) } }) }

/-- Model of `HdfReader::ready` (lines 82-85). -/
def HdfReader.ready (r : HdfReader) : HdfReader :=
  { r with m_index := 0 }

/-- The `size` bytes a `setField` call copies from pointer `buffer + off`. -/
def loadBytes (h : Hdf5Handler) (buffer : Option Nat) (off size : Nat) :
    Except Err (List Nat) :=
  match buffer with
  | none => .error .undefinedBehaviour
  | some i =>
    match h.m_buffers[i]? with
    | none => .error .undefinedBehaviour
    | some data =>
      if off + size ≤ data.length then .ok ((data.drop off).take size)
      else .error .undefinedBehaviour

/-- The body of the loop over the columns (lines 99-105 of `read`, lines
118-124 of `processOne`, which differ in the sink only) for entry `info` of
`m_info` at position `index`, materialising row `row`.  Returns the entry as
it leaves it, the `setField` call, and the handler. -/
def HdfReader.fillColumn (lib : OutOfExtent) (row index : Nat) (info : BufferInfo)
    (h : Hdf5Handler) : Except Err (BufferInfo × FieldWrite × Hdf5Handler) :=
  if info.info.chunkSize = 0 then
    .error .undefinedBehaviour
  else
    let bufIndex := row % info.info.chunkSize
    let refilled : Except Err (BufferInfo × Hdf5Handler) :=
      if bufIndex = 0 then
        match h.getNextChunk lib index with
        | .error e => .error e
        | .ok h' => .ok ({ info with buffer := some index }, h')
      else
        .ok (info, h)
    match refilled with
    | .error e => .error e
    | .ok (info', h') =>
      match loadBytes h' info'.buffer ((bufIndex * info'.info.size) % u64)
          info'.info.pdal_type.size with
      | .error e => .error e
      | .ok p => .ok (info', ⟨info'.info.id, info'.info.pdal_type, p⟩, h')

/-- The loop over the columns that materialises row `row`, running over the
entries of `m_info` from position `index` on.  Returns the entries as it
leaves them, the `setField` calls in order, and the handler. -/
def HdfReader.fillRow (lib : OutOfExtent) (row : Nat) :
    Nat → List BufferInfo → Hdf5Handler →
    Except Err (List BufferInfo × List FieldWrite × Hdf5Handler)
  | _, [], h => .ok ([], [], h)
  | index, info :: rest, h =>
    match HdfReader.fillColumn lib row index info h with
    | .error e => .error e
    | .ok (info', write, h') =>
      match HdfReader.fillRow lib row (index + 1) rest h' with
      | .error e => .error e
      | .ok (infos, writes, h'') => .ok (info' :: infos, write :: writes, h'')

/-- The loop `for (pi = 0; pi < getNumPoints(); pi++)` of `HdfReader::read`
(lines 97-108) with `n` iterations left.  Each `setField` call is returned
with the point id it addresses. -/
def HdfReader.readLoop (lib : OutOfExtent) :
    Nat → Nat → Nat → HdfReader → Except Err (List (Nat × FieldWrite) × HdfReader)
  | 0, _, _, r => .ok ([], r)
  | n + 1, pi, nextId, r =>
    match HdfReader.fillRow lib pi 0 r.m_info r.m_hdf5Handler with
    | .error e => .error e
    | .ok (infos, writes, h) =>
      match HdfReader.readLoop lib n (pi + 1) ((nextId + 1) % u64)
          { r with m_info := infos, m_hdf5Handler := h } with
      | .error e => .error e
      | .ok (more, r') => .ok (writes.map (fun w => (nextId, w)) ++ more, r')

/-- Model of `HdfReader::read(view, count)` (lines 88-111).  `viewSize` is
`view->size()` on entry.  Returns the value returned, the `setField` calls
made on the view, and the reader. -/
def HdfReader.read (lib : OutOfExtent) (r : HdfReader) (viewSize count : Nat) :
    Except Err (Nat × List (Nat × FieldWrite) × HdfReader) :=
  let startId := viewSize
  let remaining := (r.m_hdf5Handler.getNumPoints + u64 - r.m_index) % u64
  let count := min count remaining
  let nextId := startId
  match HdfReader.readLoop lib r.m_hdf5Handler.getNumPoints 0 nextId r with
  | .error e => .error e
  | .ok (writes, r') => .ok (count, writes, r')

/-- Model of `HdfReader::processOne(point)` (lines 114-129).  Returns the
value returned, the `setField` calls made on the point, and the reader. -/
def HdfReader.processOne (lib : OutOfExtent) (r : HdfReader) :
    Except Err (Bool × List FieldWrite × HdfReader) :=
  match HdfReader.fillRow lib r.m_index 0 r.m_info r.m_hdf5Handler with
  | .error e => .error e
  | .ok (infos, writes, h) =>
    let m_index := (r.m_index + 1) % u64
    .ok (decide (m_index ≤ h.getNumPoints), writes,
      { r with m_info := infos, m_hdf5Handler := h, m_index := m_index })

/-- A reader as constructed, with its options set: a fresh handler, no column
information; `m_index` has no initialiser before `ready`. -/
def HdfReader.fresh (garbage index0 : Nat) (filename : String) (json : Json) : HdfReader :=
  { m_hdf5Handler := Hdf5Handler.fresh garbage, m_info := [], m_index := index0,
    m_filename := filename, m_pathDimJson := json, m_pathDimMap := [] }

/-- The stage set-up that precedes streaming: `initialize` (which parses the
option), `addDimensions`, `ready`. -/
def HdfReader.prepare (fs : String → Option H5File)
    (registerOrAssignDim : String → DimType → Nat) (r : HdfReader) : Option HdfReader :=
  match r.parseDimensions with
  | .error _ => none
  | .ok r1 =>
    match HdfReader.addDimensions fs registerOrAssignDim r1 with
    | .error _ => none
    | .ok r2 => some r2.ready

/-- Result of `n` successive calls of `processOne`: the value returned and the
`setField` calls of each, and the final reader. -/
def HdfReader.pulls (lib : OutOfExtent) :
    Nat → HdfReader → Except Err (List (Bool × List FieldWrite) × HdfReader)
  | 0, r => .ok ([], r)
  | n + 1, r =>
    match HdfReader.processOne lib r with
    | .error e => .error e
    | .ok (b, writes, r') =>
      match HdfReader.pulls lib n r' with
      | .error e => .error e
      | .ok (more, r'') => .ok ((b, writes) :: more, r'')

/-- Column `i` of a handler seen as one record. -/
structure Column where
  info : DimInfo
  dset : DataSet
  offset : Nat
  buffer : List Nat

/-- The four parallel vectors of the handler read at position `i`. -/
def Hdf5Handler.column? (h : Hdf5Handler) (i : Nat) : Option Column :=
  match h.m_dimInfos[i]?, h.m_dsets[i]?, h.m_chunkOffsets[i]?, h.m_buffers[i]? with
  | some d, some ds, some off, some buf => some ⟨d, ds, off, buf⟩
  | _, _, _, _ => none

/-- The handler after a refill of column `i`: new buffer, new fetch cursor,
one more entry in the log of reads. -/
def Hdf5Handler.refilled (h : Hdf5Handler) (i : Nat) (buf : List Nat) (off : Nat)
    (entry : Nat × Nat × Nat) : Hdf5Handler :=
  { h with
    m_buffers := h.m_buffers.set i buf
    m_chunkOffsets := h.m_chunkOffsets.set i off
    reads := h.reads ++ [entry] }

/-- Number of chunks of size `c` needed to cover `k` rows. -/
def ceilDiv (k c : Nat) : Nat := (k + c - 1) / c

/-- Column `i` of the handler, with entry `b` of `m_info`, as it stands before
row `k` is materialised in a pass that began with the fetch cursor at 0, over
a dataset of `T` rows: sizes agree and fit 64 bits, the fetch cursor is the
number of chunks fetched so far times the chunk size, and once a row has been
materialised the buffer holds the chunk of row `k - 1`. -/
structure ColAt (T k i : Nat) (b : BufferInfo) (c : Column) : Prop where
  chunk : b.info.chunkSize = c.info.chunkSize
  size : b.info.size = c.info.size
  tsize : b.info.pdal_type.size = c.info.size
  dsize : c.dset.size = c.info.size
  npoints : c.dset.npoints = T
  pos : 0 < c.info.chunkSize
  fitsBuf : c.info.chunkSize * c.info.size < u64
  fitsOff : T + c.info.chunkSize < u64
  buflen : c.buffer.length = c.info.chunkSize * c.info.size
  offset : c.offset = ceilDiv k c.info.chunkSize * c.info.chunkSize
  ptr : 0 < k → b.buffer = some i
  content : c.dset.bytes.length = T * c.info.size → 0 < k →
    ∀ j, j < c.info.chunkSize → (k - 1) / c.info.chunkSize * c.info.chunkSize + j < T →
      (c.buffer.drop (j * c.info.size)).take c.info.size =
        (c.dset.bytes.drop (((k - 1) / c.info.chunkSize * c.info.chunkSize + j)
          * c.info.size)).take c.info.size

/-- Every entry of `todo`, the part of `m_info` from position `index` on, has
its column in the state `ColAt T k`. -/
def RowInv (T k index : Nat) (todo : List BufferInfo) (h : Hdf5Handler) : Prop :=
  ∀ j b, todo[j]? = some b →
    ∃ c, h.column? (index + j) = some c ∧ ColAt T k (index + j) b c

/-- The `setField` calls `ws` of row `k` for the entries `todo`: each carries
the id and type of its entry and the `size` bytes found at element `k mod
chunkSize` of the column's buffer in handler `h`. -/
def RowCells (k index : Nat) (todo : List BufferInfo) (ws : List FieldWrite)
    (h : Hdf5Handler) : Prop :=
  ws.length = todo.length ∧
  ∀ j b, todo[j]? = some b →
    ∃ c w, h.column? (index + j) = some c ∧ ws[j]? = some w ∧
      w.id = b.info.id ∧ w.type = b.info.pdal_type ∧
      w.bytes = (c.buffer.drop ((k % c.info.chunkSize) * c.info.size)).take c.info.size

/-- The reads `(column, start, count)` issued while row `k` of a pass over `T`
rows is materialised, for columns `index..` with the given chunk sizes: one
for each column whose chunk size divides `k`. -/
def refills (T k : Nat) : Nat → List Nat → List (Nat × Nat × Nat)
  | _, [] => []
  | index, chunkSize :: rest =>
    (if k % chunkSize = 0 then [(index, k, min (T - k) chunkSize)] else [])
      ++ refills T k (index + 1) rest

/-- The reader stands before row `k` of a pass over `T` rows that began with
all fetch cursors at 0. -/
def PassAt (T k : Nat) (r : HdfReader) : Prop :=
  r.m_hdf5Handler.m_numPoints = T ∧ r.m_index = k ∧ RowInv T k 0 r.m_info r.m_hdf5Handler

/-- The chunk sizes of the columns, in order. -/
def HdfReader.chunkSizes (r : HdfReader) : List Nat :=
  r.m_info.map (fun b => b.info.chunkSize)

/-- The reads issued while rows `k, k+1, .., k+n-1` are materialised. -/
def refillsFrom (T : Nat) (chunks : List Nat) : Nat → Nat → List (Nat × Nat × Nat)
  | _, 0 => []
  | k, n + 1 => refills T k 0 chunks ++ refillsFrom T chunks (k + 1) n

/-- State of the handler after `n` entries of the map have been processed by
`initialize` on a handler that began empty: `n` columns, nothing read, and for
every column the sizes recorded agree with the dataset, the dataset has
`m_numPoints` rows, the fetch cursor is 0, the chunk size is the native one or
1024, and the buffer has `chunkSize * size` bytes (modulo 2^64). -/
structure InitInv (h : Hdf5Handler) (n : Nat) : Prop where
  dimInfos : h.m_dimInfos.length = n
  dsets : h.m_dsets.length = n
  offsets : h.m_chunkOffsets.length = n
  buffers : h.m_buffers.length = n
  reads : h.reads = []
  col : ∀ i c, h.column? i = some c →
    c.info.size = c.dset.size ∧ c.info.pdal_type.size = c.dset.size ∧
    c.dset.npoints = h.m_numPoints ∧ c.offset = 0 ∧
    c.buffer.length = (c.info.chunkSize * c.info.size) % u64 ∧
    c.info.chunkSize = (if c.dset.layout = .H5D_CHUNKED then c.dset.chunkDim0 else 1024)

/-- No 64-bit quantity of the reader overflows: the row count can be
incremented, every chunk size is positive, every buffer size
`chunkSize * size` and every fetch cursor `numPoints + chunkSize` fits. -/
def HdfReader.Fits (r : HdfReader) : Prop :=
  r.m_hdf5Handler.m_numPoints + 1 < u64 ∧
  ∀ d ∈ r.m_hdf5Handler.m_dimInfos,
    0 < d.chunkSize ∧ d.chunkSize * d.size < u64 ∧
      r.m_hdf5Handler.m_numPoints + d.chunkSize < u64

instance (r : HdfReader) : Decidable r.Fits := by
  unfold HdfReader.Fits
  infer_instance

/-- Every dataset the handler has opened holds `npoints` elements of `size`
bytes. -/
def HdfReader.StoreWF (r : HdfReader) : Prop :=
  ∀ ds ∈ r.m_hdf5Handler.m_dsets, ds.bytes.length = ds.npoints * ds.size

instance (r : HdfReader) : Decidable r.StoreWF := by
  unfold HdfReader.StoreWF
  infer_instance

/-- The states reachable from `ready()` on `r0` by calls of `processOne` and
`read` that complete, with the number of `processOne` calls made. -/
inductive Reach (lib : OutOfExtent) (r0 : HdfReader) : Nat → HdfReader → Prop where
  | start : Reach lib r0 0 r0.ready
  | pull {n : Nat} {r r' : HdfReader} {b : Bool} {ws : List FieldWrite} :
      Reach lib r0 n r → HdfReader.processOne lib r = .ok (b, ws, r') →
      Reach lib r0 (n + 1) r'
  | bulk {n viewSize count m : Nat} {r r' : HdfReader} {ws : List (Nat × FieldWrite)} :
      Reach lib r0 n r → HdfReader.read lib r viewSize count = .ok (m, ws, r') →
      Reach lib r0 n r'

/-- Column `i` of the handler, with entry `b` of `m_info`, is consistent: the
sizes recorded agree with the dataset, the chunk size is positive, and the
buffer has `chunkSize * size` bytes, a number that fits 64 bits. -/
structure ColOK (b : BufferInfo) (c : Column) : Prop where
  chunk : b.info.chunkSize = c.info.chunkSize
  size : b.info.size = c.info.size
  tsize : b.info.pdal_type.size = c.info.size
  dsize : c.dset.size = c.info.size
  pos : 0 < c.info.chunkSize
  fitsBuf : c.info.chunkSize * c.info.size < u64
  buflen : c.buffer.length = c.info.chunkSize * c.info.size

/-- Every entry of `todo`, the part of `m_info` from position `index` on, has
a consistent column, and its buffer pointer is assigned unless row `row`
begins a chunk of the column. -/
def RowOK (row index : Nat) (todo : List BufferInfo) (h : Hdf5Handler) : Prop :=
  ∀ j b, todo[j]? = some b →
    ∃ c, h.column? (index + j) = some c ∧ ColOK b c ∧
      (row % c.info.chunkSize = 0 ∨ b.buffer = some (index + j))

/-- Every entry of `todo` has a consistent column. -/
def ColsOK (index : Nat) (todo : List BufferInfo) (h : Hdf5Handler) : Prop :=
  ∀ j b, todo[j]? = some b → ∃ c, h.column? (index + j) = some c ∧ ColOK b c

/-- The library serves every read, also outside the extent. -/
def Tolerant (lib : OutOfExtent) : Prop := ∀ d start count, (lib d start count).isSome = true

/-- The entry passes every check of the loop of `initialize` in a store
`file` when the row count is `T`: its dataset exists, has `T` rows, is
unchunked or chunked in one dimension, and is of integer or float class. -/
def entryPasses (file : H5File) (T : Nat) (entry : String × String) : Bool :=
  match file.openDataSet entry.2 with
  | none => false
  | some ds =>
    decide (ds.npoints = T) &&
    !(decide (ds.layout = H5D_layout_t.H5D_CHUNKED ∧ ds.chunkRank ≠ 1)) &&
    (decide (ds.cls = H5T_class_t.H5T_INTEGER) || decide (ds.cls = H5T_class_t.H5T_FLOAT))

/-- The error `initialize` raises for an element class that is neither
integer nor float. -/
def unsupportedTypeError (cls : H5T_class_t) : Err :=
  if cls = H5T_class_t.H5T_COMPOUND then Err.compoundType else Err.unknownType

/-- The error a call of `initialize` ended with, if any. -/
def initError (res : Except (Err × Hdf5Handler) Hdf5Handler) : Option Err :=
  match res with
  | .ok _ => none
  | .error (e, _) => some e

/-- The handler as a call of `initialize` left it, also when it raised. -/
def initState (res : Except (Err × Hdf5Handler) Hdf5Handler) : Hdf5Handler :=
  match res with
  | .ok h => h
  | .error (_, h) => h

/-- The handler `initialize` starts its loop with when it was called on a
handler as constructed: empty, holding the opened file. -/
def Hdf5Handler.opening (garbage : Nat) (file : H5File) : Hdf5Handler :=
  { Hdf5Handler.fresh garbage with m_h5File := some file }

/-- The entries of a map stand in strictly increasing key order. -/
def KeySorted (m : List (String × String)) : Prop :=
  m.Pairwise (fun a b => keyLess a.1 b.1 = true)

/-- The map a call of `parseDimensions` produced, if it completed. -/
def parsedMap (res : Except Err HdfReader) : Option (List (String × String)) :=
  match res with
  | .ok r => some r.m_pathDimMap
  | .error _ => none

/-- The `w` low-order base-256 digits of `v`, least significant first. -/
def encodeLE : Nat → Nat → List Nat
  | 0, _ => []
  | w + 1, v => (v % 256) :: encodeLE w (v / 256)

/-- The number whose base-256 digits, least significant first, are given. -/
def decodeLE : List Nat → Nat
  | [] => 0
  | b :: bs => b + 256 * decodeLE bs

/-- Whether the integer `v` fits a `size`-byte integer of the given
signedness (two's complement when signed). -/
def intFits (signed : Bool) (size : Nat) (v : Int) : Bool :=
  if signed then
    decide (-((2 ^ (8 * size) / 2 : Nat) : Int) ≤ v ∧ v < ((2 ^ (8 * size) / 2 : Nat) : Int))
  else
    decide (0 ≤ v ∧ v < ((2 ^ (8 * size) : Nat) : Int))

/-- The `size` bytes that store the integer `v` in a column of the given byte
order and signedness; `none` when `v` does not fit or the order is neither
little- nor big-endian. -/
def encodeInt (order : H5T_order_t) (signed : Bool) (size : Nat) (v : Int) :
    Option (List Nat) :=
  if intFits signed size v then
    match order with
    | .H5T_ORDER_LE => some (encodeLE size (v % ((2 ^ (8 * size) : Nat) : Int)).toNat)
    | .H5T_ORDER_BE => some (encodeLE size (v % ((2 ^ (8 * size) : Nat) : Int)).toNat).reverse
    | _ => none
  else none

/-- Modelled from the spec: the decoding of a field by the sink, "decoded
according to the column's declared byte order and sign/width" (section 4.2);
the sink (`setField` of the point table) is not among the sources.  The bytes
are read in the given order as an unsigned number, which a signed type takes
as two's complement. -/
def decodeInt (order : H5T_order_t) (type : DimType) (bytes : List Nat) : Option Int :=
  let half : Nat := 2 ^ (8 * type.size) / 2
  let full : Nat := 2 ^ (8 * type.size)
  let value (u : Nat) : Int :=
    if type.base = .Signed ∧ half ≤ u then (u : Int) - (full : Int) else (u : Int)
  match order with
  | .H5T_ORDER_LE => some (value (decodeLE bytes))
  | .H5T_ORDER_BE => some (value (decodeLE bytes.reverse))
  | _ => none

/-- Example column `/data/x`: five signed little-endian 16-bit values
10, 11, 12, 13, 14 in chunks of two. -/
def exampleX : DataSet :=
  { npoints := 5, layout := .H5D_CHUNKED, chunkRank := 1, chunkDim0 := 2,
    cls := .H5T_INTEGER, sign := .H5T_SGN_2, order := .H5T_ORDER_LE, size := 2,
    bytes := [10, 0, 11, 0, 12, 0, 13, 0, 14, 0] }

/-- Example column `/data/y`: five unsigned bytes 20..24 in chunks of two. -/
def exampleY : DataSet :=
  { npoints := 5, layout := .H5D_CHUNKED, chunkRank := 1, chunkDim0 := 2,
    cls := .H5T_INTEGER, sign := .H5T_SGN_NONE, order := .H5T_ORDER_LE, size := 1,
    bytes := [20, 21, 22, 23, 24] }

/-- Example file holding the two columns. -/
def exampleFile : H5File := ⟨[("/data/x", exampleX), ("/data/y", exampleY)]⟩

/-- File system in which only `f.h5` exists. -/
def exampleFs : String → Option H5File :=
  fun name => if name = "f.h5" then some exampleFile else none

/-- Layout that numbers dimension `x` as 1 and every other as 2. -/
def exampleReg : String → DimType → Nat :=
  fun name _ => if name = "x" then 1 else 2

/-- The option `{"x": "/data/x", "y": "/data/y"}`. -/
def exampleJson : Json :=
  .object [("x", .string "/data/x"), ("y", .string "/data/y")]

/-- The reader over the example file, set up and ready. -/
def exampleReady : HdfReader :=
  (HdfReader.prepare exampleFs exampleReg (HdfReader.fresh 0 0 "f.h5" exampleJson)).getD
    (HdfReader.fresh 0 0 "f.h5" exampleJson)

/-- Example column of four unsigned bytes 1, 2, 3, 4 in chunks of two: the
chunk size divides the row count. -/
def evenX : DataSet :=
  { npoints := 4, layout := .H5D_CHUNKED, chunkRank := 1, chunkDim0 := 2,
    cls := .H5T_INTEGER, sign := .H5T_SGN_NONE, order := .H5T_ORDER_LE, size := 1,
    bytes := [1, 2, 3, 4] }

/-- File system in which only `even.h5`, holding `evenX` as `/data/x`, exists. -/
def evenFs : String → Option H5File :=
  fun name => if name = "even.h5" then some ⟨[("/data/x", evenX)]⟩ else none

/-- The reader over `even.h5` with the option `{"x": "/data/x"}`, set up and
ready. -/
def evenReady : HdfReader :=
  (HdfReader.prepare evenFs exampleReg
      (HdfReader.fresh 0 0 "even.h5" (.object [("x", .string "/data/x")]))).getD
    (HdfReader.fresh 0 0 "even.h5" .null)

/-- The values returned by a run of `processOne` calls. -/
def returned (res : Except Err (List (Bool × List FieldWrite) × HdfReader)) :
    Option (List Bool) :=
  match res with
  | .ok (rows, _) => some (rows.map (fun x => x.1))
  | .error _ => none

/-- The bytes handed to the sink by a run of `processOne` calls: per call, per
column. -/
def written (res : Except Err (List (Bool × List FieldWrite) × HdfReader)) :
    Option (List (List (List Nat))) :=
  match res with
  | .ok (rows, _) => some (rows.map (fun x => x.2.map (fun w => w.bytes)))
  | .error _ => none

/-- The log of library reads after a run of `processOne` calls. -/
def readsAfter (res : Except Err (List (Bool × List FieldWrite) × HdfReader)) :
    Option (List (Nat × Nat × Nat)) :=
  match res with
  | .ok (_, r) => some r.m_hdf5Handler.reads
  | .error _ => none

/-- The row cursor after a run of `processOne` calls. -/
def cursorAfter (res : Except Err (List (Bool × List FieldWrite) × HdfReader)) :
    Option Nat :=
  match res with
  | .ok (_, r) => some r.m_index
  | .error _ => none

/-- The fetch cursors after a run of `processOne` calls. -/
def offsetsAfter (res : Except Err (List (Bool × List FieldWrite) × HdfReader)) :
    Option (List Nat) :=
  match res with
  | .ok (_, r) => some r.m_hdf5Handler.m_chunkOffsets
  | .error _ => none

/-- The error a run ended with, if any. -/
def failure {α : Type} (res : Except Err α) : Option Err :=
  match res with
  | .ok _ => none
  | .error e => some e

/-- A run of `n` calls of `processOne`, then `ready`, then `m` more calls. -/
def HdfReader.secondPass (lib : OutOfExtent) (r : HdfReader) (n m : Nat) :
    Except Err (List (Bool × List FieldWrite) × HdfReader) :=
  match HdfReader.pulls lib n r with
  | .error e => .error e
  | .ok (_, r') => HdfReader.pulls lib m r'.ready

/-- The value returned by a call of `read`. -/
def bulkReturned (res : Except Err (Nat × List (Nat × FieldWrite) × HdfReader)) : Option Nat :=
  match res with
  | .ok (n, _, _) => some n
  | .error _ => none

/-- The `setField` calls of a call of `read`: point id and bytes of each. -/
def bulkWritten (res : Except Err (Nat × List (Nat × FieldWrite) × HdfReader)) :
    Option (List (Nat × List Nat)) :=
  match res with
  | .ok (_, ws, _) => some (ws.map (fun w => (w.1, w.2.bytes)))
  | .error _ => none

/-- The row cursor after a call of `read`. -/
def bulkCursor (res : Except Err (Nat × List (Nat × FieldWrite) × HdfReader)) : Option Nat :=
  match res with
  | .ok (_, _, r) => some r.m_index
  | .error _ => none

/-- The reader after `n` calls of `processOne` (the reader itself when the
run fails). -/
def HdfReader.afterPulls (lib : OutOfExtent) (n : Nat) (r : HdfReader) : HdfReader :=
  match HdfReader.pulls lib n r with
  | .ok (_, r') => r'
  | .error _ => r

/-- A five-row integer column. -/
def intFive : DataSet :=
  { npoints := 5, layout := .H5D_CONTIGUOUS, chunkRank := 0, chunkDim0 := 0,
    cls := .H5T_INTEGER, sign := .H5T_SGN_NONE, order := .H5T_ORDER_LE, size := 1,
    bytes := [1, 2, 3, 4, 5] }

/-- A six-row integer column. -/
def intSix : DataSet :=
  { npoints := 6, layout := .H5D_CONTIGUOUS, chunkRank := 0, chunkDim0 := 0,
    cls := .H5T_INTEGER, sign := .H5T_SGN_NONE, order := .H5T_ORDER_LE, size := 1,
    bytes := [1, 2, 3, 4, 5, 6] }

/-- A five-row column of compound elements. -/
def compoundFive : DataSet :=
  { npoints := 5, layout := .H5D_CONTIGUOUS, chunkRank := 0, chunkDim0 := 0,
    cls := .H5T_COMPOUND, sign := .H5T_SGN_ERROR, order := .H5T_ORDER_NONE, size := 2,
    bytes := [1, 1, 2, 2, 3, 3, 4, 4, 5, 5] }

/-- A six-row column of compound elements. -/
def compoundSix : DataSet :=
  { npoints := 6, layout := .H5D_CONTIGUOUS, chunkRank := 0, chunkDim0 := 0,
    cls := .H5T_COMPOUND, sign := .H5T_SGN_ERROR, order := .H5T_ORDER_NONE, size := 2,
    bytes := [1, 1, 2, 2, 3, 3, 4, 4, 5, 5, 6, 6] }

/-- A store with columns of two lengths and two classes. -/
def mixedFile : H5File :=
  ⟨[("/i5", intFive), ("/i6", intSix), ("/c5", compoundFive), ("/c6", compoundSix)]⟩

/-- File system in which only `mixed.h5` exists. -/
def mixedFs : String → Option H5File :=
  fun name => if name = "mixed.h5" then some mixedFile else none

/-- The handler states reachable from `h0` by calls of `getNextChunk` that
complete.  Nothing else in the reader changes a handler once `initialize` has
returned. -/
inductive Fetched (lib : OutOfExtent) (h0 : Hdf5Handler) : Hdf5Handler → Prop where
  | start : Fetched lib h0 h0
  | next {h h' : Hdf5Handler} {i : Nat} :
      Fetched lib h0 h → h.getNextChunk lib i = .ok h' → Fetched lib h0 h'

/-- The value `getNextChunk` computes as `elementsRemaining` when the row
count is `T` and the fetch cursor is `offset`: an unsigned 64-bit difference. -/
def elementsRemaining (T offset : Nat) : Nat := (T + u64 - offset) % u64

/-- The reads `(column, start, count)` that materialising row 0 issues for
columns `index..` with the given chunk sizes when every fetch cursor stands
where `T` materialised rows have left it: at `ceilDiv T C * C`. -/
def refillsAfterReady (T : Nat) : Nat → List Nat → List (Nat × Nat × Nat)
  | _, [] => []
  | index, chunkSize :: rest =>
    (index, ceilDiv T chunkSize * chunkSize,
        min (elementsRemaining T (ceilDiv T chunkSize * chunkSize)) chunkSize)
      :: refillsAfterReady T (index + 1) rest

/-- The schema mapping of the example, as `parseDimensions` leaves it. -/
def exampleMap : List (String × String) := [("x", "/data/x"), ("y", "/data/y")]

/-- The handler `initialize` leaves for the example. -/
def exampleHandler : Hdf5Handler :=
  initState ( Hdf5Handler.initialize exampleFs (Hdf5Handler.fresh 0) "f.h5" exampleMap)

/-- The handler after a call of `getNextChunk(i)` (the handler itself when
the call raises). -/
def Hdf5Handler.afterFetch (lib : OutOfExtent) (h : Hdf5Handler) (i : Nat) : Hdf5Handler :=
  match h.getNextChunk lib i with
  | .ok h' => h'
  | .error _ => h

/-- The example handler after two refills of column `x`: its fetch cursor
stands at 4, before the last, partial chunk of the five rows. -/
def exampleTail : Hdf5Handler :=
  (exampleHandler.afterFetch rejectOutside 0).afterFetch rejectOutside 0

/-- Column `x` of `exampleTail`: the buffer holds rows 2 and 3. -/
def exampleTailX : Column :=
  { info := DimInfo.ofIntType "x" exampleX 2, dset := exampleX, offset := 4,
    buffer := [12, 0, 13, 0] }

/-- A store whose only column `/data/u` is unchunked: three unsigned bytes. -/
def plainFs : String → Option H5File :=
  fun name =>
    if name = "plain.h5" then
      some ⟨[("/data/u",
        { npoints := 3, layout := .H5D_CONTIGUOUS, chunkRank := 0, chunkDim0 := 0,
          cls := .H5T_INTEGER, sign := .H5T_SGN_NONE, order := .H5T_ORDER_LE, size := 1,
          bytes := [7, 8, 9] })]⟩
    else none

/-- The handler `initialize` leaves for the unchunked column, mapped as `u`. -/
def plainHandler : Hdf5Handler :=
  initState ( Hdf5Handler.initialize plainFs (Hdf5Handler.fresh 0) "plain.h5" [("u", "/data/u")])

/-- The fetch cursors of a handler. -/
def fetchCursors (h : Hdf5Handler) : List Nat := h.m_chunkOffsets

/-- The sizes of the decode buffers of a handler. -/
def bufferSizes (h : Hdf5Handler) : List Nat := h.m_buffers.map List.length

/-- The chunk sizes recorded in the column descriptors of a handler. -/
def chunkSizesOf (h : Hdf5Handler) : List Nat := h.m_dimInfos.map (fun d => d.chunkSize)

/-- The library log after a call of `getNextChunk`; `none` when it raised. -/
def fetchReads (res : Except Err Hdf5Handler) : Option (List (Nat × Nat × Nat)) :=
  match res with
  | .ok h => some h.reads
  | .error _ => none

/-- The fetch cursors after a call of `getNextChunk`; `none` when it raised. -/
def fetchOffsets (res : Except Err Hdf5Handler) : Option (List Nat) :=
  match res with
  | .ok h => some h.m_chunkOffsets
  | .error _ => none

/-- The buffers after a call of `getNextChunk`; `none` when it raised. -/
def fetchBuffers (res : Except Err Hdf5Handler) : Option (List (List Nat)) :=
  match res with
  | .ok h => some h.m_buffers
  | .error _ => none

/-- The reader after a call of `read` (the reader itself when the call
raises). -/
def HdfReader.afterRead (lib : OutOfExtent) (r : HdfReader) (viewSize count : Nat) :
    HdfReader :=
  match HdfReader.read lib r viewSize count with
  | .ok (_, _, r') => r'
  | .error _ => r

/-- Whether the library serves the read `getNextChunk(i)` issues in state
`h`: of `min (elementsRemaining, chunkSize)` elements from the fetch cursor of
column `i`. -/
def Hdf5Handler.served (lib : OutOfExtent) (h : Hdf5Handler) (i : Nat) : Bool :=
  match h.column? i with
  | some c =>
    (c.dset.read lib c.offset
      (min (elementsRemaining h.m_numPoints c.offset) c.info.chunkSize)).isSome
  | none => false

theorem column?_eq_some {h : Hdf5Handler} {i : Nat} {c : Column} :
    h.column? i = some c ↔
      h.m_dimInfos[i]? = some c.info ∧ h.m_dsets[i]? = some c.dset ∧
      h.m_chunkOffsets[i]? = some c.offset ∧ h.m_buffers[i]? = some c.buffer := by
  unfold Hdf5Handler.column?
  cases c with
  | mk d ds off buf =>
    constructor
    · intro hc
      split at hc
      · simp only [Option.some.injEq, Column.mk.injEq] at hc
        obtain ⟨h1, h2, h3, h4⟩ := hc
        subst h1 h2 h3 h4
        simp [*]
      · simp at hc
    · rintro ⟨h1, h2, h3, h4⟩
      simp only at h1 h2 h3 h4
      simp [h1, h2, h3, h4]

theorem getNextChunk_ok {lib : OutOfExtent} {h : Hdf5Handler} {i : Nat} {c : Column}
    {bs : List Nat} (hc : h.column? i = some c)
    (hread : c.dset.read lib c.offset
      (min ((h.m_numPoints + u64 - c.offset) % u64) c.info.chunkSize) = some bs)
    (hfit : bs.length ≤ c.buffer.length) :
    h.getNextChunk lib i = .ok
      { h with
        m_buffers := h.m_buffers.set i (bs ++ c.buffer.drop bs.length)
        m_chunkOffsets := h.m_chunkOffsets.set i ((c.offset + c.info.chunkSize) % u64)
        reads := h.reads ++
          [(i, c.offset, min ((h.m_numPoints + u64 - c.offset) % u64) c.info.chunkSize)] } := by
  obtain ⟨h1, h2, h3, h4⟩ := column?_eq_some.mp hc
  simp [Hdf5Handler.getNextChunk, vecAt, h1, h2, h3, h4, hread, hfit, bind, Except.bind]


theorem refilled_column_self {h : Hdf5Handler} {i : Nat} {c : Column} (buf : List Nat)
    (off : Nat) (entry : Nat × Nat × Nat) (hc : h.column? i = some c) :
    (h.refilled i buf off entry).column? i = some { c with offset := off, buffer := buf } := by
  obtain ⟨h1, h2, h3, h4⟩ := column?_eq_some.mp hc
  have hb : i < h.m_buffers.length := (List.getElem?_eq_some.mp h4).1
  have ho : i < h.m_chunkOffsets.length := (List.getElem?_eq_some.mp h3).1
  rw [column?_eq_some]
  simp [Hdf5Handler.refilled, h1, h2, hb, ho]

theorem refilled_column_other {h : Hdf5Handler} {i j : Nat} (buf : List Nat)
    (off : Nat) (entry : Nat × Nat × Nat) (hij : i ≠ j) :
    (h.refilled i buf off entry).column? j = h.column? j := by
  simp [Hdf5Handler.column?, Hdf5Handler.refilled, List.getElem?_set_ne hij]

theorem slice_slice {α : Type} (l : List α) (a n b m : Nat) (h : b + m ≤ n) :
    (((l.drop a).take n).drop b).take m = (l.drop (a + b)).take m := by
  rw [List.drop_take, List.take_take, List.drop_drop, Nat.min_eq_left (by omega)]

theorem slice_append {α : Type} (l r : List α) (b m : Nat) (h : b + m ≤ l.length) :
    ((l ++ r).drop b).take m = (l.drop b).take m := by
  rw [List.drop_append_of_le_length (by omega), List.take_append_of_le_length]
  simp only [List.length_drop]
  omega

theorem ceilDiv_mul_of_dvd {k c : Nat} (hc : 0 < c) (h : k % c = 0) : ceilDiv k c * c = k := by
  unfold ceilDiv
  obtain ⟨q, rfl⟩ := Nat.dvd_of_mod_eq_zero h
  have : (c * q + c - 1) / c = q := by
    apply Nat.div_eq_of_lt_le
    · have : q * c = c * q := Nat.mul_comm q c
      omega
    · have : (q + 1) * c = c * q + c := by ring
      omega
  rw [this, Nat.mul_comm]

theorem ceilDiv_succ {k c : Nat} (hc : 0 < c) : ceilDiv (k + 1) c = k / c + 1 := by
  unfold ceilDiv
  have : k + 1 + c - 1 = k + c := by omega
  rw [this, Nat.add_div_right k hc]

theorem ceilDiv_of_not_dvd {k c : Nat} (hc : 0 < c) (h : k % c ≠ 0) :
    ceilDiv k c = k / c + 1 := by
  obtain ⟨j, rfl⟩ : ∃ j, k = j + 1 := ⟨k - 1, by
    have : k ≠ 0 := by rintro rfl; simp at h
    omega⟩
  rw [ceilDiv_succ hc]
  have h1 := Nat.div_add_mod j c
  have h2 := Nat.div_add_mod (j + 1) c
  have h3 := Nat.mod_lt j hc
  have h4 := Nat.mod_lt (j + 1) hc
  have : (j + 1) / c = j / c := by
    by_contra hne
    rcases Nat.lt_or_gt_of_ne hne with hlt | hgt
    · have h5 : c * ((j + 1) / c + 1) ≤ c * (j / c) := Nat.mul_le_mul_left c hlt
      have h6 : c * ((j + 1) / c + 1) = c * ((j + 1) / c) + c := by ring
      omega
    · have h5 : c * (j / c + 1) ≤ c * ((j + 1) / c) := Nat.mul_le_mul_left c hgt
      have h6 : c * (j / c + 1) = c * (j / c) + c := by ring
      have : (j + 1) % c = 0 := by omega
      exact h this
  omega


theorem fillColumn_step (lib : OutOfExtent) {T k i : Nat} {b : BufferInfo} {c : Column}
    {h : Hdf5Handler} (hT : h.m_numPoints = T) (hk : k ≤ T)
    (hc : h.column? i = some c) (inv : ColAt T k i b c) :
    ∃ b' c' h',
      HdfReader.fillColumn lib k i b h = .ok (b',
        ⟨b.info.id, b.info.pdal_type,
          (c'.buffer.drop ((k % c.info.chunkSize) * c.info.size)).take c.info.size⟩, h') ∧
      b'.info = b.info ∧ h'.m_numPoints = T ∧ h'.column? i = some c' ∧
      (∀ j, i ≠ j → h'.column? j = h.column? j) ∧
      ColAt T (k + 1) i b' c' ∧ c'.dset = c.dset ∧ c'.info = c.info ∧
      h'.reads = h.reads ++
        (if k % c.info.chunkSize = 0 then [(i, k, min (T - k) c.info.chunkSize)] else []) := by
  have hC := inv.pos
  have hT64 : T < u64 := by have := inv.fitsOff; omega
  have hmodlt : k % c.info.chunkSize < c.info.chunkSize := Nat.mod_lt _ hC
  have hoffW : (k % c.info.chunkSize) * c.info.size + c.info.size
      ≤ c.info.chunkSize * c.info.size := by
    have : (k % c.info.chunkSize + 1) * c.info.size ≤ c.info.chunkSize * c.info.size :=
      Nat.mul_le_mul_right _ hmodlt
    have e : (k % c.info.chunkSize + 1) * c.info.size
        = (k % c.info.chunkSize) * c.info.size + c.info.size := by ring
    omega
  have hmod64 : ((k % c.info.chunkSize) * c.info.size) % u64
      = (k % c.info.chunkSize) * c.info.size := by
    apply Nat.mod_eq_of_lt
    have := inv.fitsBuf
    omega
  have hne : ¬ b.info.chunkSize = 0 := by rw [inv.chunk]; omega
  by_cases hz : k % c.info.chunkSize = 0
  · -- the row begins a chunk: refill
    have hoff : c.offset = k := by rw [inv.offset, ceilDiv_mul_of_dvd hC hz]
    have hrem : (h.m_numPoints + u64 - c.offset) % u64 = T - k := by
      rw [hT, hoff]
      have : T + u64 - k = (T - k) + u64 := by omega
      rw [this, Nat.add_mod_right, Nat.mod_eq_of_lt (by omega)]
    have hsel : min (T - k) c.info.chunkSize ≤ T - k := Nat.min_le_left _ _
    have hselC : min (T - k) c.info.chunkSize ≤ c.info.chunkSize := Nat.min_le_right _ _
    have hread : c.dset.read lib c.offset
        (min ((h.m_numPoints + u64 - c.offset) % u64) c.info.chunkSize)
        = some ((c.dset.bytes.drop (k * c.info.size)).take
            (min (T - k) c.info.chunkSize * c.info.size)) := by
      rw [hrem, hoff]
      unfold DataSet.read
      rw [if_pos (by rw [inv.npoints]; omega), inv.dsize]
    have hlen : ((c.dset.bytes.drop (k * c.info.size)).take
        (min (T - k) c.info.chunkSize * c.info.size)).length
        ≤ min (T - k) c.info.chunkSize * c.info.size := by
      rw [List.length_take]; exact Nat.min_le_left _ _
    have hselW : min (T - k) c.info.chunkSize * c.info.size
        ≤ c.info.chunkSize * c.info.size := Nat.mul_le_mul_right _ hselC
    have hfit : ((c.dset.bytes.drop (k * c.info.size)).take
        (min (T - k) c.info.chunkSize * c.info.size)).length ≤ c.buffer.length := by
      rw [inv.buflen]; omega
    have hgn := getNextChunk_ok hc hread hfit
    rw [hrem, hoff] at hgn
    have hplus : (k + c.info.chunkSize) % u64 = k + c.info.chunkSize := by
      apply Nat.mod_eq_of_lt
      have := inv.fitsOff
      omega
    rw [hplus] at hgn
    set bs := (c.dset.bytes.drop (k * c.info.size)).take
        (min (T - k) c.info.chunkSize * c.info.size) with hbs
    set buf' := bs ++ c.buffer.drop bs.length with hbuf'
    have hbuflen : buf'.length = c.info.chunkSize * c.info.size := by
      rw [hbuf', List.length_append, List.length_drop, inv.buflen]
      omega
    have hcol' := refilled_column_self buf' (k + c.info.chunkSize)
      (i, k, min (T - k) c.info.chunkSize) hc
    have hgn' : h.getNextChunk lib i = .ok (h.refilled i buf' (k + c.info.chunkSize)
        (i, k, min (T - k) c.info.chunkSize)) := hgn
    refine ⟨{ b with buffer := some i },
      { c with offset := k + c.info.chunkSize, buffer := buf' },
      h.refilled i buf' (k + c.info.chunkSize) (i, k, min (T - k) c.info.chunkSize),
      ?_, rfl, ?_, hcol', ?_, ?_, rfl, rfl, ?_⟩
    · have hb4 := (column?_eq_some.mp hcol').2.2.2
      simp only at hb4
      unfold HdfReader.fillColumn
      rw [if_neg hne]
      simp only [inv.chunk, hz, if_true, hgn', loadBytes, hb4, inv.size, inv.tsize, hmod64]
      rw [if_pos (by rw [hbuflen]; simpa [hz] using hoffW)]
      simp [hz]
    · exact hT
    · intro j hij
      exact refilled_column_other _ _ _ hij
    · refine ⟨inv.chunk, inv.size, inv.tsize, inv.dsize, inv.npoints, inv.pos, inv.fitsBuf,
        inv.fitsOff, hbuflen, ?_, fun _ => rfl, ?_⟩
      · show k + c.info.chunkSize = _
        rw [ceilDiv_succ hC, Nat.add_mul, Nat.one_mul, Nat.div_mul_cancel
          (Nat.dvd_of_mod_eq_zero hz)]
      · intro hwf _ j hj hjT
        dsimp only at hwf hj hjT ⊢
        have hkk : (k + 1 - 1) / c.info.chunkSize * c.info.chunkSize = k := by
          rw [Nat.add_sub_cancel, Nat.div_mul_cancel (Nat.dvd_of_mod_eq_zero hz)]
        rw [hkk] at hjT ⊢
        have hjsel : j < min (T - k) c.info.chunkSize := by
          rw [Nat.lt_min]; omega
        have hjW : j * c.info.size + c.info.size
            ≤ min (T - k) c.info.chunkSize * c.info.size := by
          have h7 : (j + 1) * c.info.size ≤ min (T - k) c.info.chunkSize * c.info.size :=
            Nat.mul_le_mul_right c.info.size hjsel
          have e : (j + 1) * c.info.size = j * c.info.size + c.info.size := by ring
          omega
        have hbslen : bs.length = min (T - k) c.info.chunkSize * c.info.size := by
          rw [hbs, List.length_take, List.length_drop, hwf]
          have : min (T - k) c.info.chunkSize * c.info.size
              ≤ (T - k) * c.info.size := Nat.mul_le_mul_right _ hsel
          have e : (T - k) * c.info.size = T * c.info.size - k * c.info.size :=
            Nat.sub_mul T k c.info.size
          omega
        rw [hbuf', slice_append _ _ _ _ (by omega), hbs, slice_slice _ _ _ _ _ hjW,
          Nat.add_mul]
    · simp [Hdf5Handler.refilled, hz]
  · -- inside a chunk: no refill
    have hkpos : 0 < k := by
      rcases Nat.eq_zero_or_pos k with h0 | h0
      · subst h0; simp at hz
      · exact h0
    have hptr := inv.ptr hkpos
    have hb4 := (column?_eq_some.mp hc).2.2.2
    refine ⟨b, c, h, ?_, rfl, hT, hc, fun _ _ => rfl, ?_, rfl, rfl, ?_⟩
    · unfold HdfReader.fillColumn
      rw [if_neg hne]
      simp only [inv.chunk, hz, if_false, loadBytes, hptr, hb4, inv.size, inv.tsize, hmod64]
      rw [if_pos (by rw [inv.buflen]; exact hoffW)]
    · have hdiv : (k + 1 - 1) / c.info.chunkSize = (k - 1) / c.info.chunkSize := by
        have h1 := ceilDiv_of_not_dvd hC hz
        have h2 : ceilDiv k c.info.chunkSize = (k - 1) / c.info.chunkSize + 1 := by
          have : k = (k - 1) + 1 := by omega
          rw [this, ceilDiv_succ hC]; simp
        rw [Nat.add_sub_cancel]
        omega
      refine ⟨inv.chunk, inv.size, inv.tsize, inv.dsize, inv.npoints, inv.pos, inv.fitsBuf,
        inv.fitsOff, inv.buflen, ?_, fun _ => hptr, ?_⟩
      · rw [inv.offset, ceilDiv_of_not_dvd hC hz, ceilDiv_succ hC]
      · intro hwf _ j hj hjT
        rw [hdiv] at hjT ⊢
        exact inv.content hwf hkpos j hj hjT
    · simp [hz]


theorem getNextChunk_static {lib : OutOfExtent} {h h' : Hdf5Handler} {i : Nat}
    (hh : h.getNextChunk lib i = .ok h') :
    h'.m_numPoints = h.m_numPoints ∧ h'.m_dimInfos = h.m_dimInfos ∧
      h'.m_dsets = h.m_dsets ∧ h'.opened = h.opened := by
  unfold Hdf5Handler.getNextChunk at hh
  simp only [bind, Except.bind] at hh
  repeat' split at hh
  all_goals first
    | (cases hh; done)
    | (cases hh; exact ⟨rfl, rfl, rfl, rfl⟩)

theorem fillColumn_static {lib : OutOfExtent} {k i : Nat} {b b' : BufferInfo}
    {w : FieldWrite} {h h' : Hdf5Handler}
    (hh : HdfReader.fillColumn lib k i b h = .ok (b', w, h')) :
    b'.info = b.info ∧ w.id = b.info.id ∧ w.type = b.info.pdal_type ∧
      h'.m_numPoints = h.m_numPoints ∧ h'.m_dimInfos = h.m_dimInfos ∧
      h'.m_dsets = h.m_dsets ∧ h'.opened = h.opened := by
  unfold HdfReader.fillColumn at hh
  split at hh
  · cases hh
  · dsimp only at hh
    split at hh
    · cases hh
    · rename_i info1 h1 hre
      split at hh
      · cases hh
      · cases hh
        split at hre
        · split at hre
          · cases hre
          · rename_i h2 hg
            cases hre
            obtain ⟨s1, s2, s3, s4⟩ := getNextChunk_static hg
            exact ⟨rfl, rfl, rfl, s1, s2, s3, s4⟩
        · cases hre
          exact ⟨rfl, rfl, rfl, rfl, rfl, rfl, rfl⟩

theorem fillRow_static {lib : OutOfExtent} {k : Nat} :
    ∀ (todo : List BufferInfo) (index : Nat) (h : Hdf5Handler)
      {infos : List BufferInfo} {ws : List FieldWrite} {h' : Hdf5Handler},
      HdfReader.fillRow lib k index todo h = .ok (infos, ws, h') →
      infos.map (fun b => b.info) = todo.map (fun b => b.info) ∧
        ws.map (fun w => (w.id, w.type)) = todo.map (fun b => (b.info.id, b.info.pdal_type)) ∧
        h'.m_numPoints = h.m_numPoints ∧ h'.m_dimInfos = h.m_dimInfos ∧
        h'.m_dsets = h.m_dsets ∧ h'.opened = h.opened
  | [], _, h, infos, ws, h', hh => by
    simp only [HdfReader.fillRow, Except.ok.injEq, Prod.mk.injEq] at hh
    obtain ⟨rfl, rfl, rfl⟩ := hh
    simp
  | b :: rest, index, h, infos, ws, h', hh => by
    unfold HdfReader.fillRow at hh
    split at hh
    · cases hh
    · rename_i b1 w1 h1 hcol
      split at hh
      · cases hh
      · rename_i infos1 ws1 h2 hrest
        cases hh
        obtain ⟨c1, c2, c3, c4, c5, c6, c7⟩ := fillColumn_static hcol
        obtain ⟨r1, r2, r3, r4, r5, r6⟩ := fillRow_static rest (index + 1) h1 hrest
        refine ⟨?_, ?_, ?_, ?_, ?_, ?_⟩
        · simp [c1, r1]
        · simp [c2, c3, r2]
        · rw [r3, c4]
        · rw [r4, c5]
        · rw [r5, c6]
        · rw [r6, c7]

theorem processOne_static {lib : OutOfExtent} {r r' : HdfReader} {b : Bool}
    {ws : List FieldWrite} (hh : HdfReader.processOne lib r = .ok (b, ws, r')) :
    r'.m_index = (r.m_index + 1) % u64 ∧
      b = decide ((r.m_index + 1) % u64 ≤ r.m_hdf5Handler.m_numPoints) ∧
      r'.m_info.map (fun b => b.info) = r.m_info.map (fun b => b.info) ∧
      ws.map (fun w => (w.id, w.type)) = r.m_info.map (fun b => (b.info.id, b.info.pdal_type)) ∧
      r'.m_hdf5Handler.m_numPoints = r.m_hdf5Handler.m_numPoints ∧
      r'.m_hdf5Handler.m_dimInfos = r.m_hdf5Handler.m_dimInfos ∧
      r'.m_hdf5Handler.m_dsets = r.m_hdf5Handler.m_dsets := by
  unfold HdfReader.processOne at hh
  split at hh
  · cases hh
  · rename_i infos ws1 h1 hrow
    cases hh
    obtain ⟨r1, r2, r3, r4, r5, _⟩ := fillRow_static _ _ _ hrow
    exact ⟨rfl, by simp [Hdf5Handler.getNumPoints, r3], r1, r2, r3, r4, r5⟩

theorem readLoop_static {lib : OutOfExtent} :
    ∀ (n pi nextId : Nat) (r : HdfReader) {ws : List (Nat × FieldWrite)} {r' : HdfReader},
      HdfReader.readLoop lib n pi nextId r = .ok (ws, r') →
      r'.m_index = r.m_index ∧
        r'.m_info.map (fun b => b.info) = r.m_info.map (fun b => b.info) ∧
        r'.m_hdf5Handler.m_numPoints = r.m_hdf5Handler.m_numPoints ∧
        r'.m_hdf5Handler.m_dimInfos = r.m_hdf5Handler.m_dimInfos ∧
        r'.m_hdf5Handler.m_dsets = r.m_hdf5Handler.m_dsets
  | 0, _, _, r, ws, r', hh => by
    simp only [HdfReader.readLoop, Except.ok.injEq, Prod.mk.injEq] at hh
    obtain ⟨rfl, rfl⟩ := hh
    simp
  | n + 1, pi, nextId, r, ws, r', hh => by
    unfold HdfReader.readLoop at hh
    split at hh
    · cases hh
    · rename_i infos ws1 h1 hrow
      split at hh
      · cases hh
      · rename_i more r2 hrest
        cases hh
        obtain ⟨r1, _, r3, r4, r5, _⟩ := fillRow_static _ _ _ hrow
        obtain ⟨q1, q2, q3, q4, q5⟩ := readLoop_static n _ _ _ hrest
        exact ⟨q1, by rw [q2]; exact r1, by rw [q3]; exact r3, by rw [q4]; exact r4,
          by rw [q5]; exact r5⟩

theorem fillRow_pass (lib : OutOfExtent) {T k : Nat} (hk : k ≤ T) :
    ∀ (todo : List BufferInfo) (index : Nat) (h : Hdf5Handler),
      h.m_numPoints = T → RowInv T k index todo h →
      ∃ infos ws h',
        HdfReader.fillRow lib k index todo h = .ok (infos, ws, h') ∧
        (∀ j, j < index → h'.column? j = h.column? j) ∧
        RowInv T (k + 1) index infos h' ∧
        RowCells k index todo ws h' ∧
        h'.reads = h.reads ++ refills T k index (todo.map (fun b => b.info.chunkSize))
  | [], index, h, _, _ => by
    refine ⟨[], [], h, rfl, fun _ _ => rfl, ?_, ?_, ?_⟩
    · intro j b hb; simp at hb
    · exact ⟨rfl, fun j b hb => by simp at hb⟩
    · simp [refills]
  | b :: rest, index, h, hT, hinv => by
    obtain ⟨c, hc, inv⟩ := hinv 0 b (by simp)
    rw [Nat.add_zero] at hc inv
    obtain ⟨b', c', h1, hfc, _, hT1, hc', hframe, inv', _, hinfo, hreads⟩ :=
      fillColumn_step lib hT hk hc inv
    have hinv1 : RowInv T k (index + 1) rest h1 := by
      intro j b2 hb2
      obtain ⟨c2, hc2, inv2⟩ := hinv (j + 1) b2 (by simpa using hb2)
      have e : index + (j + 1) = index + 1 + j := by omega
      rw [e] at hc2 inv2
      exact ⟨c2, by rw [hframe _ (by omega)]; exact hc2, inv2⟩
    obtain ⟨infos, ws, h2, hfr, hframe2, inv2, cells2, hreads2⟩ :=
      fillRow_pass lib hk rest (index + 1) h1 hT1 hinv1
    have hc2 : h2.column? index = some c' := by
      rw [hframe2 index (by omega)]; exact hc'
    refine ⟨b' :: infos,
      ⟨b.info.id, b.info.pdal_type,
        (c'.buffer.drop ((k % c.info.chunkSize) * c.info.size)).take c.info.size⟩ :: ws,
      h2, ?_, ?_, ?_, ?_, ?_⟩
    · unfold HdfReader.fillRow
      rw [hfc]
      simp only [hfr]
    · intro j hj
      rw [hframe2 j (by omega), hframe j (by omega)]
    · intro j b2 hb2
      cases j with
      | zero =>
        simp only [List.getElem?_cons_zero, Option.some.injEq] at hb2
        subst hb2
        exact ⟨c', by simpa using hc2, by simpa using inv'⟩
      | succ j =>
        obtain ⟨c3, hc3, inv3⟩ := inv2 j b2 (by simpa using hb2)
        have e : index + (j + 1) = index + 1 + j := by omega
        rw [e]
        exact ⟨c3, hc3, inv3⟩
    · refine ⟨by simp [cells2.1], ?_⟩
      intro j b2 hb2
      cases j with
      | zero =>
        simp only [List.getElem?_cons_zero, Option.some.injEq] at hb2
        subst hb2
        refine ⟨c', ⟨b.info.id, b.info.pdal_type,
          (c'.buffer.drop ((k % c.info.chunkSize) * c.info.size)).take c.info.size⟩,
          by simpa using hc2, by simp, rfl, rfl, ?_⟩
        simp only [hinfo]
      | succ j =>
        obtain ⟨c3, w3, hc3, hw3, hrest⟩ := cells2.2 j b2 (by simpa using hb2)
        have e : index + (j + 1) = index + 1 + j := by omega
        rw [e]
        exact ⟨c3, w3, hc3, by simpa using hw3, hrest⟩
    · rw [hreads2, hreads, List.append_assoc]
      simp only [List.map_cons, refills, inv.chunk]

theorem colAt_row_bytes {T k i : Nat} {b : BufferInfo} {c : Column}
    (inv : ColAt T (k + 1) i b c) (hwf : c.dset.bytes.length = T * c.info.size)
    (hk : k < T) :
    (c.buffer.drop ((k % c.info.chunkSize) * c.info.size)).take c.info.size =
      (c.dset.bytes.drop (k * c.info.size)).take c.info.size := by
  have h := inv.content hwf (Nat.succ_pos k) (k % c.info.chunkSize)
    (Nat.mod_lt _ inv.pos)
  have e : (k + 1 - 1) / c.info.chunkSize * c.info.chunkSize + k % c.info.chunkSize = k := by
    rw [Nat.add_sub_cancel, Nat.mul_comm]
    exact Nat.div_add_mod k c.info.chunkSize
  rw [e] at h
  exact h hk

theorem chunkSizes_congr {r r' : HdfReader}
    (h : r'.m_info.map (fun b => b.info) = r.m_info.map (fun b => b.info)) :
    r'.chunkSizes = r.chunkSizes := by
  have := congrArg (List.map (fun d : DimInfo => d.chunkSize)) h
  simpa [HdfReader.chunkSizes, List.map_map, Function.comp] using this

theorem processOne_pass (lib : OutOfExtent) {T k : Nat} {r : HdfReader}
    (hp : PassAt T k r) (hk : k ≤ T) (hT : T + 1 < u64) :
    ∃ ws r',
      HdfReader.processOne lib r = .ok (decide (k + 1 ≤ T), ws, r') ∧
      PassAt T (k + 1) r' ∧
      RowCells k 0 r.m_info ws r'.m_hdf5Handler ∧
      r'.m_hdf5Handler.reads = r.m_hdf5Handler.reads ++ refills T k 0 r.chunkSizes := by
  obtain ⟨hN, hI, hinv⟩ := hp
  obtain ⟨infos, ws, h', hfr, _, inv', cells, hreads⟩ :=
    fillRow_pass lib hk r.m_info 0 r.m_hdf5Handler hN hinv
  have hst := fillRow_static _ _ _ hfr
  have hN' : h'.m_numPoints = T := by rw [hst.2.2.1, hN]
  have hmod : (k + 1) % u64 = k + 1 := Nat.mod_eq_of_lt (by omega)
  refine ⟨ws, { r with m_info := infos, m_hdf5Handler := h', m_index := (r.m_index + 1) % u64 },
    ?_, ⟨hN', ?_, ?_⟩, ?_, ?_⟩
  · unfold HdfReader.processOne
    rw [← hI] at hfr
    rw [hfr]
    simp only [Hdf5Handler.getNumPoints, hN', hI, hmod]
  · show (r.m_index + 1) % u64 = k + 1
    rw [hI, hmod]
  · exact inv'
  · rw [hI] at *
    exact cells
  · exact hreads

theorem pulls_static {lib : OutOfExtent} :
    ∀ (n : Nat) (r : HdfReader) {rows : List (Bool × List FieldWrite)} {r' : HdfReader},
      HdfReader.pulls lib n r = .ok (rows, r') →
      rows.length = n ∧
        r'.m_info.map (fun b => b.info) = r.m_info.map (fun b => b.info) ∧
        r'.m_hdf5Handler.m_numPoints = r.m_hdf5Handler.m_numPoints ∧
        r'.m_hdf5Handler.m_dimInfos = r.m_hdf5Handler.m_dimInfos ∧
        r'.m_hdf5Handler.m_dsets = r.m_hdf5Handler.m_dsets
  | 0, r, rows, r', hh => by
    simp only [HdfReader.pulls, Except.ok.injEq, Prod.mk.injEq] at hh
    obtain ⟨rfl, rfl⟩ := hh
    simp
  | n + 1, r, rows, r', hh => by
    unfold HdfReader.pulls at hh
    split at hh
    · cases hh
    · rename_i b ws r1 hone
      split at hh
      · cases hh
      · rename_i more r2 hrest
        cases hh
        obtain ⟨_, _, p3, _, p5, p6, p7⟩ := processOne_static hone
        obtain ⟨q1, q2, q3, q4, q5⟩ := pulls_static n r1 hrest
        exact ⟨by simp [q1], by rw [q2, p3], by rw [q3, p5], by rw [q4, p6], by rw [q5, p7]⟩

theorem pulls_succ {lib : OutOfExtent} :
    ∀ (n : Nat) (r : HdfReader),
      HdfReader.pulls lib (n + 1) r =
        match HdfReader.pulls lib n r with
        | .error e => .error e
        | .ok (rows, r') =>
          match HdfReader.processOne lib r' with
          | .error e => .error e
          | .ok (b, ws, r'') => .ok (rows ++ [(b, ws)], r'')
  | 0, r => by
    simp only [HdfReader.pulls]
    cases HdfReader.processOne lib r with
    | error e => rfl
    | ok x => rfl
  | n + 1, r => by
    rw [HdfReader.pulls]
    cases hone : HdfReader.processOne lib r with
    | error e =>
      simp only [HdfReader.pulls, hone]
    | ok x =>
      obtain ⟨b, ws, r1⟩ := x
      simp only
      rw [pulls_succ n r1]
      conv_rhs => rw [HdfReader.pulls]
      simp only [hone]
      cases HdfReader.pulls lib n r1 with
      | error e => rfl
      | ok y =>
        obtain ⟨rows, r2⟩ := y
        simp only
        cases HdfReader.processOne lib r2 with
        | error e => rfl
        | ok z => rfl

theorem pulls_pass (lib : OutOfExtent) {T : Nat} (hT : T + 1 < u64) :
    ∀ (n k : Nat) (r : HdfReader), PassAt T k r → k + n ≤ T + 1 →
      ∃ rows r',
        HdfReader.pulls lib n r = .ok (rows, r') ∧
        PassAt T (k + n) r' ∧
        rows.map (fun x => x.1) = (List.range' k n).map (fun m => decide (m + 1 ≤ T)) ∧
        r'.m_hdf5Handler.reads = r.m_hdf5Handler.reads ++ refillsFrom T r.chunkSizes k n
  | 0, k, r, hp, _ => ⟨[], r, rfl, hp, rfl, by simp [refillsFrom]⟩
  | n + 1, k, r, hp, hkn => by
    obtain ⟨ws, r1, hone, hp1, _, hreads1⟩ :=
      processOne_pass lib hp (by omega) hT
    obtain ⟨rows, r2, hrest, hp2, hb, hreads2⟩ :=
      pulls_pass lib hT n (k + 1) r1 hp1 (by omega)
    have hcs : r1.chunkSizes = r.chunkSizes := chunkSizes_congr (processOne_static hone).2.2.1
    refine ⟨(decide (k + 1 ≤ T), ws) :: rows, r2, ?_, ?_, ?_, ?_⟩
    · unfold HdfReader.pulls
      rw [hone]
      simp only [hrest]
    · have e : k + (n + 1) = k + 1 + n := by omega
      rw [e]; exact hp2
    · simp [List.range', hb]
    · rw [hreads2, hreads1, hcs, List.append_assoc]
      rfl

theorem set_snoc {α : Type} (l : List α) (x y : α) {n : Nat} (hn : l.length = n) :
    (l ++ [x]).set n y = l ++ [y] := by
  subst hn
  induction l with
  | nil => rfl
  | cons a l ih => simp [List.set, ih]

theorem getElem?_snoc_some {α : Type} {l : List α} {x y : α} {i : Nat}
    (h : (l ++ [x])[i]? = some y) :
    (i < l.length ∧ l[i]? = some y) ∨ (i = l.length ∧ y = x) := by
  rcases Nat.lt_trichotomy i l.length with hlt | heq | hgt
  · left
    rw [List.getElem?_append_left hlt] at h
    exact ⟨hlt, h⟩
  · right
    subst heq
    simp at h
    exact ⟨rfl, h.symm⟩
  · rw [List.getElem?_eq_none (by simp; omega)] at h
    cases h

/-- What a successful iteration of the loop of `initialize` has done. -/
theorem initEntry_ok {file : H5File} {h h' : Hdf5Handler} {index : Nat}
    {entry : String × String}
    (hh : Hdf5Handler.initEntry file h index entry = .ok h') :
    ∃ dset b,
      file.openDataSet entry.2 = some dset ∧
      (index ≠ 0 → h.m_numPoints = dset.npoints) ∧
      ¬ (dset.layout = H5D_layout_t.H5D_CHUNKED ∧ dset.chunkRank ≠ 1) ∧
      (dset.cls = H5T_class_t.H5T_INTEGER ∨ dset.cls = H5T_class_t.H5T_FLOAT) ∧
      (h.m_buffers ++ [[]])[index]? = some b ∧
      h' = { h with
        opened := h.opened ++ [entry.2]
        m_dsets := h.m_dsets ++ [dset]
        m_numPoints := if index = 0 then dset.npoints else h.m_numPoints
        m_dimInfos := h.m_dimInfos ++
          [if dset.cls = H5T_class_t.H5T_INTEGER then
              DimInfo.ofIntType entry.1 dset
                (if dset.layout = H5D_layout_t.H5D_CHUNKED then dset.chunkDim0 else 1024)
            else
              DimInfo.ofFloatType entry.1 dset
                (if dset.layout = H5D_layout_t.H5D_CHUNKED then dset.chunkDim0 else 1024)]
        m_chunkOffsets := h.m_chunkOffsets ++ [0]
        m_buffers := (h.m_buffers ++ [[]]).set index
          (resize b (((if dset.layout = H5D_layout_t.H5D_CHUNKED then dset.chunkDim0 else 1024)
            * dset.size) % u64)) } := by
  unfold Hdf5Handler.initEntry at hh
  cases hopen : file.openDataSet entry.2 with
  | none => simp [hopen] at hh
  | some dset =>
    simp only [hopen] at hh
    by_cases hlen : index ≠ 0 ∧ h.m_numPoints ≠ dset.npoints
    · rw [if_pos hlen] at hh; cases hh
    · rw [if_neg hlen] at hh
      by_cases hchunk : dset.layout = H5D_layout_t.H5D_CHUNKED ∧ dset.chunkRank ≠ 1
      · rw [if_pos hchunk] at hh; cases hh
      · rw [if_neg hchunk] at hh
        by_cases hcomp : dset.cls = H5T_class_t.H5T_COMPOUND
        · simp [hcomp] at hh
        · have hnum : index ≠ 0 → h.m_numPoints = dset.npoints := by
            intro h0
            by_contra hne
            exact hlen ⟨h0, hne⟩
          by_cases hint : dset.cls = H5T_class_t.H5T_INTEGER
          · simp only [hcomp, hint, if_false, if_true, reduceCtorEq] at hh
            cases hb : (h.m_buffers ++ [[]])[index]? with
            | none => simp [hb] at hh
            | some b =>
              simp only [hb, Except.ok.injEq] at hh
              refine ⟨dset, b, rfl, hnum, hchunk, Or.inl hint, rfl, ?_⟩
              rw [← hh, if_pos hint]
          · by_cases hfl : dset.cls = H5T_class_t.H5T_FLOAT
            · simp only [hcomp, hint, hfl, if_false, if_true, reduceCtorEq] at hh
              cases hb : (h.m_buffers ++ [[]])[index]? with
              | none => simp [hb] at hh
              | some b =>
                simp only [hb, Except.ok.injEq] at hh
                refine ⟨dset, b, rfl, hnum, hchunk, Or.inr hfl, rfl, ?_⟩
                rw [← hh, if_neg hint]
            · simp [hcomp, hint, hfl] at hh

theorem initEntry_inv {file : H5File} {h h' : Hdf5Handler} {index : Nat}
    {entry : String × String}
    (hh : Hdf5Handler.initEntry file h index entry = .ok h') (inv : InitInv h index) :
    InitInv h' (index + 1) := by
  obtain ⟨dset, b, _, hnum, _, hcls, hb, rfl⟩ := initEntry_ok hh
  have hbnil : b = [] := by
    rw [List.getElem?_append_right (by rw [inv.buffers]), inv.buffers] at hb
    simpa using hb.symm
  subst hbnil
  rw [set_snoc _ _ _ inv.buffers]
  refine ⟨by simp [inv.dimInfos], by simp [inv.dsets], by simp [inv.offsets],
    by simp [inv.buffers], inv.reads, ?_⟩
  intro i c hc
  obtain ⟨h1, h2, h3, h4⟩ := column?_eq_some.mp hc
  simp only at h1 h2 h3 h4
  rcases getElem?_snoc_some h1 with ⟨hlt, g1⟩ | ⟨heq, g1⟩
  · -- an earlier column
    have hi : i < index := by rw [← inv.dimInfos]; exact hlt
    have g2 : h.m_dsets[i]? = some c.dset := by
      rw [List.getElem?_append_left (by rw [inv.dsets]; exact hi)] at h2; exact h2
    have g3 : h.m_chunkOffsets[i]? = some c.offset := by
      rw [List.getElem?_append_left (by rw [inv.offsets]; exact hi)] at h3; exact h3
    have g4 : h.m_buffers[i]? = some c.buffer := by
      rw [List.getElem?_append_left (by rw [inv.buffers]; exact hi)] at h4; exact h4
    have hold := inv.col i c (column?_eq_some.mpr ⟨g1, g2, g3, g4⟩)
    have h0 : index ≠ 0 := by omega
    simpa [h0] using hold
  · -- the column just added
    have hi : i = index := by rw [← inv.dimInfos]; exact heq
    subst hi
    have e2 : c.dset = dset := by
      rw [List.getElem?_append_right (by rw [inv.dsets]), inv.dsets] at h2
      simpa using h2.symm
    have e3 : c.offset = 0 := by
      rw [List.getElem?_append_right (by rw [inv.offsets]), inv.offsets] at h3
      simpa using h3.symm
    have e4 : c.buffer = resize [] (((if dset.layout = H5D_layout_t.H5D_CHUNKED
        then dset.chunkDim0 else 1024) * dset.size) % u64) := by
      rw [List.getElem?_append_right (by rw [inv.buffers]), inv.buffers] at h4
      simpa using h4.symm
    have hN : (if i = 0 then dset.npoints else h.m_numPoints) = dset.npoints := by
      by_cases h0 : i = 0
      · simp [h0]
      · simp [h0, hnum h0]
    rw [e2, e3, e4, g1]
    simp only [hN]
    rcases hcls with hint | hfl
    · rw [if_pos hint]
      refine ⟨rfl, ?_, trivial, trivial, by simp [resize, DimInfo.ofIntType], rfl⟩
      unfold DimInfo.ofIntType
      dsimp only
      split <;> rfl
    · have hni : ¬ dset.cls = H5T_class_t.H5T_INTEGER := by rw [hfl]; simp
      rw [if_neg hni]
      exact ⟨rfl, rfl, trivial, trivial, by simp [resize, DimInfo.ofFloatType], rfl⟩

theorem initEntry_opened {file : H5File} {h h' : Hdf5Handler} {index : Nat}
    {entry : String × String}
    (hh : Hdf5Handler.initEntry file h index entry = .ok h') :
    h'.opened = h.opened ++ [entry.2] ∧ h'.reads = h.reads := by
  obtain ⟨dset, b, _, _, _, _, _, rfl⟩ := initEntry_ok hh
  exact ⟨rfl, rfl⟩

theorem initLoop_inv {file : H5File} :
    ∀ (entries : List (String × String)) (index : Nat) (h h' : Hdf5Handler),
      Hdf5Handler.initLoop file entries index h = .ok h' → InitInv h index →
      InitInv h' (index + entries.length)
  | [], index, h, h', hh, inv => by
    simp only [Hdf5Handler.initLoop, Except.ok.injEq] at hh
    subst hh
    simpa using inv
  | e :: rest, index, h, h', hh, inv => by
    unfold Hdf5Handler.initLoop at hh
    split at hh
    · cases hh
    · rename_i h1 hone
      have := initLoop_inv rest (index + 1) h1 h' hh (initEntry_inv hone inv)
      have e : index + (e :: rest).length = index + 1 + rest.length := by
        simp only [List.length_cons]; omega
      rw [e]; exact this

theorem initialize_inv {fs : String → Option H5File} {garbage : Nat} {filename : String}
    {map : List (String × String)} {h' : Hdf5Handler}
    (hh : Hdf5Handler.initialize fs (Hdf5Handler.fresh garbage) filename map = .ok h') :
    InitInv h' map.length := by
  unfold Hdf5Handler.initialize at hh
  split at hh
  · cases hh
  · rename_i file _
    have inv0 : InitInv { Hdf5Handler.fresh garbage with m_h5File := some file } 0 := by
      refine ⟨rfl, rfl, rfl, rfl, rfl, ?_⟩
      intro i c hc
      simp [Hdf5Handler.column?, Hdf5Handler.fresh] at hc
    simpa using initLoop_inv map 0 _ h' hh inv0

theorem column?_of_lt {h : Hdf5Handler} {n i : Nat} (inv : InitInv h n) (hi : i < n) :
    ∃ c, h.column? i = some c := by
  have h1 : i < h.m_dimInfos.length := by rw [inv.dimInfos]; exact hi
  have h2 : i < h.m_dsets.length := by rw [inv.dsets]; exact hi
  have h3 : i < h.m_chunkOffsets.length := by rw [inv.offsets]; exact hi
  have h4 : i < h.m_buffers.length := by rw [inv.buffers]; exact hi
  exact ⟨⟨h.m_dimInfos[i], h.m_dsets[i], h.m_chunkOffsets[i], h.m_buffers[i]⟩,
    column?_eq_some.mpr ⟨List.getElem?_eq_getElem h1, List.getElem?_eq_getElem h2,
      List.getElem?_eq_getElem h3, List.getElem?_eq_getElem h4⟩⟩

theorem ceilDiv_zero {c : Nat} (hc : 0 < c) : ceilDiv 0 c = 0 := by
  unfold ceilDiv
  rw [Nat.zero_add]
  exact Nat.div_eq_of_lt (by omega)

/-- What `prepare` leaves: the handler initialised from an empty one over the
parsed map, `m_info` built from its `DimInfo`s with ids and unassigned buffer
pointers, and the row cursor at 0. -/
theorem prepare_eq {fs : String → Option H5File} {reg : String → DimType → Nat}
    {garbage index0 : Nat} {filename : String} {json : Json} {r : HdfReader}
    (hp : HdfReader.prepare fs reg (HdfReader.fresh garbage index0 filename json) = some r) :
    r.m_index = 0 ∧
    HdfReader.parseLoop json.items [] = .ok r.m_pathDimMap ∧
    Hdf5Handler.initialize fs (Hdf5Handler.fresh garbage) filename r.m_pathDimMap
      = .ok r.m_hdf5Handler ∧
    r.m_info = r.m_hdf5Handler.m_dimInfos.map (fun d =>
      ⟨{ d with id := some (reg d.name d.pdal_type) }, none⟩) := by
  unfold HdfReader.prepare at hp
  split at hp
  · cases hp
  · rename_i r1 hparse
    split at hp
    · cases hp
    · rename_i r2 hadd
      simp only [Option.some.injEq] at hp
      subst hp
      unfold HdfReader.parseDimensions at hparse
      split at hparse
      · cases hparse
      · split at hparse
        · cases hparse
        · split at hparse
          · cases hparse
          · rename_i m hm
            simp only [Except.ok.injEq] at hparse
            subst hparse
            unfold HdfReader.addDimensions at hadd
            dsimp only [HdfReader.fresh] at hadd hm
            split at hadd
            · cases hadd
            · rename_i h hinit
              simp only [Except.ok.injEq] at hadd
              subst hadd
              refine ⟨rfl, hm, hinit, ?_⟩
              simp [HdfReader.ready, Hdf5Handler.getDimensionInfos, List.map_map,
                Function.comp]

theorem prepare_pass {fs : String → Option H5File} {reg : String → DimType → Nat}
    {garbage index0 : Nat} {filename : String} {json : Json} {r : HdfReader}
    (hp : HdfReader.prepare fs reg (HdfReader.fresh garbage index0 filename json) = some r)
    (hf : r.Fits) :
    PassAt r.m_hdf5Handler.m_numPoints 0 r ∧ r.m_hdf5Handler.reads = [] := by
  obtain ⟨hidx, _, hinit, hinfo⟩ := prepare_eq hp
  have inv := initialize_inv hinit
  refine ⟨⟨rfl, hidx, ?_⟩, inv.reads⟩
  intro j b hb
  rw [Nat.zero_add]
  rw [hinfo, List.getElem?_map] at hb
  cases hd : r.m_hdf5Handler.m_dimInfos[j]? with
  | none => simp [hd] at hb
  | some d =>
    simp only [hd, Option.map_some', Option.some.injEq] at hb
    subst hb
    have hj : j < r.m_pathDimMap.length := by
      rw [← inv.dimInfos]; exact (List.getElem?_eq_some.mp hd).1
    obtain ⟨c, hc⟩ := column?_of_lt inv hj
    have hcd : c.info = d := by
      have := (column?_eq_some.mp hc).1
      rw [hd] at this
      exact (Option.some.inj this).symm
    obtain ⟨i1, i2, i3, i4, i5, _⟩ := inv.col j c hc
    have hmem : c.info ∈ r.m_hdf5Handler.m_dimInfos := by
      rw [hcd]; exact List.getElem?_mem hd
    obtain ⟨f1, f2, f3⟩ := hf.2 c.info hmem
    refine ⟨c, hc, ?_⟩
    refine
      { chunk := by rw [hcd]
        size := by rw [hcd]
        tsize := by rw [hcd] at i1 i2; simp [i1, i2, hcd]
        dsize := i1.symm
        npoints := i3
        pos := f1
        fitsBuf := f2
        fitsOff := f3
        buflen := by rw [i5, Nat.mod_eq_of_lt f2]
        offset := by rw [i4, ceilDiv_zero f1, Nat.zero_mul]
        ptr := fun h0 => absurd h0 (Nat.lt_irrefl 0)
        content := fun _ h0 => absurd h0 (Nat.lt_irrefl 0) }

theorem decodeLE_encodeLE : ∀ (w v : Nat), decodeLE (encodeLE w v) = v % 256 ^ w
  | 0, v => by simp [encodeLE, decodeLE, Nat.mod_one]
  | w + 1, v => by
    rw [encodeLE, decodeLE, decodeLE_encodeLE w (v / 256), Nat.pow_succ, Nat.mul_comm (256 ^ w) 256,
      Nat.mod_mul]

theorem encodeLE_length : ∀ (w v : Nat), (encodeLE w v).length = w
  | 0, _ => rfl
  | w + 1, v => by rw [encodeLE, List.length_cons, encodeLE_length w]

theorem twos_complement_value (half : Nat) (v : Int) (hlo : -(half : Int) ≤ v)
    (hhi : v < (half : Int)) :
    (if half ≤ (v % ((2 * half : Nat) : Int)).toNat
      then (((v % ((2 * half : Nat) : Int)).toNat : Nat) : Int) - ((2 * half : Nat) : Int)
      else (((v % ((2 * half : Nat) : Int)).toNat : Nat) : Int)) = v := by
  have hM : ((2 * half : Nat) : Int) = 2 * (half : Int) := by push_cast; ring
  rw [hM]
  by_cases hv : 0 ≤ v
  · have h1 : v % (2 * (half : Int)) = v := Int.emod_eq_of_lt hv (by omega)
    rw [h1]
    have h2 : ((v.toNat : Nat) : Int) = v := Int.toNat_of_nonneg hv
    have h3 : ¬ half ≤ v.toNat := by omega
    rw [if_neg h3, h2]
  · have h1 : v % (2 * (half : Int)) = v + 2 * (half : Int) := by
      rw [← Int.add_emod_self]
      exact Int.emod_eq_of_lt (by omega) (by omega)
    rw [h1]
    have h2 : (((v + 2 * (half : Int)).toNat : Nat) : Int) = v + 2 * (half : Int) :=
      Int.toNat_of_nonneg (by omega)
    have h3 : half ≤ (v + 2 * (half : Int)).toNat := by omega
    rw [if_pos h3, h2]
    omega

theorem unsigned_value (full : Nat) (v : Int) (hlo : 0 ≤ v) (hhi : v < (full : Int)) :
    (((v % (full : Int)).toNat : Nat) : Int) = v := by
  rw [Int.emod_eq_of_lt hlo hhi]
  exact Int.toNat_of_nonneg hlo

theorem decodeLE_encodeLE_emod (size : Nat) (v : Int) :
    decodeLE (encodeLE size (v % ((2 ^ (8 * size) : Nat) : Int)).toNat)
      = (v % ((2 ^ (8 * size) : Nat) : Int)).toNat := by
  have e256 : (256 : Nat) ^ size = 2 ^ (8 * size) := by
    rw [show (256 : Nat) = 2 ^ 8 by norm_num, ← Nat.pow_mul]
  have hpos : 0 < 2 ^ (8 * size) := Nat.pow_pos (by norm_num)
  rw [decodeLE_encodeLE, e256]
  apply Nat.mod_eq_of_lt
  have h1 : v % ((2 ^ (8 * size) : Nat) : Int) < ((2 ^ (8 * size) : Nat) : Int) :=
    Int.emod_lt_of_pos _ (by exact_mod_cast hpos)
  have h2 : 0 ≤ v % ((2 ^ (8 * size) : Nat) : Int) :=
    Int.emod_nonneg _ (by have := hpos; omega)
  omega

/-- Decoding in the declared order what was stored in that order gives the
value back. -/
theorem decodeInt_encodeInt {order : H5T_order_t} {base : BaseType} {size : Nat} {v : Int}
    {bytes : List Nat}
    (h : encodeInt order (decide (base = .Signed)) size v = some bytes) :
    decodeInt order ⟨base, size⟩ bytes = some v := by
  unfold encodeInt at h
  by_cases hrange : intFits (decide (base = .Signed)) size v = true
  · rw [if_pos hrange] at h
    have key : ∀ bs, decodeLE bs = (v % ((2 ^ (8 * size) : Nat) : Int)).toNat →
        (if base = .Signed ∧ 2 ^ (8 * size) / 2 ≤ decodeLE bs
          then ((decodeLE bs : Nat) : Int) - ((2 ^ (8 * size) : Nat) : Int)
          else ((decodeLE bs : Nat) : Int)) = v := by
      intro bs hbs
      rw [hbs]
      unfold intFits at hrange
      by_cases hs : base = .Signed
      · simp only [hs, decide_True, if_true, decide_eq_true_eq] at hrange
        obtain ⟨hlo, hhi⟩ := hrange
        have hsz : 0 < 8 * size := by
          rcases Nat.eq_zero_or_pos size with h0 | h0
          · rw [h0] at hlo hhi
            norm_num at hlo hhi
            omega
          · omega
        have heven : 2 ^ (8 * size) = 2 * (2 ^ (8 * size) / 2) := by
          obtain ⟨m, hm⟩ : ∃ m, 8 * size = m + 1 := ⟨8 * size - 1, by omega⟩
          rw [hm, Nat.pow_succ]
          omega
        have := twos_complement_value (2 ^ (8 * size) / 2) v hlo hhi
        rw [← heven] at this
        simpa [hs] using this
      · have hs' : decide (base = BaseType.Signed) = false := by simp [hs]
        simp only [hs', Bool.false_eq_true, if_false, decide_eq_true_eq] at hrange
        simp only [hs, false_and, if_false]
        exact unsigned_value _ v hrange.1 hrange.2
    unfold decodeInt
    cases order with
    | H5T_ORDER_LE =>
      simp only [Option.some.injEq] at h
      subst h
      simp only [Option.some.injEq]
      exact key _ (decodeLE_encodeLE_emod size v)
    | H5T_ORDER_BE =>
      simp only [Option.some.injEq] at h
      subst h
      simp only [List.reverse_reverse, Option.some.injEq]
      exact key _ (decodeLE_encodeLE_emod size v)
    | H5T_ORDER_VAX => cases h
    | H5T_ORDER_MIXED => cases h
    | H5T_ORDER_NONE => cases h
  · rw [if_neg hrange] at h
    cases h

theorem getNextChunk_some (lib : OutOfExtent) {h : Hdf5Handler} {i : Nat} {c : Column}
    (hc : h.column? i = some c) :
    h.getNextChunk lib i =
      match c.dset.read lib c.offset
          (min ((h.m_numPoints + u64 - c.offset) % u64) c.info.chunkSize) with
      | none => .error .readFailed
      | some bs =>
        if bs.length ≤ c.buffer.length then
          .ok (h.refilled i (bs ++ c.buffer.drop bs.length)
            ((c.offset + c.info.chunkSize) % u64)
            (i, c.offset, min ((h.m_numPoints + u64 - c.offset) % u64) c.info.chunkSize))
        else .error .undefinedBehaviour := by
  obtain ⟨h1, h2, h3, h4⟩ := column?_eq_some.mp hc
  simp only [Hdf5Handler.getNextChunk, vecAt, h1, h2, h3, h4, bind, Except.bind,
    Hdf5Handler.refilled]

theorem read_length {lib : OutOfExtent} {d : DataSet} {start count : Nat} {bs : List Nat}
    (h : d.read lib start count = some bs) : bs.length ≤ count * d.size := by
  unfold DataSet.read at h
  split at h
  · simp only [Option.some.injEq] at h
    rw [← h, List.length_take]
    exact Nat.min_le_left _ _
  · cases hl : lib d start count with
    | none => simp [hl] at h
    | some x =>
      simp only [hl, Option.map_some', Option.some.injEq] at h
      rw [← h, List.length_take]
      exact Nat.min_le_left _ _

theorem read_isSome {lib : OutOfExtent} (hserve : Tolerant lib) (d : DataSet)
    (start count : Nat) : ∃ bs, d.read lib start count = some bs := by
  unfold DataSet.read
  split
  · exact ⟨_, rfl⟩
  · have := hserve d start count
    cases hl : lib d start count with
    | none => rw [hl] at this; cases this
    | some x => exact ⟨_, rfl⟩

/-- A refill of a consistent column that completes leaves it consistent and
touches no other column. -/
theorem getNextChunk_colOK {lib : OutOfExtent} {h h' : Hdf5Handler} {i : Nat} {c : Column}
    {b : BufferInfo} (hc : h.column? i = some c) (ok : ColOK b c)
    (hh : h.getNextChunk lib i = .ok h') :
    ∃ c', h'.column? i = some c' ∧ ColOK { b with buffer := some i } c' ∧
      (∀ j, i ≠ j → h'.column? j = h.column? j) := by
  rw [getNextChunk_some lib hc] at hh
  split at hh
  · cases hh
  · rename_i bs _
    split at hh
    · rename_i hfit
      simp only [Except.ok.injEq] at hh
      subst hh
      refine ⟨_, refilled_column_self _ _ _ hc, ?_, fun j hij => refilled_column_other _ _ _ hij⟩
      refine ⟨ok.chunk, ok.size, ok.tsize, ok.dsize, ok.pos, ok.fitsBuf, ?_⟩
      show (bs ++ c.buffer.drop bs.length).length = _
      rw [List.length_append, List.length_drop, ← ok.buflen]
      omega
    · cases hh

/-- The body of the column loop, when it completes on a consistent column,
leaves the column consistent, touches no other column, and leaves the buffer
pointer assigned if it was or if the row began a chunk. -/
theorem fillColumn_colOK {lib : OutOfExtent} {row i : Nat} {b b' : BufferInfo} {c : Column}
    {w : FieldWrite} {h h' : Hdf5Handler}
    (hc : h.column? i = some c) (ok : ColOK b c)
    (hh : HdfReader.fillColumn lib row i b h = .ok (b', w, h')) :
    ∃ c', h'.column? i = some c' ∧ ColOK b' c' ∧ c'.info = c.info ∧
      (∀ j, i ≠ j → h'.column? j = h.column? j) ∧
      ((row % c.info.chunkSize = 0 ∨ b.buffer = some i) → b'.buffer = some i) := by
  unfold HdfReader.fillColumn at hh
  split at hh
  · cases hh
  · dsimp only at hh
    split at hh
    · cases hh
    · rename_i info1 h1 hre
      split at hh
      · cases hh
      · cases hh
        split at hre
        · split at hre
          · cases hre
          · rename_i hz h2 hg
            cases hre
            obtain ⟨c', hc', ok', hframe⟩ := getNextChunk_colOK hc ok hg
            have hinfo : c'.info = c.info := by
              have e1 := (column?_eq_some.mp hc').1
              rw [(getNextChunk_static hg).2.1, (column?_eq_some.mp hc).1] at e1
              exact (Option.some.inj e1).symm
            exact ⟨c', hc', ok', hinfo, hframe, fun _ => rfl⟩
        · rename_i hz
          cases hre
          refine ⟨c, hc, ok, rfl, fun _ _ => rfl, ?_⟩
          intro hor
          rcases hor with h0 | h0
          · rw [ok.chunk] at hz
            exact absurd h0 hz
          · exact h0

/-- With a library that serves every read, the body of the column loop
completes on a consistent column whose pointer is assigned or whose chunk the
row begins. -/
theorem fillColumn_served {lib : OutOfExtent} (hserve : Tolerant lib) {row i : Nat}
    {b : BufferInfo} {c : Column} {h : Hdf5Handler}
    (hc : h.column? i = some c) (ok : ColOK b c)
    (hptr : row % c.info.chunkSize = 0 ∨ b.buffer = some i) :
    ∃ b' w h', HdfReader.fillColumn lib row i b h = .ok (b', w, h') := by
  have hC := ok.pos
  have hne : ¬ b.info.chunkSize = 0 := by rw [ok.chunk]; omega
  have hmodlt : row % c.info.chunkSize < c.info.chunkSize := Nat.mod_lt _ hC
  have hoffW : (row % c.info.chunkSize) * c.info.size + c.info.size
      ≤ c.info.chunkSize * c.info.size := by
    have h1 : (row % c.info.chunkSize + 1) * c.info.size ≤ c.info.chunkSize * c.info.size :=
      Nat.mul_le_mul_right _ hmodlt
    have e : (row % c.info.chunkSize + 1) * c.info.size
        = (row % c.info.chunkSize) * c.info.size + c.info.size := by ring
    omega
  have hmod64 : ((row % c.info.chunkSize) * c.info.size) % u64
      = (row % c.info.chunkSize) * c.info.size := by
    apply Nat.mod_eq_of_lt
    have := ok.fitsBuf
    omega
  by_cases hz : row % c.info.chunkSize = 0
  · obtain ⟨bs, hbs⟩ := read_isSome hserve c.dset c.offset
      (min ((h.m_numPoints + u64 - c.offset) % u64) c.info.chunkSize)
    have hfit : bs.length ≤ c.buffer.length := by
      have h1 := read_length hbs
      have h2 : min ((h.m_numPoints + u64 - c.offset) % u64) c.info.chunkSize * c.dset.size
          ≤ c.info.chunkSize * c.dset.size :=
        Nat.mul_le_mul_right _ (Nat.min_le_right _ _)
      rw [ok.buflen, ← ok.dsize]
      omega
    have hgn := getNextChunk_ok hc hbs hfit
    have hcol' := refilled_column_self (bs ++ c.buffer.drop bs.length)
      ((c.offset + c.info.chunkSize) % u64)
      (i, c.offset, min ((h.m_numPoints + u64 - c.offset) % u64) c.info.chunkSize) hc
    have hb4 := (column?_eq_some.mp hcol').2.2.2
    simp only [Hdf5Handler.refilled] at hb4
    have hlen : (bs ++ c.buffer.drop bs.length).length = c.info.chunkSize * c.info.size := by
      rw [List.length_append, List.length_drop, ← ok.buflen]
      omega
    cases hres : HdfReader.fillColumn lib row i b h with
    | ok res => exact ⟨res.1, res.2.1, res.2.2, rfl⟩
    | error e =>
      exfalso
      unfold HdfReader.fillColumn at hres
      rw [if_neg hne] at hres
      simp only [ok.chunk, hz, if_true, hgn, loadBytes, hb4, ok.size, ok.tsize, hmod64] at hres
      rw [if_pos (by rw [hlen]; simpa [hz] using hoffW)] at hres
      cases hres
  · have hptr' : b.buffer = some i := by
      rcases hptr with h0 | h0
      · exact absurd h0 hz
      · exact h0
    have hb4 := (column?_eq_some.mp hc).2.2.2
    cases hres : HdfReader.fillColumn lib row i b h with
    | ok res => exact ⟨res.1, res.2.1, res.2.2, rfl⟩
    | error e =>
      exfalso
      unfold HdfReader.fillColumn at hres
      rw [if_neg hne] at hres
      simp only [ok.chunk, hz, if_false, loadBytes, hptr', hb4, ok.size, ok.tsize, hmod64] at hres
      rw [if_pos (by rw [ok.buflen]; exact hoffW)] at hres
      cases hres

theorem fillRow_colsOK {lib : OutOfExtent} {row : Nat} :
    ∀ (todo : List BufferInfo) (index : Nat) (h : Hdf5Handler)
      {infos : List BufferInfo} {ws : List FieldWrite} {h' : Hdf5Handler},
      HdfReader.fillRow lib row index todo h = .ok (infos, ws, h') →
      ColsOK index todo h →
      ColsOK index infos h' ∧ (∀ j, j < index → h'.column? j = h.column? j) ∧
        (RowOK row index todo h →
          ∀ j b', infos[j]? = some b' → b'.buffer = some (index + j))
  | [], index, h, infos, ws, h', hh, _ => by
    simp only [HdfReader.fillRow, Except.ok.injEq, Prod.mk.injEq] at hh
    obtain ⟨rfl, rfl, rfl⟩ := hh
    exact ⟨fun j b hb => by simp at hb, fun _ _ => rfl, fun _ j b hb => by simp at hb⟩
  | b :: rest, index, h, infos, ws, h', hh, hok => by
    unfold HdfReader.fillRow at hh
    split at hh
    · cases hh
    · rename_i b1 w1 h1 hcol
      split at hh
      · cases hh
      · rename_i infos1 ws1 h2 hrest
        cases hh
        obtain ⟨c, hc, ok⟩ := hok 0 b (by simp)
        rw [Nat.add_zero] at hc
        obtain ⟨c1, hc1, ok1, hinfo1, hframe1, hptr1⟩ := fillColumn_colOK hc ok hcol
        have hok1 : ColsOK (index + 1) rest h1 := by
          intro j b2 hb2
          obtain ⟨c2, hc2, ok2⟩ := hok (j + 1) b2 (by simpa using hb2)
          have e : index + (j + 1) = index + 1 + j := by omega
          rw [e] at hc2
          exact ⟨c2, by rw [hframe1 _ (by omega)]; exact hc2, ok2⟩
        obtain ⟨ih1, ih2, ih3⟩ := fillRow_colsOK rest (index + 1) h1 hrest hok1
        have hc2 : h'.column? index = some c1 := by rw [ih2 index (by omega)]; exact hc1
        refine ⟨?_, ?_, ?_⟩
        · intro j b2 hb2
          cases j with
          | zero =>
            simp only [List.getElem?_cons_zero, Option.some.injEq] at hb2
            subst hb2
            exact ⟨c1, by simpa using hc2, ok1⟩
          | succ j =>
            obtain ⟨c3, hc3, ok3⟩ := ih1 j b2 (by simpa using hb2)
            have e : index + (j + 1) = index + 1 + j := by omega
            rw [e]
            exact ⟨c3, hc3, ok3⟩
        · intro j hj
          rw [ih2 j (by omega), hframe1 j (by omega)]
        · intro hrow j b2 hb2
          cases j with
          | zero =>
            simp only [List.getElem?_cons_zero, Option.some.injEq] at hb2
            subst hb2
            obtain ⟨c0, hc0, _, hp0⟩ := hrow 0 b (by simp)
            rw [Nat.add_zero] at hc0 hp0
            rw [hc] at hc0
            obtain rfl : c = c0 := Option.some.inj hc0
            simpa using hptr1 hp0
          | succ j =>
            have hrow1 : RowOK row (index + 1) rest h1 := by
              intro j b3 hb3
              obtain ⟨c3, hc3, ok3, hp3⟩ := hrow (j + 1) b3 (by simpa using hb3)
              have e : index + (j + 1) = index + 1 + j := by omega
              rw [e] at hc3 hp3
              exact ⟨c3, by rw [hframe1 _ (by omega)]; exact hc3, ok3, hp3⟩
            have := ih3 hrow1 j b2 (by simpa using hb2)
            have e : index + (j + 1) = index + 1 + j := by omega
            rw [e]; exact this

theorem fillRow_served {lib : OutOfExtent} (hserve : Tolerant lib) {row : Nat} :
    ∀ (todo : List BufferInfo) (index : Nat) (h : Hdf5Handler),
      RowOK row index todo h →
      ∃ infos ws h', HdfReader.fillRow lib row index todo h = .ok (infos, ws, h')
  | [], _, h, _ => ⟨[], [], h, rfl⟩
  | b :: rest, index, h, hrow => by
    obtain ⟨c, hc, ok, hp⟩ := hrow 0 b (by simp)
    rw [Nat.add_zero] at hc hp
    obtain ⟨b1, w1, h1, hcol⟩ := fillColumn_served hserve (h := h) hc ok hp
    obtain ⟨c1, _, _, _, hframe1, _⟩ := fillColumn_colOK hc ok hcol
    have hrow1 : RowOK row (index + 1) rest h1 := by
      intro j b3 hb3
      obtain ⟨c3, hc3, ok3, hp3⟩ := hrow (j + 1) b3 (by simpa using hb3)
      have e : index + (j + 1) = index + 1 + j := by omega
      rw [e] at hc3 hp3
      exact ⟨c3, by rw [hframe1 _ (by omega)]; exact hc3, ok3, hp3⟩
    obtain ⟨infos, ws, h2, hrest⟩ := fillRow_served hserve rest (index + 1) h1 hrow1
    refine ⟨b1 :: infos, w1 :: ws, h2, ?_⟩
    unfold HdfReader.fillRow
    rw [hcol]
    simp only [hrest]

theorem readLoop_colsOK {lib : OutOfExtent} :
    ∀ (n pi nextId : Nat) (r : HdfReader) {ws : List (Nat × FieldWrite)} {r' : HdfReader},
      HdfReader.readLoop lib n pi nextId r = .ok (ws, r') →
      ColsOK 0 r.m_info r.m_hdf5Handler → ColsOK 0 r'.m_info r'.m_hdf5Handler
  | 0, _, _, r, ws, r', hh, hok => by
    simp only [HdfReader.readLoop, Except.ok.injEq, Prod.mk.injEq] at hh
    rw [← hh.2]; exact hok
  | n + 1, pi, nextId, r, ws, r', hh, hok => by
    unfold HdfReader.readLoop at hh
    split at hh
    · cases hh
    · rename_i infos ws1 h1 hrow
      split at hh
      · cases hh
      · rename_i more r2 hrest
        cases hh
        exact readLoop_colsOK n _ _ _ hrest (fillRow_colsOK _ _ _ hrow hok).1

theorem readLoop_served {lib : OutOfExtent} (hserve : Tolerant lib) :
    ∀ (n pi nextId : Nat) (r : HdfReader),
      RowOK pi 0 r.m_info r.m_hdf5Handler →
      ∃ ws r', HdfReader.readLoop lib n pi nextId r = .ok (ws, r')
  | 0, _, _, r, _ => ⟨[], r, rfl⟩
  | n + 1, pi, nextId, r, hrow => by
    obtain ⟨infos, ws1, h1, hfr⟩ := fillRow_served hserve r.m_info 0 r.m_hdf5Handler hrow
    have hok : ColsOK 0 r.m_info r.m_hdf5Handler := by
      intro j b hb
      obtain ⟨c, hc, ok, _⟩ := hrow j b hb
      exact ⟨c, hc, ok⟩
    obtain ⟨hok1, _, hset⟩ := fillRow_colsOK _ _ _ hfr hok
    have hrow1 : RowOK (pi + 1) 0 infos h1 := by
      intro j b hb
      obtain ⟨c, hc, ok⟩ := hok1 j b hb
      exact ⟨c, hc, ok, Or.inr (hset hrow j b hb)⟩
    obtain ⟨more, r2, hrest⟩ := readLoop_served hserve n (pi + 1) ((nextId + 1) % u64)
      { r with m_info := infos, m_hdf5Handler := h1 } hrow1
    refine ⟨ws1.map (fun w => (nextId, w)) ++ more, r2, ?_⟩
    unfold HdfReader.readLoop
    rw [hfr]
    simp only [hrest]

theorem reach_colsOK {lib : OutOfExtent} {fs : String → Option H5File}
    {reg : String → DimType → Nat} {garbage index0 : Nat} {filename : String} {json : Json}
    {r0 r : HdfReader} {n : Nat}
    (hp : HdfReader.prepare fs reg (HdfReader.fresh garbage index0 filename json) = some r0)
    (hf : r0.Fits) (hreach : Reach lib r0 n r) :
    ColsOK 0 r.m_info r.m_hdf5Handler := by
  induction hreach with
  | start =>
    obtain ⟨⟨_, _, hinv⟩, _⟩ := prepare_pass hp hf
    intro j b hb
    obtain ⟨c, hc, inv⟩ := hinv j b hb
    exact ⟨c, hc, inv.chunk, inv.size, inv.tsize, inv.dsize, inv.pos, inv.fitsBuf, inv.buflen⟩
  | pull _ hone ih =>
    unfold HdfReader.processOne at hone
    split at hone
    · cases hone
    · rename_i infos ws1 h1 hrow
      cases hone
      exact (fillRow_colsOK _ _ _ hrow ih).1
  | bulk _ hread ih =>
    unfold HdfReader.read at hread
    dsimp only at hread
    split at hread
    · cases hread
    · rename_i ws1 r1 hloop
      cases hread
      exact readLoop_colsOK _ _ _ _ hloop ih

theorem entryPasses_iff {file : H5File} {T : Nat} {entry : String × String} :
    entryPasses file T entry = true ↔
      ∃ ds, file.openDataSet entry.2 = some ds ∧ ds.npoints = T ∧
        ¬ (ds.layout = H5D_layout_t.H5D_CHUNKED ∧ ds.chunkRank ≠ 1) ∧
        (ds.cls = H5T_class_t.H5T_INTEGER ∨ ds.cls = H5T_class_t.H5T_FLOAT) := by
  unfold entryPasses
  cases file.openDataSet entry.2 with
  | none => simp
  | some ds =>
    simp only [Bool.and_eq_true, decide_eq_true_eq, Bool.not_eq_true', decide_eq_false_iff_not,
      Bool.or_eq_true, Option.some.injEq, exists_eq_left']
    tauto

/-- Every exit of an iteration of the loop of `initialize` has logged the
dataset path and has read nothing. -/
theorem initEntry_frame (file : H5File) (h : Hdf5Handler) (index : Nat)
    (entry : String × String) :
    (initState (Hdf5Handler.initEntry file h index entry)).reads = h.reads ∧
    (initState (Hdf5Handler.initEntry file h index entry)).opened = h.opened ++ [entry.2] := by
  unfold Hdf5Handler.initEntry
  cases hopen : file.openDataSet entry.2 with
  | none =>
    simp only [hopen]
    exact ⟨rfl, rfl⟩
  | some dset =>
    simp only [hopen]
    by_cases hlen : index ≠ 0 ∧ h.m_numPoints ≠ dset.npoints
    · rw [if_pos hlen]; exact ⟨rfl, rfl⟩
    · rw [if_neg hlen]
      by_cases hchunk : dset.layout = H5D_layout_t.H5D_CHUNKED ∧ dset.chunkRank ≠ 1
      · rw [if_pos hchunk]; exact ⟨rfl, rfl⟩
      · rw [if_neg hchunk]
        by_cases hcomp : dset.cls = H5T_class_t.H5T_COMPOUND
        · simp only [hcomp, if_true]
          exact ⟨rfl, rfl⟩
        · by_cases hint : dset.cls = H5T_class_t.H5T_INTEGER
          · simp only [hint, if_true, reduceCtorEq, if_false]
            cases (h.m_buffers ++ [[]])[index]? <;> exact ⟨rfl, rfl⟩
          · by_cases hfl : dset.cls = H5T_class_t.H5T_FLOAT
            · simp only [hfl, if_true, reduceCtorEq, if_false]
              cases (h.m_buffers ++ [[]])[index]? <;> exact ⟨rfl, rfl⟩
            · simp only [hcomp, hint, hfl, if_false]
              exact ⟨rfl, rfl⟩

theorem initLoop_reads (file : H5File) :
    ∀ (entries : List (String × String)) (index : Nat) (h : Hdf5Handler),
      (initState (Hdf5Handler.initLoop file entries index h)).reads = h.reads
  | [], _, h => rfl
  | e :: rest, index, h => by
    unfold Hdf5Handler.initLoop
    have hf := (initEntry_frame file h index e).1
    cases hone : Hdf5Handler.initEntry file h index e with
    | error x =>
      rw [hone] at hf
      exact hf
    | ok h1 =>
      rw [hone] at hf
      simp only
      rw [initLoop_reads file rest (index + 1) h1]
      exact hf

theorem initEntry_passes {file : H5File} {T : Nat} {h : Hdf5Handler} {index : Nat}
    {entry : String × String} (hpass : entryPasses file T entry = true)
    (inv : InitInv h index) (hT : index ≠ 0 → h.m_numPoints = T) :
    ∃ h', Hdf5Handler.initEntry file h index entry = .ok h' ∧ h'.m_numPoints = T := by
  obtain ⟨ds, hopen, hnp, hchunk, hcls⟩ := entryPasses_iff.mp hpass
  have hlen : ¬ (index ≠ 0 ∧ h.m_numPoints ≠ ds.npoints) := by
    rintro ⟨h0, hne⟩
    exact hne (by rw [hT h0, hnp])
  have hb : (h.m_buffers ++ [[]])[index]? = some [] := by
    rw [List.getElem?_append_right (by rw [inv.buffers]), inv.buffers]
    simp
  have hN : (if index = 0 then ds.npoints else h.m_numPoints) = T := by
    by_cases h0 : index = 0
    · simp [h0, hnp]
    · simp [h0, hT h0]
  unfold Hdf5Handler.initEntry
  simp only [hopen]
  rw [if_neg hlen, if_neg hchunk]
  rcases hcls with hint | hfl
  · simp only [hint, reduceCtorEq, if_false, if_true, hb]
    exact ⟨_, rfl, hN⟩
  · simp only [hfl, reduceCtorEq, if_false, if_true, hb]
    exact ⟨_, rfl, hN⟩

theorem initEntry_mismatch {file : H5File} {h : Hdf5Handler} {index : Nat}
    {entry : String × String} {ds : DataSet}
    (hopen : file.openDataSet entry.2 = some ds) (h0 : index ≠ 0)
    (hne : h.m_numPoints ≠ ds.npoints) :
    initError (Hdf5Handler.initEntry file h index entry) = some Err.lengthMismatch := by
  unfold Hdf5Handler.initEntry
  simp only [hopen]
  rw [if_pos ⟨h0, hne⟩]
  rfl

theorem initEntry_badclass {file : H5File} {h : Hdf5Handler} {index : Nat}
    {entry : String × String} {ds : DataSet}
    (hopen : file.openDataSet entry.2 = some ds)
    (hlen : index ≠ 0 → h.m_numPoints = ds.npoints)
    (hchunk : ¬ (ds.layout = H5D_layout_t.H5D_CHUNKED ∧ ds.chunkRank ≠ 1))
    (hint : ds.cls ≠ H5T_class_t.H5T_INTEGER) (hfl : ds.cls ≠ H5T_class_t.H5T_FLOAT) :
    initError (Hdf5Handler.initEntry file h index entry)
      = some (unsupportedTypeError ds.cls) := by
  have hl : ¬ (index ≠ 0 ∧ h.m_numPoints ≠ ds.npoints) := by
    rintro ⟨h0, hne⟩
    exact hne (hlen h0)
  unfold Hdf5Handler.initEntry unsupportedTypeError
  simp only [hopen]
  rw [if_neg hl, if_neg hchunk]
  by_cases hcomp : ds.cls = H5T_class_t.H5T_COMPOUND
  · simp only [hcomp, if_true]
    rfl
  · simp only [hcomp, hint, hfl, if_false]
    rfl

/-- A run of entries that pass every check is processed without error;
afterwards the row count is the common one, the datasets of the run have been
opened, and nothing has been read. -/
theorem initLoop_prefix {file : H5File} {T : Nat} :
    ∀ (pre : List (String × String)) (index : Nat) (h : Hdf5Handler),
      (∀ e ∈ pre, entryPasses file T e = true) → InitInv h index →
      (index ≠ 0 → h.m_numPoints = T) →
      ∃ h1,
        (∀ rest, Hdf5Handler.initLoop file (pre ++ rest) index h
          = Hdf5Handler.initLoop file rest (index + pre.length) h1) ∧
        InitInv h1 (index + pre.length) ∧
        (index + pre.length ≠ 0 → h1.m_numPoints = T) ∧
        h1.opened = h.opened ++ pre.map Prod.snd
  | [], index, h, _, inv, hT => ⟨h, fun _ => rfl, inv, hT, by simp⟩
  | e :: pre, index, h, hpass, inv, hT => by
    obtain ⟨h1, hone, hT1⟩ :=
      initEntry_passes (hpass e (List.mem_cons_self _ _)) inv hT
    have inv1 := initEntry_inv hone inv
    have hop1 := (initEntry_opened hone).1
    obtain ⟨h2, hrun, inv2, hT2, hop2⟩ := initLoop_prefix pre (index + 1) h1
      (fun e' he' => hpass e' (List.mem_cons_of_mem _ he')) inv1 (fun _ => hT1)
    have e1 : index + (e :: pre).length = index + 1 + pre.length := by
      simp only [List.length_cons]; omega
    refine ⟨h2, ?_, by rw [e1]; exact inv2, by rw [e1]; exact hT2, ?_⟩
    · intro rest
      rw [e1, ← hrun rest, List.cons_append]
      conv_lhs => rw [Hdf5Handler.initLoop]
      simp only [hone]
    · rw [hop2, hop1]
      simp

/-- When the loop of `initialize` completes, every entry of the map named an
existing dataset of integer or float class that is now among `m_dsets`. -/
theorem initLoop_ok_entries {file : H5File} :
    ∀ (entries : List (String × String)) (index : Nat) (h h' : Hdf5Handler),
      Hdf5Handler.initLoop file entries index h = .ok h' →
      (∀ ds ∈ h.m_dsets, ds ∈ h'.m_dsets) ∧
      ∀ e ∈ entries, ∃ ds, file.openDataSet e.2 = some ds ∧ ds ∈ h'.m_dsets ∧
        (ds.cls = H5T_class_t.H5T_INTEGER ∨ ds.cls = H5T_class_t.H5T_FLOAT)
  | [], _, h, h', hh => by
    simp only [Hdf5Handler.initLoop, Except.ok.injEq] at hh
    subst hh
    exact ⟨fun _ hds => hds, fun e he => by simp at he⟩
  | e :: rest, index, h, h', hh => by
    unfold Hdf5Handler.initLoop at hh
    split at hh
    · cases hh
    · rename_i h1 hone
      obtain ⟨ih1, ih2⟩ := initLoop_ok_entries rest (index + 1) h1 h' hh
      obtain ⟨dset, b, hopen, _, _, hcls, _, hh1⟩ := initEntry_ok hone
      have hd1 : h1.m_dsets = h.m_dsets ++ [dset] := by rw [hh1]
      refine ⟨?_, ?_⟩
      · intro ds hds
        exact ih1 ds (by rw [hd1]; exact List.mem_append_left _ hds)
      · intro e' he'
        rcases List.mem_cons.mp he' with rfl | hmem
        · exact ⟨dset, hopen, ih1 dset (by rw [hd1]; simp), hcls⟩
        · exact ih2 e' hmem

theorem char_toNat_inj {a b : Char} (h : a.toNat = b.toNat) : a = b := by
  apply Char.ext
  apply UInt32.ext
  exact h

theorem lexLess_irrefl : ∀ (a : List Char), lexLess a a = false
  | [] => rfl
  | c :: cs => by
    simp only [lexLess, Nat.lt_irrefl, if_false]
    exact lexLess_irrefl cs

theorem lexLess_trans : ∀ (a b c : List Char),
    lexLess a b = true → lexLess b c = true → lexLess a c = true
  | [], [], _, hab, _ => by simp [lexLess] at hab
  | _ :: _, [], _, hab, _ => by simp [lexLess] at hab
  | _, _ :: _, [], _, hbc => by simp [lexLess] at hbc
  | [], _ :: _, _ :: _, _, _ => rfl
  | x :: xs, y :: ys, z :: zs, hab, hbc => by
    simp only [lexLess] at hab hbc ⊢
    by_cases hxy : x.toNat < y.toNat
    · by_cases hyz : y.toNat < z.toNat
      · rw [if_pos (by omega)]
      · rw [if_neg hyz] at hbc
        by_cases hzy : z.toNat < y.toNat
        · rw [if_pos hzy] at hbc; cases hbc
        · rw [if_pos (by omega)]
    · rw [if_neg hxy] at hab
      by_cases hyx : y.toNat < x.toNat
      · rw [if_pos hyx] at hab; cases hab
      · rw [if_neg hyx] at hab
        by_cases hyz : y.toNat < z.toNat
        · rw [if_pos (by omega)]
        · rw [if_neg hyz] at hbc
          by_cases hzy : z.toNat < y.toNat
          · rw [if_pos hzy] at hbc; cases hbc
          · rw [if_neg hzy] at hbc
            rw [if_neg (by omega), if_neg (by omega)]
            exact lexLess_trans xs ys zs hab hbc

theorem lexLess_total : ∀ (a b : List Char),
    lexLess a b = false → lexLess b a = false → a = b
  | [], [], _, _ => rfl
  | [], _ :: _, hab, _ => by simp [lexLess] at hab
  | _ :: _, [], _, hba => by simp [lexLess] at hba
  | x :: xs, y :: ys, hab, hba => by
    simp only [lexLess] at hab hba
    by_cases hxy : x.toNat < y.toNat
    · rw [if_pos hxy] at hab; cases hab
    · rw [if_neg hxy] at hab
      by_cases hyx : y.toNat < x.toNat
      · rw [if_pos hyx] at hba; cases hba
      · rw [if_neg hyx] at hab hba
        rw [if_neg hxy] at hba
        have hc : x = y := char_toNat_inj (by omega)
        rw [hc, lexLess_total xs ys hab hba]

theorem keyLess_irrefl (a : String) : keyLess a a = false := lexLess_irrefl a.data

theorem keyLess_trans {a b c : String} (hab : keyLess a b = true) (hbc : keyLess b c = true) :
    keyLess a c = true := lexLess_trans _ _ _ hab hbc

theorem keyLess_total {a b : String} (hab : keyLess a b = false) (hne : a ≠ b) :
    keyLess b a = true := by
  by_contra hba
  have hba' : keyLess b a = false := by simpa using hba
  exact hne (String.ext (lexLess_total _ _ hab hba'))

theorem keyLess_ne {a b : String} (h : keyLess a b = true) : b ≠ a := by
  rintro rfl
  rw [keyLess_irrefl] at h
  cases h

/-- Assignment into a key-sorted map: the entries afterwards are the new
binding and the old bindings of the other keys. -/
theorem mem_mapAssign :
    ∀ (m : List (String × String)) (key value : String), KeySorted m →
      ∀ k v, (k, v) ∈ mapAssign m key value ↔
        (k = key ∧ v = value) ∨ ((k, v) ∈ m ∧ k ≠ key)
  | [], key, value, _, k, v => by simp [mapAssign]
  | (k0, v0) :: rest, key, value, hs, k, v => by
    have hrest : ∀ e ∈ rest, keyLess k0 e.1 = true := (List.pairwise_cons.mp hs).1
    have hs' : KeySorted rest := (List.pairwise_cons.mp hs).2
    unfold mapAssign
    by_cases hlt : keyLess key k0 = true
    · rw [if_pos hlt]
      have hnot : ∀ e ∈ (k0, v0) :: rest, e.1 ≠ key := by
        intro e he
        rcases List.mem_cons.mp he with rfl | he
        · exact keyLess_ne hlt
        · exact keyLess_ne (keyLess_trans hlt (hrest e he))
      constructor
      · intro h
        rcases List.mem_cons.mp h with h | h
        · left; simpa using h
        · right; exact ⟨h, hnot _ h⟩
      · rintro (⟨rfl, rfl⟩ | ⟨h, _⟩)
        · exact List.mem_cons_self _ _
        · exact List.mem_cons_of_mem _ h
    · rw [if_neg hlt]
      by_cases heq : key = k0
      · rw [if_pos heq]
        subst heq
        have hnot : ∀ e ∈ rest, e.1 ≠ key := fun e he => keyLess_ne (hrest e he)
        constructor
        · intro h
          rcases List.mem_cons.mp h with h | h
          · left; simpa using h
          · right; exact ⟨List.mem_cons_of_mem _ h, hnot _ h⟩
        · rintro (⟨rfl, rfl⟩ | ⟨h, hne⟩)
          · exact List.mem_cons_self _ _
          · rcases List.mem_cons.mp h with h | h
            · simp only [Prod.mk.injEq] at h
              exact absurd h.1 hne
            · exact List.mem_cons_of_mem _ h
      · rw [if_neg heq]
        have ih := mem_mapAssign rest key value hs' k v
        constructor
        · intro h
          rcases List.mem_cons.mp h with h | h
          · right
            simp only [Prod.mk.injEq] at h
            exact ⟨by rw [h.1, h.2]; exact List.mem_cons_self _ _, by rw [h.1]; exact Ne.symm heq⟩
          · rcases ih.mp h with h | ⟨h, hne⟩
            · left; exact h
            · right; exact ⟨List.mem_cons_of_mem _ h, hne⟩
        · rintro (h | ⟨h, hne⟩)
          · exact List.mem_cons_of_mem _ (ih.mpr (Or.inl h))
          · rcases List.mem_cons.mp h with h | h
            · rw [h]; exact List.mem_cons_self _ _
            · exact List.mem_cons_of_mem _ (ih.mpr (Or.inr ⟨h, hne⟩))

theorem keySorted_mapAssign :
    ∀ (m : List (String × String)) (key value : String), KeySorted m →
      KeySorted (mapAssign m key value)
  | [], key, value, _ => by simp [mapAssign, KeySorted]
  | (k0, v0) :: rest, key, value, hs => by
    have hrest : ∀ e ∈ rest, keyLess k0 e.1 = true := (List.pairwise_cons.mp hs).1
    have hs' : KeySorted rest := (List.pairwise_cons.mp hs).2
    unfold mapAssign
    by_cases hlt : keyLess key k0 = true
    · rw [if_pos hlt]
      refine List.pairwise_cons.mpr ⟨?_, hs⟩
      intro e he
      rcases List.mem_cons.mp he with rfl | he
      · exact hlt
      · exact keyLess_trans hlt (hrest e he)
    · rw [if_neg hlt]
      by_cases heq : key = k0
      · rw [if_pos heq]
        subst heq
        exact List.pairwise_cons.mpr ⟨hrest, hs'⟩
      · rw [if_neg heq]
        refine List.pairwise_cons.mpr ⟨?_, keySorted_mapAssign rest key value hs'⟩
        intro e he
        obtain ⟨k, v⟩ := e
        rcases (mem_mapAssign rest key value hs' k v).mp he with ⟨rfl, _⟩ | ⟨h, _⟩
        · exact keyLess_total (by simpa using hlt) heq
        · exact hrest _ h

theorem passFlags (T : Nat) :
    (List.range' 0 (T + 1)).map (fun m => decide (m + 1 ≤ T))
      = List.replicate T true ++ [false] := by
  rw [List.range'_1_concat, List.map_append]
  congr 1
  · rw [List.eq_replicate_iff]
    refine ⟨by simp, ?_⟩
    intro b hb
    simp only [List.mem_map, List.mem_range'_1] at hb
    obtain ⟨m, ⟨_, hm⟩, rfl⟩ := hb
    simp only [decide_eq_true_eq]
    omega
  · simp

theorem exampleReady_prepared :
    HdfReader.prepare exampleFs exampleReg (HdfReader.fresh 0 0 "f.h5" exampleJson)
      = some exampleReady := by
  have h : (HdfReader.prepare exampleFs exampleReg
      (HdfReader.fresh 0 0 "f.h5" exampleJson)).isSome = true := by decide
  unfold exampleReady
  cases hp : HdfReader.prepare exampleFs exampleReg (HdfReader.fresh 0 0 "f.h5" exampleJson) with
  | none => rw [hp] at h; cases h
  | some x => rfl

theorem dsets_npoints {h : Hdf5Handler} {n : Nat} (inv : InitInv h n) :
    ∀ ds ∈ h.m_dsets, ds.npoints = h.m_numPoints := by
  intro ds hds
  obtain ⟨i, hi⟩ := List.mem_iff_getElem?.mp hds
  have hlt : i < n := by rw [← inv.dsets]; exact (List.getElem?_eq_some.mp hi).1
  obtain ⟨c, hc⟩ := column?_of_lt inv hlt
  have h2 := (column?_eq_some.mp hc).2.1
  rw [hi] at h2
  rw [Option.some.inj h2]
  exact (inv.col i c hc).2.2.1


theorem initState_of_no_error {res : Except (Err × Hdf5Handler) Hdf5Handler}
    (h : initError res = none) : res = .ok (initState res) := by
  cases res with
  | ok x => rfl
  | error x => cases h

/-- A completed iteration of the loop of `initialize` keeps the columns found
so far and adds one for its entry: opened from the entry's path, named by the
entry's key. -/
theorem initEntry_columns {file : H5File} {h h' : Hdf5Handler} {index : Nat}
    {entry : String × String}
    (hh : Hdf5Handler.initEntry file h index entry = .ok h') (inv : InitInv h index) :
    h'.m_h5File = h.m_h5File ∧
    (∀ i, i < index → h'.column? i = h.column? i) ∧
    ∃ c, h'.column? index = some c ∧ file.openDataSet entry.2 = some c.dset ∧
      c.info.name = entry.1 ∧ c.info.hdf_type = c.dset.cls := by
  have inv' := initEntry_inv hh inv
  obtain ⟨dset, b, hopen, _, _, hcls, hb, rfl⟩ := initEntry_ok hh
  have hbnil : b = [] := by
    rw [List.getElem?_append_right (by rw [inv.buffers]), inv.buffers] at hb
    simpa using hb.symm
  subst hbnil
  rw [set_snoc _ _ _ inv.buffers] at inv' ⊢
  refine ⟨rfl, ?_, ?_⟩
  · intro i hi
    unfold Hdf5Handler.column?
    dsimp only
    rw [List.getElem?_append_left (by rw [inv.dimInfos]; exact hi),
      List.getElem?_append_left (by rw [inv.dsets]; exact hi),
      List.getElem?_append_left (by rw [inv.offsets]; exact hi),
      List.getElem?_append_left (by rw [inv.buffers]; exact hi)]
  · obtain ⟨c, hc⟩ := column?_of_lt inv' (Nat.lt_succ_self index)
    refine ⟨c, hc, ?_⟩
    obtain ⟨h1, h2, _, _⟩ := column?_eq_some.mp hc
    simp only at h1 h2
    rw [List.getElem?_append_right (by rw [inv.dimInfos]), inv.dimInfos] at h1
    rw [List.getElem?_append_right (by rw [inv.dsets]), inv.dsets] at h2
    simp only [Nat.sub_self, List.getElem?_cons_zero, Option.some.injEq] at h1 h2
    rw [← h2]
    refine ⟨hopen, ?_, ?_⟩
    · rw [← h1]
      split <;> rfl
    · rw [← h1]
      rcases hcls with hint | hfl
      · rw [if_pos hint, hint]
        rfl
      · have hni : ¬ dset.cls = H5T_class_t.H5T_INTEGER := by rw [hfl]; simp
        rw [if_neg hni, hfl]
        rfl

/-- When the loop of `initialize` completes from a state with `index`
columns, it has opened the paths of its entries in order, has kept the columns
it found, and column `index + j` belongs to the entry at position `j`. -/
theorem initLoop_columns {file : H5File} :
    ∀ (entries : List (String × String)) (index : Nat) (h h' : Hdf5Handler),
      Hdf5Handler.initLoop file entries index h = .ok h' → InitInv h index →
      h'.opened = h.opened ++ entries.map Prod.snd ∧ h'.m_h5File = h.m_h5File ∧
      (∀ i, i < index → h'.column? i = h.column? i) ∧
      ∀ j e, entries[j]? = some e →
        ∃ c, h'.column? (index + j) = some c ∧ file.openDataSet e.2 = some c.dset ∧
          c.info.name = e.1 ∧ c.info.hdf_type = c.dset.cls
  | [], index, h, h', hh, _ => by
    simp only [Hdf5Handler.initLoop, Except.ok.injEq] at hh
    subst hh
    exact ⟨by simp, rfl, fun _ _ => rfl, fun j e he => by simp at he⟩
  | e :: rest, index, h, h', hh, inv => by
    unfold Hdf5Handler.initLoop at hh
    split at hh
    · cases hh
    · rename_i h1 hone
      obtain ⟨hfile1, hpre1, c0, hc0, hopen0, hname0, hcls0⟩ := initEntry_columns hone inv
      obtain ⟨ho, hfile, hpre, hcols⟩ :=
        initLoop_columns rest (index + 1) h1 h' hh (initEntry_inv hone inv)
      refine ⟨?_, by rw [hfile, hfile1], ?_, ?_⟩
      · rw [ho, (initEntry_opened hone).1]
        simp
      · intro i hi
        rw [hpre i (by omega), hpre1 i hi]
      · intro j e' he'
        cases j with
        | zero =>
          simp only [List.getElem?_cons_zero, Option.some.injEq] at he'
          subst he'
          refine ⟨c0, ?_, hopen0, hname0, hcls0⟩
          rw [Nat.add_zero, hpre index (by omega)]
          exact hc0
        | succ j =>
          obtain ⟨c, hc, hrest⟩ := hcols j e' (by simpa using he')
          have e1 : index + (j + 1) = index + 1 + j := by omega
          rw [e1]
          exact ⟨c, hc, hrest⟩

/-- A completed iteration of the loop of `initialize` has added the column of
its entry with the descriptor the constructor of `DimInfo` builds from the
entry's key, the dataset under the entry's path, and that dataset's native
chunk size (1024 when it is not chunked). -/
theorem initEntry_descriptor {file : H5File} {h h' : Hdf5Handler} {index : Nat}
    {entry : String × String}
    (hh : Hdf5Handler.initEntry file h index entry = .ok h') (inv : InitInv h index) :
    ∃ c, h'.column? index = some c ∧ file.openDataSet entry.2 = some c.dset ∧
      (c.dset.cls = H5T_class_t.H5T_INTEGER ∨ c.dset.cls = H5T_class_t.H5T_FLOAT) ∧
      c.info =
        (if c.dset.cls = H5T_class_t.H5T_INTEGER then
            DimInfo.ofIntType entry.1 c.dset
              (if c.dset.layout = H5D_layout_t.H5D_CHUNKED then c.dset.chunkDim0 else 1024)
          else
            DimInfo.ofFloatType entry.1 c.dset
              (if c.dset.layout = H5D_layout_t.H5D_CHUNKED then c.dset.chunkDim0 else 1024)) := by
  have inv' := initEntry_inv hh inv
  obtain ⟨dset, b, hopen, _, _, hcls, hb, rfl⟩ := initEntry_ok hh
  obtain ⟨c, hc⟩ := column?_of_lt inv' (Nat.lt_succ_self index)
  refine ⟨c, hc, ?_⟩
  obtain ⟨h1, h2, _, _⟩ := column?_eq_some.mp hc
  simp only at h1 h2
  rw [List.getElem?_append_right (by rw [inv.dimInfos]), inv.dimInfos] at h1
  rw [List.getElem?_append_right (by rw [inv.dsets]), inv.dsets] at h2
  simp only [Nat.sub_self, List.getElem?_cons_zero, Option.some.injEq] at h1 h2
  rw [← h2]
  exact ⟨hopen, hcls, h1.symm⟩

/-- When the loop of `initialize` completes from a state with `index`
columns, the descriptor of column `index + j` is the one the constructor of
`DimInfo` builds from the key of entry `j` and the dataset under its path. -/
theorem initLoop_descriptor {file : H5File} :
    ∀ (entries : List (String × String)) (index : Nat) (h h' : Hdf5Handler),
      Hdf5Handler.initLoop file entries index h = .ok h' → InitInv h index →
      ∀ j e, entries[j]? = some e →
        ∃ c, h'.column? (index + j) = some c ∧ file.openDataSet e.2 = some c.dset ∧
          (c.dset.cls = H5T_class_t.H5T_INTEGER ∨ c.dset.cls = H5T_class_t.H5T_FLOAT) ∧
          c.info =
            (if c.dset.cls = H5T_class_t.H5T_INTEGER then
                DimInfo.ofIntType e.1 c.dset
                  (if c.dset.layout = H5D_layout_t.H5D_CHUNKED then c.dset.chunkDim0 else 1024)
              else
                DimInfo.ofFloatType e.1 c.dset
                  (if c.dset.layout = H5D_layout_t.H5D_CHUNKED then c.dset.chunkDim0
                    else 1024))
  | [], index, h, h', _, _ => fun j e he => by simp at he
  | e :: rest, index, h, h', hh, inv => by
    unfold Hdf5Handler.initLoop at hh
    split at hh
    · cases hh
    · rename_i h1 hone
      obtain ⟨c0, hc0, hrest0⟩ := initEntry_descriptor hone inv
      have inv1 := initEntry_inv hone inv
      obtain ⟨_, _, hpre, _⟩ := initLoop_columns rest (index + 1) h1 h' hh inv1
      have ih := initLoop_descriptor rest (index + 1) h1 h' hh inv1
      intro j e' he'
      cases j with
      | zero =>
        simp only [List.getElem?_cons_zero, Option.some.injEq] at he'
        subst he'
        refine ⟨c0, ?_, hrest0⟩
        rw [Nat.add_zero, hpre index (by omega)]
        exact hc0
      | succ j =>
        obtain ⟨c, hc, hrest⟩ := ih j e' (by simpa using he')
        have e1 : index + (j + 1) = index + 1 + j := by omega
        rw [e1]
        exact ⟨c, hc, hrest⟩

/-- After `initialize` on a handler as constructed, the descriptor of column
`i` is the one the constructor of `DimInfo` builds from the key of entry `i`
of the map and the dataset its path names in the opened file. -/
theorem initialize_descriptor {fs : String → Option H5File} {garbage : Nat}
    {filename : String} {map : List (String × String)} {h' : Hdf5Handler}
    (hh : Hdf5Handler.initialize fs (Hdf5Handler.fresh garbage) filename map = .ok h')
    {i : Nat} {e : String × String} (he : map[i]? = some e) :
    ∃ file c, fs filename = some file ∧ h'.column? i = some c ∧
      file.openDataSet e.2 = some c.dset ∧
      (c.dset.cls = H5T_class_t.H5T_INTEGER ∨ c.dset.cls = H5T_class_t.H5T_FLOAT) ∧
      c.info =
        (if c.dset.cls = H5T_class_t.H5T_INTEGER then
            DimInfo.ofIntType e.1 c.dset
              (if c.dset.layout = H5D_layout_t.H5D_CHUNKED then c.dset.chunkDim0 else 1024)
          else
            DimInfo.ofFloatType e.1 c.dset
              (if c.dset.layout = H5D_layout_t.H5D_CHUNKED then c.dset.chunkDim0 else 1024)) := by
  unfold Hdf5Handler.initialize at hh
  cases hfile : fs filename with
  | none =>
    rw [hfile] at hh
    cases hh
  | some file =>
    rw [hfile] at hh
    have inv0 : InitInv { Hdf5Handler.fresh garbage with m_h5File := some file } 0 := by
      refine ⟨rfl, rfl, rfl, rfl, rfl, ?_⟩
      intro i c hc
      simp [Hdf5Handler.column?, Hdf5Handler.fresh] at hc
    obtain ⟨c, hc, hrest⟩ := initLoop_descriptor map 0 _ h' hh inv0 i e he
    rw [Nat.zero_add] at hc
    exact ⟨file, c, rfl, hc, hrest⟩

theorem read_static {lib : OutOfExtent} {r r' : HdfReader} {viewSize count m : Nat}
    {ws : List (Nat × FieldWrite)}
    (hh : HdfReader.read lib r viewSize count = .ok (m, ws, r')) :
    m = min count ((r.m_hdf5Handler.m_numPoints + u64 - r.m_index) % u64) ∧
      r'.m_index = r.m_index ∧
      r'.m_info.map (fun b => b.info) = r.m_info.map (fun b => b.info) ∧
      r'.m_hdf5Handler.m_numPoints = r.m_hdf5Handler.m_numPoints ∧
      r'.m_hdf5Handler.m_dimInfos = r.m_hdf5Handler.m_dimInfos ∧
      r'.m_hdf5Handler.m_dsets = r.m_hdf5Handler.m_dsets := by
  unfold HdfReader.read at hh
  dsimp only at hh
  split at hh
  · cases hh
  · rename_i ws1 r1 hloop
    cases hh
    obtain ⟨q1, q2, q3, q4, q5⟩ := readLoop_static _ _ _ _ hloop
    exact ⟨rfl, q1, q2, q3, q4, q5⟩

theorem reach_cursor {lib : OutOfExtent} {r0 r : HdfReader} {n : Nat}
    (h : Reach lib r0 n r) :
    r.m_index = n % u64 ∧ r.m_hdf5Handler.m_numPoints = r0.m_hdf5Handler.m_numPoints := by
  induction h with
  | start => exact ⟨rfl, rfl⟩
  | pull _ hone ih =>
    obtain ⟨p1, _, _, _, p5, _⟩ := processOne_static hone
    refine ⟨?_, by rw [p5, ih.2]⟩
    rw [p1, ih.1, Nat.add_mod, Nat.mod_mod, ← Nat.add_mod]
  | bulk _ hread ih =>
    obtain ⟨_, q1, _, q3, _⟩ := read_static hread
    exact ⟨by rw [q1, ih.1], by rw [q3, ih.2]⟩

theorem reach_pulls {lib : OutOfExtent} {r0 : HdfReader} :
    ∀ (n k : Nat) (r r' : HdfReader) (rows : List (Bool × List FieldWrite)),
      Reach lib r0 k r → HdfReader.pulls lib n r = .ok (rows, r') → Reach lib r0 (k + n) r'
  | 0, k, r, r', rows, h, hh => by
    simp only [HdfReader.pulls, Except.ok.injEq, Prod.mk.injEq] at hh
    rw [← hh.2]
    exact h
  | n + 1, k, r, r', rows, h, hh => by
    unfold HdfReader.pulls at hh
    split at hh
    · cases hh
    · rename_i b ws r1 hone
      split at hh
      · cases hh
      · rename_i more r2 hrest
        cases hh
        have := reach_pulls n (k + 1) r1 _ _ (Reach.pull h hone) hrest
        have e : k + (n + 1) = k + 1 + n := by omega
        rw [e]; exact this

theorem afterPulls_eq (lib : OutOfExtent) (n : Nat) (r : HdfReader)
    (h : (failure (HdfReader.pulls lib n r)) = none) :
    ∃ rows, HdfReader.pulls lib n r = .ok (rows, HdfReader.afterPulls lib n r) := by
  unfold HdfReader.afterPulls
  cases hp : HdfReader.pulls lib n r with
  | error e => rw [hp] at h; cases h
  | ok x => exact ⟨x.1, rfl⟩

theorem exampleReady_ready : exampleReady.ready = exampleReady := by
  obtain ⟨h, _⟩ := prepare_eq exampleReady_prepared
  unfold HdfReader.ready
  rw [← h]

theorem tolerant_clipOutside : Tolerant clipOutside := fun _ _ _ => rfl

theorem reach_afterPulls (lib : OutOfExtent) (n : Nat) (r : HdfReader)
    (hready : r.ready = r) (h : failure (HdfReader.pulls lib n r) = none) :
    Reach lib r n (HdfReader.afterPulls lib n r) := by
  obtain ⟨rows, hrows⟩ := afterPulls_eq lib n r h
  have h0 : Reach lib r 0 r := by
    have h1 : Reach lib r 0 r.ready := Reach.start
    rw [hready] at h1
    exact h1
  simpa using reach_pulls n 0 _ _ rows h0 hrows


/-- C1: a reader that has been set up successfully (`initialize`,
`addDimensions`, `ready`) over columns whose common length is the row count
`T`, all chunk sizes positive and no 64-bit quantity overflowing, answers the
first `T` calls of `processOne` with `true` and call `T + 1` with `false`. -/
theorem C1_pull_return_sequence (lib : OutOfExtent) (fs : String → Option H5File)
    (reg : String → DimType → Nat) (garbage index0 : Nat) (filename : String) (json : Json)
    (r : HdfReader)
    (hp : HdfReader.prepare fs reg (HdfReader.fresh garbage index0 filename json) = some r)
    (hf : r.Fits) :
    (∀ ds ∈ r.m_hdf5Handler.m_dsets, ds.npoints = r.m_hdf5Handler.m_numPoints) ∧
    ∃ rows r',
      HdfReader.pulls lib (r.m_hdf5Handler.m_numPoints + 1) r = .ok (rows, r') ∧
      rows.map (fun x => x.1) = List.replicate r.m_hdf5Handler.m_numPoints true ++ [false] := by
  obtain ⟨hpass, _⟩ := prepare_pass hp hf
  obtain ⟨rows, r', hrun, _, hflags, _⟩ :=
    pulls_pass lib hf.1 (r.m_hdf5Handler.m_numPoints + 1) 0 r hpass (by omega)
  refine ⟨dsets_npoints (initialize_inv (prepare_eq hp).2.2.1), rows, r', hrun, ?_⟩
  rw [hflags, passFlags]

theorem C1_witness :
    exampleReady.Fits ∧ exampleReady.m_hdf5Handler.m_numPoints = 5 ∧
    ∃ rows r',
      HdfReader.pulls rejectOutside (exampleReady.m_hdf5Handler.m_numPoints + 1) exampleReady
        = .ok (rows, r') ∧
      rows.map (fun x => x.1)
        = List.replicate exampleReady.m_hdf5Handler.m_numPoints true ++ [false] :=
  ⟨by decide, by decide,
    (C1_pull_return_sequence rejectOutside exampleFs exampleReg 0 0 "f.h5" exampleJson
      exampleReady exampleReady_prepared (by decide)).2⟩

theorem map_info_getElem? {l l' : List BufferInfo} {c : Nat} {b : BufferInfo}
    (h : l'.map (fun b => b.info) = l.map (fun b => b.info)) (hb : l[c]? = some b) :
    ∃ b', l'[c]? = some b' ∧ b'.info = b.info := by
  have h1 := congrArg (fun m => m[c]?) h
  simp only [List.getElem?_map, hb, Option.map_some'] at h1
  cases hb' : l'[c]? with
  | none => simp [hb'] at h1
  | some b' =>
    simp only [hb', Option.map_some', Option.some.injEq] at h1
    exact ⟨b', rfl, h1⟩

/-- C2: in a freshly set-up reader, for every mapped column `c` (entry `e` of
the map, descriptor `d`, dataset `ds`, positive chunk size) and every row `R`
below the row count: the dataset is the one the entry's path names in the
store, and the descriptor records the entry's key, the dataset's byte order,
element size and class and, for an integer column, its sign scheme, with the
type signed or unsigned of the dataset's width accordingly.  Call `R + 1` of
`processOne` returns `true` and hands the sink, for column `c`, the field
identifier the layout gave for the entry's key, the descriptor's type, and
exactly the `size` bytes stored at row `R` of the dataset, which are the bytes
at offset `(R mod chunkSize) * size` of the column's buffer after the refills
made so far; hence an integer `V` stored at row `R` in the dataset's byte
order and sign scheme is decoded, in the byte order the descriptor records
and the type handed over, as `V`. -/
theorem C2_pull_byte_round_trip (lib : OutOfExtent) (fs : String → Option H5File)
    (reg : String → DimType → Nat) (garbage index0 : Nat) (filename : String) (json : Json)
    (r : HdfReader)
    (hp : HdfReader.prepare fs reg (HdfReader.fresh garbage index0 filename json) = some r)
    (hf : r.Fits) (hwf : r.StoreWF) (R c : Nat) (e : String × String) (d : DimInfo)
    (ds : DataSet)
    (hR : R < r.m_hdf5Handler.m_numPoints)
    (he : r.m_pathDimMap[c]? = some e)
    (hd : r.m_hdf5Handler.m_dimInfos[c]? = some d)
    (hds : r.m_hdf5Handler.m_dsets[c]? = some ds) :
    (∃ file, fs filename = some file ∧ file.openDataSet e.2 = some ds) ∧
    d.name = e.1 ∧ d.endianness = ds.order ∧ d.size = ds.size ∧ d.hdf_type = ds.cls ∧
    d.chunkSize = (if ds.layout = H5D_layout_t.H5D_CHUNKED then ds.chunkDim0 else 1024) ∧
    (ds.cls = H5T_class_t.H5T_INTEGER →
      d.sign = ds.sign ∧
      d.pdal_type = ⟨if ds.sign = H5T_sign_t.H5T_SGN_2 then BaseType.Signed
        else BaseType.Unsigned, ds.size⟩) ∧
    (ds.cls ≠ H5T_class_t.H5T_INTEGER → d.pdal_type = ⟨BaseType.Floating, ds.size⟩) ∧
    ∃ rows r' ws w buf,
      HdfReader.pulls lib (R + 1) r = .ok (rows, r') ∧
      rows[R]? = some (true, ws) ∧ ws[c]? = some w ∧
      w.id = some (reg e.1 d.pdal_type) ∧
      w.type = d.pdal_type ∧
      w.bytes = (ds.bytes.drop (R * ds.size)).take ds.size ∧
      w.bytes.length = ds.size ∧
      r'.m_hdf5Handler.m_buffers[c]? = some buf ∧
      w.bytes = (buf.drop ((R % d.chunkSize) * ds.size)).take ds.size ∧
      ∀ V : Int, ds.cls = H5T_class_t.H5T_INTEGER →
        encodeInt ds.order (decide (ds.sign = H5T_sign_t.H5T_SGN_2)) ds.size V
          = some ((ds.bytes.drop (R * ds.size)).take ds.size) →
        decodeInt d.endianness w.type w.bytes = some V := by
  obtain ⟨hpass, _⟩ := prepare_pass hp hf
  obtain ⟨_, _, hinit, hinfo⟩ := prepare_eq hp
  have inv := initialize_inv hinit
  -- the descriptor of column `c`
  obtain ⟨file, col, hfile, hcolumn, hopen, hcls, hdesc⟩ := initialize_descriptor hinit he
  obtain ⟨k1, k2, _, _⟩ := column?_eq_some.mp hcolumn
  rw [hd] at k1
  rw [hds] at k2
  obtain rfl : d = col.info := Option.some.inj k1
  obtain rfl : ds = col.dset := Option.some.inj k2
  have hname : col.info.name = e.1 := by
    rw [hdesc]; split <;> rfl
  have horder : col.info.endianness = col.dset.order := by
    rw [hdesc]; split <;> rfl
  have hsize : col.info.size = col.dset.size := by
    rw [hdesc]; split <;> rfl
  have hclass : col.info.hdf_type = col.dset.cls := by
    rcases hcls with hint | hfl
    · rw [hdesc, if_pos hint, hint]; rfl
    · have hni : ¬ col.dset.cls = H5T_class_t.H5T_INTEGER := by rw [hfl]; simp
      rw [hdesc, if_neg hni, hfl]; rfl
  have hchunk : col.info.chunkSize
      = (if col.dset.layout = H5D_layout_t.H5D_CHUNKED then col.dset.chunkDim0 else 1024) := by
    rw [hdesc]; split <;> rfl
  have hint_type : col.dset.cls = H5T_class_t.H5T_INTEGER →
      col.info.sign = col.dset.sign ∧
      col.info.pdal_type = ⟨if col.dset.sign = H5T_sign_t.H5T_SGN_2 then BaseType.Signed
        else BaseType.Unsigned, col.dset.size⟩ := by
    intro hint
    rw [hdesc, if_pos hint]
    refine ⟨rfl, ?_⟩
    unfold DimInfo.ofIntType
    dsimp only
    split <;> rfl
  have hfloat_type : col.dset.cls ≠ H5T_class_t.H5T_INTEGER →
      col.info.pdal_type = ⟨BaseType.Floating, col.dset.size⟩ := by
    intro hni
    rw [hdesc, if_neg hni]
    rfl
  refine ⟨⟨file, hfile, hopen⟩, hname, horder, hsize, hclass, hchunk, hint_type,
    hfloat_type, ?_⟩
  -- the first `R` pulls, then pull `R + 1`
  obtain ⟨rows0, r0, hrun0, hp0, _, _⟩ :=
    pulls_pass lib hf.1 R 0 r hpass (by omega)
  rw [Nat.zero_add] at hp0
  obtain ⟨ws, r1, hone, hp1, cells, _⟩ := processOne_pass lib hp0 (by omega) hf.1
  obtain ⟨hlen0, hmap0, _, hdim0, hdset0⟩ := pulls_static R r hrun0
  obtain ⟨_, _, hmap1, _, _, hdim1, hdset1⟩ := processOne_static hone
  have hrun : HdfReader.pulls lib (R + 1) r
      = .ok (rows0 ++ [(decide (R + 1 ≤ r.m_hdf5Handler.m_numPoints), ws)], r1) := by
    rw [pulls_succ, hrun0]
    simp only [hone]
  have htrue : decide (R + 1 ≤ r.m_hdf5Handler.m_numPoints) = true := by
    simp only [decide_eq_true_eq]; omega
  rw [htrue] at hrun
  -- entry `c` of `m_info`
  have hb : r.m_info[c]?
      = some ⟨{ col.info with id := some (reg col.info.name col.info.pdal_type) }, none⟩ := by
    rw [hinfo, List.getElem?_map, hd]; rfl
  obtain ⟨b0, hb0, hb0i⟩ := map_info_getElem? hmap0 hb
  obtain ⟨b1, hb1, hb1i⟩ := map_info_getElem? hmap1 hb0
  obtain ⟨c', w, hc', hw, hwid, hwt, hwb⟩ := cells.2 c b0 hb0
  rw [Nat.zero_add] at hc'
  obtain ⟨c'', hc'', hcol⟩ := hp1.2.2 c b1 hb1
  rw [Nat.zero_add] at hc'' hcol
  rw [hc'] at hc''
  obtain rfl : c' = c'' := Option.some.inj hc''
  obtain ⟨e1, e2, _, e4⟩ := column?_eq_some.mp hc'
  have hci : c'.info = col.info := by
    rw [hdim1, hdim0, hd] at e1
    exact (Option.some.inj e1).symm
  have hcd : c'.dset = col.dset := by
    rw [hdset1, hdset0, hds] at e2
    exact (Option.some.inj e2).symm
  have hnp : col.dset.npoints = r.m_hdf5Handler.m_numPoints := by
    rw [← hcd]; exact hcol.npoints
  have hbytes : col.dset.bytes.length = r.m_hdf5Handler.m_numPoints * col.info.size := by
    rw [hwf col.dset (List.getElem?_mem hds), hnp, hsize]
  have hrow := colAt_row_bytes hcol (by rw [hcd, hci]; exact hbytes) hR
  rw [hci, hcd] at hrow
  rw [hci] at hwb
  have hwbytes : w.bytes = (col.dset.bytes.drop (R * col.dset.size)).take col.dset.size := by
    rw [hwb, hrow, hsize]
  have hwtype : w.type = col.info.pdal_type := by rw [hwt, hb0i]
  have hwident : w.id = some (reg e.1 col.info.pdal_type) := by
    rw [hwid, hb0i, ← hname]
  refine ⟨_, r1, ws, w, c'.buffer, hrun, ?_, hw, hwident, hwtype, hwbytes, ?_, e4, ?_, ?_⟩
  · rw [List.getElem?_append_right (by omega), hlen0]
    simp
  · rw [hwbytes, List.length_take, List.length_drop, hbytes, hsize]
    have h1 : (R + 1) * col.dset.size ≤ r.m_hdf5Handler.m_numPoints * col.dset.size :=
      Nat.mul_le_mul_right _ hR
    have h2 : (R + 1) * col.dset.size = R * col.dset.size + col.dset.size := by ring
    omega
  · rw [hwb, hsize]
  · intro V hint henc
    rw [hwtype, hwbytes, horder, (hint_type hint).2]
    by_cases hs : col.dset.sign = H5T_sign_t.H5T_SGN_2
    · rw [if_pos hs]
      apply decodeInt_encodeInt
      simpa [hs] using henc
    · rw [if_neg hs]
      apply decodeInt_encodeInt
      simpa [hs] using henc

theorem C2_witness :
    exampleReady.Fits ∧ exampleReady.StoreWF ∧ 3 < exampleReady.m_hdf5Handler.m_numPoints ∧
    exampleFile.openDataSet "/data/x" = some exampleX ∧
    (DimInfo.ofIntType "x" exampleX 2).endianness = exampleX.order ∧
    ∃ rows r' ws w buf,
      HdfReader.pulls rejectOutside (3 + 1) exampleReady = .ok (rows, r') ∧
      rows[3]? = some (true, ws) ∧ ws[0]? = some w ∧
      w.id = some 1 ∧ w.type = ⟨BaseType.Signed, 2⟩ ∧
      w.bytes = [13, 0] ∧
      r'.m_hdf5Handler.m_buffers[0]? = some buf ∧
      w.bytes = (buf.drop 2).take 2 ∧
      decodeInt H5T_order_t.H5T_ORDER_LE w.type w.bytes = some 13 := by
  obtain ⟨_, _, horder, _, _, _, _, _, rows, r', ws, w, buf, hrun, hrow, hw, hid, htype,
      hbytes, _, hbuf, hoff, hdec⟩ :=
    C2_pull_byte_round_trip rejectOutside exampleFs exampleReg 0 0 "f.h5" exampleJson
      exampleReady exampleReady_prepared (by decide) (by decide) 3 0 ("x", "/data/x")
      (DimInfo.ofIntType "x" exampleX 2) exampleX (by decide) (by decide) (by decide)
      (by decide)
  exact ⟨by decide, by decide, by decide, by decide, horder, rows, r', ws, w, buf, hrun, hrow,
    hw, hid, htype, hbytes, hbuf, hoff, hdec 13 (by decide) (by decide)⟩

theorem refills_ge (T k : Nat) :
    ∀ (chunks : List Nat) (index : Nat) (e : Nat × Nat × Nat),
      e ∈ refills T k index chunks → index ≤ e.1
  | [], _, e, he => by simp [refills] at he
  | C :: rest, index, e, he => by
    simp only [refills, List.mem_append] at he
    rcases he with he | he
    · split at he
      · simp only [List.mem_singleton] at he
        rw [he]
      · simp at he
    · have := refills_ge T k rest (index + 1) e he
      omega

theorem refills_filter (T k : Nat) :
    ∀ (chunks : List Nat) (index j C : Nat), chunks[j]? = some C →
      (refills T k index chunks).filter (fun e => decide (e.1 = index + j))
        = if k % C = 0 then [(index + j, k, min (T - k) C)] else []
  | [], _, j, C, h => by simp at h
  | C0 :: rest, index, 0, C, h => by
    simp only [List.getElem?_cons_zero, Option.some.injEq] at h
    subst h
    have htail : (refills T k (index + 1) rest).filter (fun e => decide (e.1 = index + 0)) = [] := by
      rw [List.filter_eq_nil_iff]
      intro e he
      have := refills_ge T k rest (index + 1) e he
      simp only [decide_eq_true_eq]
      omega
    simp only [refills, List.filter_append, htail, List.append_nil]
    split <;> simp
  | C0 :: rest, index, j + 1, C, h => by
    simp only [List.getElem?_cons_succ] at h
    have ih := refills_filter T k rest (index + 1) j C h
    have e : index + 1 + j = index + (j + 1) := by omega
    rw [e] at ih
    have hhead : (if k % C0 = 0 then [(index, k, min (T - k) C0)] else []).filter
        (fun e => decide (e.1 = index + (j + 1))) = [] := by
      split <;> simp
    simp only [refills, List.filter_append, hhead, List.nil_append, ih]

theorem refillsFrom_filter (T : Nat) (chunks : List Nat) (c C : Nat)
    (h : chunks[c]? = some C) :
    ∀ (n k : Nat),
      (refillsFrom T chunks k n).filter (fun e => decide (e.1 = c))
        = ((List.range' k n).filter (fun m => decide (m % C = 0))).map
            (fun m => (c, m, min (T - m) C))
  | 0, k => by simp [refillsFrom]
  | n + 1, k => by
    have h0 := refills_filter T k chunks 0 c C h
    rw [Nat.zero_add] at h0
    rw [refillsFrom, List.filter_append, h0, refillsFrom_filter T chunks c C h n (k + 1),
      List.range'_succ, List.filter_cons]
    by_cases hk : k % C = 0
    · simp [hk]
    · simp [hk]

theorem ceilDiv_eq {n C : Nat} (hC : 0 < C) :
    ceilDiv n C = if n % C = 0 then n / C else n / C + 1 := by
  split
  · rename_i h
    have := ceilDiv_mul_of_dvd hC h
    exact (Nat.div_eq_of_eq_mul_left hC this.symm).symm
  · rename_i h
    exact ceilDiv_of_not_dvd hC h

theorem count_multiples {C : Nat} (hC : 0 < C) :
    ∀ n, ((List.range n).filter (fun m => decide (m % C = 0))).length = ceilDiv n C
  | 0 => by simp [ceilDiv_zero hC]
  | n + 1 => by
    rw [List.range_succ, List.filter_append, List.length_append, count_multiples hC n,
      ceilDiv_succ hC, ceilDiv_eq hC]
    by_cases h : n % C = 0 <;> simp [h]

/-- C3 (amended): in a freshly set-up reader, after any number `n ≤ T + 1` of
`processOne` calls the reads issued for column `c` (chunk size `C > 0`) are
exactly one for each row index `k < n` that is a multiple of `C`, in order,
starting at row `k` and of `min (T - k) C` elements; there are `ceil(n / C)`
of them.  So the `T` calls that return `true` make `ceil(T / C)` refills, each
in the call that materialises a row whose index is a multiple of `C`, and the
full pass of `T + 1` calls makes `ceil((T + 1) / C) = T / C + 1`. -/
theorem C3_refill_count (lib : OutOfExtent) (fs : String → Option H5File)
    (reg : String → DimType → Nat) (garbage index0 : Nat) (filename : String) (json : Json)
    (r : HdfReader)
    (hp : HdfReader.prepare fs reg (HdfReader.fresh garbage index0 filename json) = some r)
    (hf : r.Fits) (c : Nat) (d : DimInfo)
    (hd : r.m_hdf5Handler.m_dimInfos[c]? = some d)
    (n : Nat) (hn : n ≤ r.m_hdf5Handler.m_numPoints + 1) :
    ∃ rows r',
      HdfReader.pulls lib n r = .ok (rows, r') ∧
      r'.m_hdf5Handler.reads.filter (fun e => decide (e.1 = c))
        = ((List.range n).filter (fun k => decide (k % d.chunkSize = 0))).map
            (fun k => (c, k, min (r.m_hdf5Handler.m_numPoints - k) d.chunkSize)) ∧
      (r'.m_hdf5Handler.reads.filter (fun e => decide (e.1 = c))).length
        = ceilDiv n d.chunkSize ∧
      ceilDiv (r.m_hdf5Handler.m_numPoints + 1) d.chunkSize
        = r.m_hdf5Handler.m_numPoints / d.chunkSize + 1 := by
  obtain ⟨hpass, hreads0⟩ := prepare_pass hp hf
  obtain ⟨_, _, _, hinfo⟩ := prepare_eq hp
  obtain ⟨rows, r', hrun, _, _, hreads⟩ := pulls_pass lib hf.1 n 0 r hpass (by omega)
  have hC : 0 < d.chunkSize := (hf.2 d (List.getElem?_mem hd)).1
  have hchunks : r.chunkSizes[c]? = some d.chunkSize := by
    simp [HdfReader.chunkSizes, hinfo, List.getElem?_map, hd]
  have hfilter := refillsFrom_filter r.m_hdf5Handler.m_numPoints r.chunkSizes c d.chunkSize
    hchunks n 0
  rw [← List.range_eq_range'] at hfilter
  rw [hreads0, List.nil_append] at hreads
  refine ⟨rows, r', hrun, ?_, ?_, ceilDiv_succ hC⟩
  · rw [hreads, hfilter]
  · rw [hreads, hfilter, List.length_map, count_multiples hC]

theorem C3_witness :
    exampleReady.Fits ∧ 5 ≤ exampleReady.m_hdf5Handler.m_numPoints + 1 ∧
    ∃ rows r',
      HdfReader.pulls rejectOutside 5 exampleReady = .ok (rows, r') ∧
      r'.m_hdf5Handler.reads.filter (fun e => decide (e.1 = 1))
        = ((List.range 5).filter
            (fun k => decide (k % (DimInfo.ofIntType "y" exampleY 2).chunkSize = 0))).map
            (fun k => (1, k, min (exampleReady.m_hdf5Handler.m_numPoints - k)
              (DimInfo.ofIntType "y" exampleY 2).chunkSize)) ∧
      (r'.m_hdf5Handler.reads.filter (fun e => decide (e.1 = 1))).length
        = ceilDiv 5 (DimInfo.ofIntType "y" exampleY 2).chunkSize ∧
      ceilDiv (exampleReady.m_hdf5Handler.m_numPoints + 1)
          (DimInfo.ofIntType "y" exampleY 2).chunkSize
        = exampleReady.m_hdf5Handler.m_numPoints
            / (DimInfo.ofIntType "y" exampleY 2).chunkSize + 1 :=
  ⟨by decide, by decide,
    C3_refill_count rejectOutside exampleFs exampleReg 0 0 "f.h5" exampleJson
      exampleReady exampleReady_prepared (by decide) 1 (DimInfo.ofIntType "y" exampleY 2)
      (by decide) 5 (by decide)⟩

/-- C3 fails as stated when the chunk size divides the row count: over four
rows in chunks of two the pass that runs until `processOne` returns `false`
takes five calls and reads column 0 three times, the third time (zero
elements, from row 4) in the call that returns `false`, while
`ceil(4 / 2) = 2`. -/
theorem C3_counterexample :
    evenReady.m_hdf5Handler.m_numPoints = 4 ∧
    evenReady.chunkSizes = [2] ∧
    returned (HdfReader.pulls rejectOutside 5 evenReady)
      = some [true, true, true, true, false] ∧
    readsAfter (HdfReader.pulls rejectOutside 4 evenReady) = some [(0, 0, 2), (0, 2, 2)] ∧
    readsAfter (HdfReader.pulls rejectOutside 5 evenReady)
      = some [(0, 0, 2), (0, 2, 2), (0, 4, 0)] ∧
    ceilDiv 4 2 = 2 := by
  decide

theorem processOne_served {lib : OutOfExtent} (hserve : Tolerant lib) {r : HdfReader}
    (hrow : RowOK r.m_index 0 r.m_info r.m_hdf5Handler) :
    ∃ ws r',
      HdfReader.processOne lib r
        = .ok (decide ((r.m_index + 1) % u64 ≤ r.m_hdf5Handler.m_numPoints), ws, r') ∧
      (∀ row, RowOK row 0 r'.m_info r'.m_hdf5Handler) ∧
      r'.m_index = (r.m_index + 1) % u64 ∧
      r'.m_hdf5Handler.m_numPoints = r.m_hdf5Handler.m_numPoints := by
  obtain ⟨infos, ws, h1, hfr⟩ := fillRow_served hserve r.m_info 0 r.m_hdf5Handler hrow
  have hok : ColsOK 0 r.m_info r.m_hdf5Handler := by
    intro j b hb
    obtain ⟨c, hc, ok, _⟩ := hrow j b hb
    exact ⟨c, hc, ok⟩
  obtain ⟨hok1, _, hset⟩ := fillRow_colsOK _ _ _ hfr hok
  have hN : h1.m_numPoints = r.m_hdf5Handler.m_numPoints := (fillRow_static _ _ _ hfr).2.2.1
  refine ⟨ws, { r with m_info := infos, m_hdf5Handler := h1, m_index := (r.m_index + 1) % u64 },
    ?_, ?_, rfl, hN⟩
  · unfold HdfReader.processOne
    rw [hfr]
    simp only [Hdf5Handler.getNumPoints, hN]
  · intro row j b hb
    obtain ⟨c, hc, ok⟩ := hok1 j b hb
    exact ⟨c, hc, ok, Or.inr (hset hrow j b hb)⟩

theorem pulls_served {lib : OutOfExtent} (hserve : Tolerant lib) {T : Nat} :
    ∀ (n k : Nat) (r : HdfReader),
      RowOK k 0 r.m_info r.m_hdf5Handler → r.m_index = k →
      r.m_hdf5Handler.m_numPoints = T → k + n < u64 →
      ∃ rows r',
        HdfReader.pulls lib n r = .ok (rows, r') ∧
        rows.map (fun x => x.1) = (List.range' k n).map (fun m => decide (m + 1 ≤ T))
  | 0, _, r, _, _, _, _ => ⟨[], r, rfl, rfl⟩
  | n + 1, k, r, hrow, hk, hT, hlt => by
    rw [← hk] at hrow
    obtain ⟨ws, r1, hone, hrow1, hidx1, hT1⟩ := processOne_served hserve hrow
    have hmod : (r.m_index + 1) % u64 = k + 1 := by
      rw [hk]; exact Nat.mod_eq_of_lt (by omega)
    rw [hmod] at hidx1 hone
    obtain ⟨rows, r2, hrest, hflags⟩ :=
      pulls_served hserve n (k + 1) r1 (hrow1 (k + 1)) hidx1 (by rw [hT1, hT]) (by omega)
    refine ⟨(decide (k + 1 ≤ T), ws) :: rows, r2, ?_, ?_⟩
    · unfold HdfReader.pulls
      rw [hone, hT]
      simp only [hrest]
    · simp [List.range', hflags]

theorem prepared_ready {fs : String → Option H5File} {reg : String → DimType → Nat}
    {garbage index0 : Nat} {filename : String} {json : Json} {r0 : HdfReader}
    (hp : HdfReader.prepare fs reg (HdfReader.fresh garbage index0 filename json) = some r0) :
    r0.ready = r0 := by
  obtain ⟨h, _⟩ := prepare_eq hp
  unfold HdfReader.ready
  rw [← h]

/-- C4 (amended): let a freshly set-up reader over `T` rows complete a full
pass (`T + 1` calls of `processOne`).  Then `ready()` sets the row cursor to 0
and changes nothing else, in particular no fetch cursor and no buffer; and
when the library serves every read the calls issue, the next `T` calls of
`processOne` each return `true` and call `T + 1` returns `false`.  (Which
bytes those calls hand over is not stated: the refills start where the first
pass left the fetch cursors.) -/
theorem C4_pass_after_ready (lib : OutOfExtent) (fs : String → Option H5File)
    (reg : String → DimType → Nat) (garbage index0 : Nat) (filename : String) (json : Json)
    (r0 : HdfReader)
    (hp : HdfReader.prepare fs reg (HdfReader.fresh garbage index0 filename json) = some r0)
    (hf : r0.Fits) (rows0 : List (Bool × List FieldWrite)) (r : HdfReader)
    (hfull : HdfReader.pulls lib (r0.m_hdf5Handler.m_numPoints + 1) r0 = .ok (rows0, r))
    (hserve : Tolerant lib) :
    r.ready.m_index = 0 ∧
    r.ready.m_hdf5Handler = r.m_hdf5Handler ∧ r.ready.m_info = r.m_info ∧
    ∃ rows r',
      HdfReader.pulls lib (r0.m_hdf5Handler.m_numPoints + 1) r.ready = .ok (rows, r') ∧
      rows.map (fun x => x.1) = List.replicate r0.m_hdf5Handler.m_numPoints true ++ [false] := by
  have h0 : Reach lib r0 0 r0 := by
    have h1 : Reach lib r0 0 r0.ready := Reach.start
    rw [prepared_ready hp] at h1
    exact h1
  have hreach := reach_pulls _ 0 _ _ rows0 h0 hfull
  have hok := reach_colsOK hp hf hreach
  have hT : r.m_hdf5Handler.m_numPoints = r0.m_hdf5Handler.m_numPoints :=
    (reach_cursor hreach).2
  have hrow : RowOK 0 0 r.ready.m_info r.ready.m_hdf5Handler := by
    intro j b hb
    obtain ⟨c, hc, ok⟩ := hok j b hb
    exact ⟨c, hc, ok, Or.inl (Nat.zero_mod _)⟩
  obtain ⟨rows, r', hrun, hflags⟩ := pulls_served hserve
    (r0.m_hdf5Handler.m_numPoints + 1) 0 r.ready hrow rfl hT (by have := hf.1; omega)
  refine ⟨rfl, rfl, rfl, rows, r', hrun, ?_⟩
  rw [hflags, passFlags]

theorem C4_witness :
    exampleReady.Fits ∧ Tolerant clipOutside ∧
    (HdfReader.afterPulls clipOutside 6 exampleReady).ready.m_index = 0 ∧
    ∃ rows r',
      HdfReader.pulls clipOutside (exampleReady.m_hdf5Handler.m_numPoints + 1)
        (HdfReader.afterPulls clipOutside 6 exampleReady).ready = .ok (rows, r') ∧
      rows.map (fun x => x.1)
        = List.replicate exampleReady.m_hdf5Handler.m_numPoints true ++ [false] := by
  obtain ⟨rows0, hrows0⟩ := afterPulls_eq clipOutside 6 exampleReady (by decide)
  have h := C4_pass_after_ready clipOutside exampleFs exampleReg 0 0 "f.h5" exampleJson
    exampleReady exampleReady_prepared (by decide) rows0
    (HdfReader.afterPulls clipOutside 6 exampleReady) hrows0 tolerant_clipOutside
  exact ⟨by decide, tolerant_clipOutside, h.1, h.2.2.2⟩

/-- C4 fails as stated: over five rows in chunks of two, after a full pass
(six calls, the last returning `false`) and `ready()`, the fetch cursors stand
at 6, so the first refill of the new pass asks for two elements from row 6 of
a five-row dataset.  A library that rejects the request makes the first call
fail; one that delivers what exists leaves the buffers as they were, and the
call hands over the bytes of row 4 (`[14, 0]` and `[24]`) where a fresh pass
hands over those of row 0 (`[10, 0]` and `[20]`). -/
theorem C4_counterexample :
    returned (HdfReader.pulls rejectOutside 6 exampleReady)
      = some [true, true, true, true, true, false] ∧
    offsetsAfter (HdfReader.pulls rejectOutside 6 exampleReady) = some [6, 6] ∧
    cursorAfter (HdfReader.secondPass rejectOutside exampleReady 6 0) = some 0 ∧
    failure (HdfReader.secondPass rejectOutside exampleReady 6 1) = some Err.readFailed ∧
    written (HdfReader.pulls clipOutside 1 exampleReady) = some [[[10, 0], [20]]] ∧
    written (HdfReader.secondPass clipOutside exampleReady 6 1) = some [[[14, 0], [24]]] ∧
    readsAfter (HdfReader.secondPass clipOutside exampleReady 6 1)
      = some [(0, 0, 2), (1, 0, 2), (0, 2, 2), (1, 2, 2), (0, 4, 1), (1, 4, 1),
              (0, 6, 2), (1, 6, 2)] := by
  decide

/-- C5 (amended): in every state reached from `ready()` by calls of
`processOne` alone that complete, the row cursor is the number of calls made,
modulo 2^64, so it stays at or below the row count `T` as long as at most `T`
calls were made; and a `processOne` issued in any state whose cursor is at or
past the row count answers `false`, yet it has run the loop over the columns
(one `setField` call per column) and has moved the cursor on by one. -/
theorem C5_row_cursor (lib : OutOfExtent) (r0 r : HdfReader) (n : Nat)
    (rows : List (Bool × List FieldWrite))
    (hrun : HdfReader.pulls lib n r0.ready = .ok (rows, r)) :
    rows.length = n ∧ r.m_index = n % u64 ∧
    r.m_hdf5Handler.m_numPoints = r0.m_hdf5Handler.m_numPoints ∧
    (n ≤ r0.m_hdf5Handler.m_numPoints → r0.m_hdf5Handler.m_numPoints < u64 →
      r.m_index ≤ r0.m_hdf5Handler.m_numPoints) ∧
    ∀ (s : HdfReader) (b : Bool) (ws : List FieldWrite) (s' : HdfReader),
      s.m_hdf5Handler.m_numPoints ≤ s.m_index → s.m_index + 1 < u64 →
      HdfReader.processOne lib s = .ok (b, ws, s') →
      b = false ∧ s'.m_index = s.m_index + 1 ∧ ws.length = s.m_info.length ∧
      s'.m_hdf5Handler.m_numPoints < s'.m_index := by
  have h0 : Reach lib r0 0 r0.ready := Reach.start
  have hreach := reach_pulls n 0 _ _ rows h0 hrun
  rw [Nat.zero_add] at hreach
  obtain ⟨hc, hT⟩ := reach_cursor hreach
  refine ⟨(pulls_static n _ hrun).1, hc, hT, ?_, ?_⟩
  · intro hn hT64
    rw [hc, Nat.mod_eq_of_lt (by omega)]
    exact hn
  · intro s b ws s' hge hlt hone
    obtain ⟨p1, p2, _, p4, p5, _⟩ := processOne_static hone
    have hmod : (s.m_index + 1) % u64 = s.m_index + 1 := Nat.mod_eq_of_lt hlt
    refine ⟨?_, by rw [p1, hmod], ?_, ?_⟩
    · rw [p2, hmod]
      simp only [decide_eq_false_iff_not]
      omega
    · have := congrArg List.length p4
      simpa using this
    · rw [p1, hmod, p5]
      omega

theorem C5_witness :
    (∃ rows, HdfReader.pulls rejectOutside 5 exampleReady.ready
      = .ok (rows, HdfReader.afterPulls rejectOutside 5 exampleReady.ready)) ∧
    (HdfReader.afterPulls rejectOutside 5 exampleReady.ready).m_index = 5 % u64 ∧
    (HdfReader.afterPulls rejectOutside 5 exampleReady.ready).m_index
      ≤ exampleReady.m_hdf5Handler.m_numPoints ∧
    ∃ ws r',
      HdfReader.processOne rejectOutside
          (HdfReader.afterPulls rejectOutside 5 exampleReady.ready)
        = .ok (false, ws, r') ∧
      r'.m_index = (HdfReader.afterPulls rejectOutside 5 exampleReady.ready).m_index + 1 ∧
      ws.length = (HdfReader.afterPulls rejectOutside 5 exampleReady.ready).m_info.length := by
  obtain ⟨rows, hrows⟩ := afterPulls_eq rejectOutside 5 exampleReady.ready (by decide)
  have h := C5_row_cursor rejectOutside exampleReady
    (HdfReader.afterPulls rejectOutside 5 exampleReady.ready) 5 rows hrows
  refine ⟨⟨rows, hrows⟩, h.2.1, h.2.2.2.1 (by decide) (by decide), ?_⟩
  cases hq : HdfReader.processOne rejectOutside
      (HdfReader.afterPulls rejectOutside 5 exampleReady.ready) with
  | error e =>
    have hno : failure (HdfReader.processOne rejectOutside
        (HdfReader.afterPulls rejectOutside 5 exampleReady.ready)) = none := by decide
    rw [hq] at hno
    cases hno
  | ok x =>
    obtain ⟨b, ws, r'⟩ := x
    obtain ⟨hb, h1, h2, _⟩ := h.2.2.2.2 _ b ws r' (by decide) (by decide) hq
    subst hb
    exact ⟨ws, r', rfl, h1, h2⟩

/-- C5 fails as stated: over four rows in chunks of two, the fifth
`processOne` is issued with the cursor at 4, the row count; it returns
`false`, but it has refilled column 0 (a third read, of zero elements from
row 4), has handed a field to the sink, and has moved the cursor to 5, past
the row count. -/
theorem C5_counterexample :
    evenReady.m_hdf5Handler.m_numPoints = 4 ∧
    cursorAfter (HdfReader.pulls rejectOutside 4 evenReady) = some 4 ∧
    readsAfter (HdfReader.pulls rejectOutside 4 evenReady) = some [(0, 0, 2), (0, 2, 2)] ∧
    returned (HdfReader.pulls rejectOutside 5 evenReady)
      = some [true, true, true, true, false] ∧
    cursorAfter (HdfReader.pulls rejectOutside 5 evenReady) = some 5 ∧
    readsAfter (HdfReader.pulls rejectOutside 5 evenReady)
      = some [(0, 0, 2), (0, 2, 2), (0, 4, 0)] ∧
    written (HdfReader.pulls rejectOutside 5 evenReady)
      = some [[[1]], [[2]], [[3]], [[4]], [[3]]] := by
  decide

theorem readLoop_pass (lib : OutOfExtent) {T : Nat} :
    ∀ (n pi nextId : Nat) (r : HdfReader),
      r.m_hdf5Handler.m_numPoints = T → RowInv T pi 0 r.m_info r.m_hdf5Handler →
      pi + n ≤ T →
      ∃ ws r', HdfReader.readLoop lib n pi nextId r = .ok (ws, r')
  | 0, _, _, r, _, _, _ => ⟨[], r, rfl⟩
  | n + 1, pi, nextId, r, hT, hinv, hle => by
    obtain ⟨infos, ws1, h1, hfr, _, inv1, _, _⟩ :=
      fillRow_pass lib (show pi ≤ T by omega) r.m_info 0 r.m_hdf5Handler hT hinv
    have hT1 : h1.m_numPoints = T := by rw [(fillRow_static _ _ _ hfr).2.2.1, hT]
    obtain ⟨more, r2, hrest⟩ := readLoop_pass lib n (pi + 1) ((nextId + 1) % u64)
      { r with m_info := infos, m_hdf5Handler := h1 } hT1 inv1 (by omega)
    refine ⟨ws1.map (fun w => (nextId, w)) ++ more, r2, ?_⟩
    unfold HdfReader.readLoop
    rw [hfr]
    simp only [hrest]

/-- C6 (amended): for every reader state whose row cursor is at or below the row count
`T` (a 64-bit value) and every requested count, the value `read` returns, when
it returns, is `min (requestedCount, T - cursor)`; and it does return it in
every state reached from a freshly set-up reader by completed calls of
`processOne` and `read`, provided the reads the call issues are served: the
library serves every read, or the state is the freshly set-up one, whose fetch
cursors are 0 so that every read lies inside the extent. -/
theorem C6_bulk_return_value (lib : OutOfExtent) (r : HdfReader) (viewSize count : Nat)
    (hT : r.m_hdf5Handler.m_numPoints < u64)
    (hc : r.m_index ≤ r.m_hdf5Handler.m_numPoints) :
    (∀ (m : Nat) (ws : List (Nat × FieldWrite)) (r' : HdfReader),
      HdfReader.read lib r viewSize count = .ok (m, ws, r') →
      m = min count (r.m_hdf5Handler.m_numPoints - r.m_index)) ∧
    ∀ (fs : String → Option H5File) (reg : String → DimType → Nat) (garbage index0 : Nat)
      (filename : String) (json : Json) (r0 : HdfReader) (n : Nat),
      HdfReader.prepare fs reg (HdfReader.fresh garbage index0 filename json) = some r0 →
      r0.Fits → Reach lib r0 n r → (Tolerant lib ∨ r = r0) →
      ∃ ws r',
        HdfReader.read lib r viewSize count
          = .ok (min count (r.m_hdf5Handler.m_numPoints - r.m_index), ws, r') := by
  have hrem : (r.m_hdf5Handler.m_numPoints + u64 - r.m_index) % u64
      = r.m_hdf5Handler.m_numPoints - r.m_index := by
    have e : r.m_hdf5Handler.m_numPoints + u64 - r.m_index
        = (r.m_hdf5Handler.m_numPoints - r.m_index) + u64 := by omega
    rw [e, Nat.add_mod_right, Nat.mod_eq_of_lt (by omega)]
  constructor
  · intro m ws r' hread
    rw [(read_static hread).1, hrem]
  · intro fs reg garbage index0 filename json r0 n hp hf hreach hserve
    have hloop : ∃ ws r', HdfReader.readLoop lib r.m_hdf5Handler.m_numPoints 0 viewSize r
        = .ok (ws, r') := by
      rcases hserve with hs | hfresh
      · apply readLoop_served hs
        intro j b hb
        obtain ⟨c, hcol, ok⟩ := reach_colsOK hp hf hreach j b hb
        exact ⟨c, hcol, ok, Or.inl (Nat.zero_mod _)⟩
      · subst hfresh
        obtain ⟨⟨_, _, hinv⟩, _⟩ := prepare_pass hp hf
        exact readLoop_pass lib _ 0 viewSize r rfl hinv (by omega)
    obtain ⟨ws, r', hl⟩ := hloop
    refine ⟨ws, r', ?_⟩
    unfold HdfReader.read
    simp only [Hdf5Handler.getNumPoints, hl, hrem]

theorem C6_witness :
    (∃ ws r',
      HdfReader.read clipOutside (HdfReader.afterPulls clipOutside 3 exampleReady) 0 10
        = .ok (min 10 ((HdfReader.afterPulls clipOutside 3 exampleReady).m_hdf5Handler.m_numPoints
            - (HdfReader.afterPulls clipOutside 3 exampleReady).m_index), ws, r')) ∧
    (∃ ws r',
      HdfReader.read rejectOutside exampleReady 0 2
        = .ok (min 2 (exampleReady.m_hdf5Handler.m_numPoints - exampleReady.m_index), ws, r')) ∧
    bulkReturned (HdfReader.read clipOutside
      (HdfReader.afterPulls clipOutside 3 exampleReady) 0 10) = some 2 ∧
    bulkReturned (HdfReader.read rejectOutside exampleReady 0 2) = some 2 :=
  ⟨(C6_bulk_return_value clipOutside (HdfReader.afterPulls clipOutside 3 exampleReady) 0 10
      (by decide) (by decide)).2 exampleFs exampleReg 0 0 "f.h5" exampleJson exampleReady 3
      exampleReady_prepared (by decide)
      (reach_afterPulls clipOutside 3 exampleReady exampleReady_ready (by decide))
      (Or.inl tolerant_clipOutside),
   (C6_bulk_return_value rejectOutside exampleReady 0 2 (by decide) (by decide)).2
      exampleFs exampleReg 0 0 "f.h5" exampleJson exampleReady 0
      exampleReady_prepared (by decide)
      (reach_afterPulls rejectOutside 0 exampleReady exampleReady_ready (by decide))
      (Or.inr rfl),
   by decide, by decide⟩

/-- C6 fails as stated: a state with the cursor at or below the row count in
which `read` returns nothing.  Over five rows in chunks of two, with a library
that rejects reads outside the extent: after three `processOne` calls the
cursor is 3 and the fetch cursors stand at 4, and `read`, whose loop starts
again at row 0, asks for elements from row 4 on and then from row 6, and
raises; likewise a second `read` on the freshly set-up reader, whose first
`read` has returned 2 and left the cursor at 0 and the fetch cursors at 6. -/
theorem C6_counterexample :
    exampleReady.m_hdf5Handler.m_numPoints = 5 ∧
    cursorAfter (HdfReader.pulls rejectOutside 3 exampleReady) = some 3 ∧
    offsetsAfter (HdfReader.pulls rejectOutside 3 exampleReady) = some [4, 4] ∧
    bulkReturned (HdfReader.read rejectOutside
      (HdfReader.afterPulls rejectOutside 3 exampleReady) 0 10) = none ∧
    failure (HdfReader.read rejectOutside
      (HdfReader.afterPulls rejectOutside 3 exampleReady) 0 10) = some Err.readFailed ∧
    bulkReturned (HdfReader.read rejectOutside exampleReady 0 2) = some 2 ∧
    (HdfReader.afterRead rejectOutside exampleReady 0 2).m_index = 0 ∧
    (HdfReader.afterRead rejectOutside exampleReady 0 2).m_hdf5Handler.m_chunkOffsets
      = [6, 6] ∧
    bulkReturned (HdfReader.read rejectOutside
      (HdfReader.afterRead rejectOutside exampleReady 0 2) 5 2) = none ∧
    failure (HdfReader.read rejectOutside
      (HdfReader.afterRead rejectOutside exampleReady 0 2) 5 2) = some Err.readFailed := by
  decide

/-- C7 fails on the code: on the freshly set-up reader over five rows, `read`
asked for two points returns 2, yet its loop runs over all five rows: it makes
ten `setField` calls addressing the five point ids 3..7 of a view that held
three points, and it leaves the row cursor at 0 instead of 2. -/
theorem C7_bulk_ignores_count :
    exampleReady.m_hdf5Handler.m_numPoints = 5 ∧ exampleReady.m_index = 0 ∧
    bulkReturned (HdfReader.read rejectOutside exampleReady 3 2) = some 2 ∧
    bulkWritten (HdfReader.read rejectOutside exampleReady 3 2)
      = some [(3, [10, 0]), (3, [20]), (4, [11, 0]), (4, [21]), (5, [12, 0]), (5, [22]),
              (6, [13, 0]), (6, [23]), (7, [14, 0]), (7, [24])] ∧
    bulkCursor (HdfReader.read rejectOutside exampleReady 3 2) = some 0 := by
  decide

theorem initError_eq {res : Except (Err × Hdf5Handler) Hdf5Handler} {e : Err}
    (h : initError res = some e) : res = .error (e, initState res) := by
  cases res with
  | ok x => cases h
  | error x =>
    obtain ⟨e', h'⟩ := x
    simp only [initError, Option.some.injEq] at h
    subst h
    rfl

theorem initInv_opening (garbage : Nat) (file : H5File) :
    InitInv (Hdf5Handler.opening garbage file) 0 := by
  refine ⟨rfl, rfl, rfl, rfl, rfl, ?_⟩
  intro i c hc
  simp [Hdf5Handler.column?, Hdf5Handler.fresh, Hdf5Handler.opening] at hc

theorem initialize_eq {fs : String → Option H5File} {garbage : Nat} {filename : String}
    {file : H5File} (hfile : fs filename = some file) (map : List (String × String)) :
    Hdf5Handler.initialize fs (Hdf5Handler.fresh garbage) filename map
      = Hdf5Handler.initLoop file map 0 (Hdf5Handler.opening garbage file) := by
  unfold Hdf5Handler.initialize
  rw [hfile]
  rfl

/-- When `initialize` does not complete it has read nothing. -/
theorem initialize_fails_unread {fs : String → Option H5File} {garbage : Nat}
    {filename : String} {file : H5File} (hfile : fs filename = some file)
    (map : List (String × String))
    (hno : ∀ h', Hdf5Handler.initialize fs (Hdf5Handler.fresh garbage) filename map ≠ .ok h') :
    ∃ err h', Hdf5Handler.initialize fs (Hdf5Handler.fresh garbage) filename map
        = .error (err, h') ∧ h'.reads = [] := by
  have hr := initLoop_reads file map 0 (Hdf5Handler.opening garbage file)
  rw [← initialize_eq hfile] at hr
  cases hres : Hdf5Handler.initialize fs (Hdf5Handler.fresh garbage) filename map with
  | ok h' => exact absurd hres (hno h')
  | error x =>
    obtain ⟨err, h'⟩ := x
    rw [hres] at hr
    exact ⟨err, h', rfl, hr⟩

/-- C8 (amended): when two mapped columns that exist in the store report
different row counts, `initialize` does not complete, and it has read nothing
when it fails.  It fails with the error "All given datasets must have the same
length" at the first column whose length differs from the first column's, and
no later column of the map has been opened, provided every column before that
one passes its own checks (it exists, is unchunked or chunked in one
dimension, and is of integer or float class). -/
theorem C8_row_count_mismatch (fs : String → Option H5File) (garbage : Nat)
    (filename : String) (file : H5File) (hfile : fs filename = some file)
    (map : List (String × String)) (e1 e2 : String × String) (ds1 ds2 : DataSet)
    (hm1 : e1 ∈ map) (hm2 : e2 ∈ map)
    (ho1 : file.openDataSet e1.2 = some ds1) (ho2 : file.openDataSet e2.2 = some ds2)
    (hne : ds1.npoints ≠ ds2.npoints) :
    (∃ err h', Hdf5Handler.initialize fs (Hdf5Handler.fresh garbage) filename map
        = .error (err, h') ∧ h'.reads = []) ∧
    ∀ (first : String × String) (pre : List (String × String)) (entry : String × String)
      (post : List (String × String)) (ds0 ds : DataSet),
      map = first :: (pre ++ entry :: post) →
      file.openDataSet first.2 = some ds0 →
      (∀ e ∈ first :: pre, entryPasses file ds0.npoints e = true) →
      file.openDataSet entry.2 = some ds → ds.npoints ≠ ds0.npoints →
      ∃ h', Hdf5Handler.initialize fs (Hdf5Handler.fresh garbage) filename map
          = .error (Err.lengthMismatch, h') ∧
        h'.opened = (first :: pre ++ [entry]).map Prod.snd ∧ h'.reads = [] := by
  constructor
  · apply initialize_fails_unread hfile
    intro h' hok
    have inv := initialize_inv hok
    rw [initialize_eq hfile] at hok
    obtain ⟨_, hent⟩ := initLoop_ok_entries map 0 _ h' hok
    obtain ⟨d1, hd1, hmem1, _⟩ := hent e1 hm1
    obtain ⟨d2, hd2, hmem2, _⟩ := hent e2 hm2
    rw [ho1] at hd1
    rw [ho2] at hd2
    obtain rfl : ds1 = d1 := Option.some.inj hd1
    obtain rfl : ds2 = d2 := Option.some.inj hd2
    have n1 := dsets_npoints inv ds1 hmem1
    have n2 := dsets_npoints inv ds2 hmem2
    exact hne (by rw [n1, n2])
  · intro first pre entry post ds0 ds hmap _ hpass hopen hlen
    obtain ⟨h1, hrun, _, hT1, hop1⟩ := initLoop_prefix (first :: pre) 0
      (Hdf5Handler.opening garbage file) hpass
      (initInv_opening garbage file) (fun h0 => absurd rfl h0)
    have hidx : 0 + (first :: pre).length ≠ 0 := by simp
    have hnum : h1.m_numPoints ≠ ds.npoints := by
      rw [hT1 hidx]; exact fun h => hlen h.symm
    have herr := initEntry_mismatch hopen hidx hnum
    have hfr := initEntry_frame file h1 (0 + (first :: pre).length) entry
    refine ⟨initState (Hdf5Handler.initEntry file h1 (0 + (first :: pre).length) entry),
      ?_, ?_, ?_⟩
    · rw [initialize_eq hfile, hmap]
      have e : first :: (pre ++ entry :: post) = (first :: pre) ++ (entry :: post) := rfl
      rw [e, hrun (entry :: post)]
      conv_lhs => rw [Hdf5Handler.initLoop]
      generalize Hdf5Handler.initEntry file h1 (0 + (first :: pre).length) entry = res at herr
      cases res with
      | ok x => cases herr
      | error x =>
        obtain ⟨e', h'⟩ := x
        simp only [initError, Option.some.injEq] at herr
        subst herr
        rfl
    · rw [hfr.2, hop1]
      simp [Hdf5Handler.fresh, Hdf5Handler.opening]
    · rw [hfr.1]
      have := initLoop_reads file ((first :: pre) ++ []) 0 (Hdf5Handler.opening garbage file)
      rw [hrun [], Hdf5Handler.initLoop] at this
      exact this

theorem C8_witness :
    (∃ err h', Hdf5Handler.initialize mixedFs (Hdf5Handler.fresh 0) "mixed.h5"
        [("a", "/i5"), ("b", "/i6"), ("c", "/c5")] = .error (err, h') ∧ h'.reads = []) ∧
    ∃ h', Hdf5Handler.initialize mixedFs (Hdf5Handler.fresh 0) "mixed.h5"
        [("a", "/i5"), ("b", "/i6"), ("c", "/c5")] = .error (Err.lengthMismatch, h') ∧
      h'.opened = ["/i5", "/i6"] ∧ h'.reads = [] :=
  have h := C8_row_count_mismatch mixedFs 0 "mixed.h5" mixedFile (by decide)
    [("a", "/i5"), ("b", "/i6"), ("c", "/c5")] ("a", "/i5") ("b", "/i6") intFive intSix
    (by decide) (by decide) (by decide) (by decide) (by decide)
  ⟨h.1, h.2 ("a", "/i5") [] ("b", "/i6") [("c", "/c5")] intFive intSix rfl (by decide)
    (by decide) (by decide) (by decide)⟩

/-- C8 fails as stated: with the map `a ↦ /c5`, `b ↦ /i6` two mapped columns
report different row counts (5 and 6), but the first is of compound class, so
`initialize` fails on it with "Compound types not supported", before the
second column is opened and its length compared. -/
theorem C8_counterexample :
    mixedFile.openDataSet "/c5" = some compoundFive ∧
    mixedFile.openDataSet "/i6" = some intSix ∧
    compoundFive.npoints ≠ intSix.npoints ∧
    initError ( Hdf5Handler.initialize mixedFs (Hdf5Handler.fresh 0) "mixed.h5"
      [("a", "/c5"), ("b", "/i6")]) = some Err.compoundType ∧
    (initState ( Hdf5Handler.initialize mixedFs (Hdf5Handler.fresh 0) "mixed.h5"
      [("a", "/c5"), ("b", "/i6")])).opened = ["/c5"] := by
  decide

/-- C9 (amended): when some mapped column that exists in the store has an
element class that is neither integer nor float, `initialize` does not
complete, and it has read nothing when it fails.  It fails with the
unsupported-type error ("Compound types not supported" for a compound class,
"Unkown type" otherwise) on that column when the column is the first to fail a
check: every column before it passes its own checks, and the column itself
has the common row count and is unchunked or chunked in one dimension. -/
theorem C9_unsupported_type (fs : String → Option H5File) (garbage : Nat)
    (filename : String) (file : H5File) (hfile : fs filename = some file)
    (map : List (String × String)) (entry : String × String) (ds : DataSet)
    (hmem : entry ∈ map) (hopen : file.openDataSet entry.2 = some ds)
    (hint : ds.cls ≠ H5T_class_t.H5T_INTEGER) (hfl : ds.cls ≠ H5T_class_t.H5T_FLOAT) :
    (∃ err h', Hdf5Handler.initialize fs (Hdf5Handler.fresh garbage) filename map
        = .error (err, h') ∧ h'.reads = []) ∧
    ∀ (pre post : List (String × String)) (T : Nat),
      map = pre ++ entry :: post →
      (∀ e ∈ pre, entryPasses file T e = true) →
      (pre ≠ [] → ds.npoints = T) →
      ¬ (ds.layout = H5D_layout_t.H5D_CHUNKED ∧ ds.chunkRank ≠ 1) →
      ∃ h', Hdf5Handler.initialize fs (Hdf5Handler.fresh garbage) filename map
          = .error (unsupportedTypeError ds.cls, h') ∧
        h'.opened = (pre ++ [entry]).map Prod.snd ∧ h'.reads = [] := by
  constructor
  · apply initialize_fails_unread hfile
    intro h' hok
    rw [initialize_eq hfile] at hok
    obtain ⟨_, hent⟩ := initLoop_ok_entries map 0 _ h' hok
    obtain ⟨d, hd, _, hcls⟩ := hent entry hmem
    rw [hopen] at hd
    obtain rfl : ds = d := Option.some.inj hd
    rcases hcls with h | h
    · exact hint h
    · exact hfl h
  · intro pre post T hmap hpass hlen hchunk
    obtain ⟨h1, hrun, _, hT1, hop1⟩ := initLoop_prefix pre 0
      (Hdf5Handler.opening garbage file) hpass
      (initInv_opening garbage file) (fun h0 => absurd rfl h0)
    have hnum : 0 + pre.length ≠ 0 → h1.m_numPoints = ds.npoints := by
      intro h0
      rw [hT1 h0]
      have : pre ≠ [] := by
        rintro rfl
        simp at h0
      exact (hlen this).symm
    have herr := initEntry_badclass hopen hnum hchunk hint hfl
    have hfr := initEntry_frame file h1 (0 + pre.length) entry
    refine ⟨initState (Hdf5Handler.initEntry file h1 (0 + pre.length) entry), ?_, ?_, ?_⟩
    · rw [initialize_eq hfile, hmap, hrun (entry :: post)]
      conv_lhs => rw [Hdf5Handler.initLoop]
      generalize Hdf5Handler.initEntry file h1 (0 + pre.length) entry = res at herr
      cases res with
      | ok x => cases herr
      | error x =>
        obtain ⟨e', h'⟩ := x
        simp only [initError, Option.some.injEq] at herr
        subst herr
        rfl
    · rw [hfr.2, hop1]
      simp [Hdf5Handler.fresh, Hdf5Handler.opening]
    · rw [hfr.1]
      have := initLoop_reads file (pre ++ []) 0 (Hdf5Handler.opening garbage file)
      rw [hrun [], Hdf5Handler.initLoop] at this
      exact this

theorem C9_witness :
    (∃ err h', Hdf5Handler.initialize mixedFs (Hdf5Handler.fresh 0) "mixed.h5"
        [("a", "/i5"), ("b", "/c5"), ("c", "/i6")] = .error (err, h') ∧ h'.reads = []) ∧
    ∃ h', Hdf5Handler.initialize mixedFs (Hdf5Handler.fresh 0) "mixed.h5"
        [("a", "/i5"), ("b", "/c5"), ("c", "/i6")]
          = .error (unsupportedTypeError compoundFive.cls, h') ∧
      h'.opened = ["/i5", "/c5"] ∧ h'.reads = [] :=
  have h := C9_unsupported_type mixedFs 0 "mixed.h5" mixedFile (by decide)
    [("a", "/i5"), ("b", "/c5"), ("c", "/i6")] ("b", "/c5") compoundFive
    (by decide) (by decide) (by decide) (by decide)
  ⟨h.1, h.2 [("a", "/i5")] [("c", "/i6")] 5 rfl (by decide) (by decide) (by decide)⟩

/-- C9 fails as stated: with the map `a ↦ /i5`, `b ↦ /c6` the second column
is of compound class, but its row count (6) differs from the first column's
(5), and that check comes first: `initialize` fails with "All given datasets
must have the same length", not with the unsupported-type error. -/
theorem C9_counterexample :
    mixedFile.openDataSet "/c6" = some compoundSix ∧
    compoundSix.cls = H5T_class_t.H5T_COMPOUND ∧
    initError ( Hdf5Handler.initialize mixedFs (Hdf5Handler.fresh 0) "mixed.h5"
      [("a", "/i5"), ("b", "/c6")]) = some Err.lengthMismatch ∧
    (initState ( Hdf5Handler.initialize mixedFs (Hdf5Handler.fresh 0) "mixed.h5"
      [("a", "/i5"), ("b", "/c6")])).reads = [] := by
  decide

theorem is_string_iff {j : Json} : j.is_string = true ↔ ∃ s, j = Json.string s := by
  cases j <;> simp [Json.is_string]

theorem parseLoop_ok_iff :
    ∀ (members : List (String × Json)) (m : List (String × String)),
      (∃ m', HdfReader.parseLoop members m = .ok m') ↔ ∀ e ∈ members, e.2.is_string = true
  | [], m => by simp [HdfReader.parseLoop]
  | (k, j) :: rest, m => by
    unfold HdfReader.parseLoop
    by_cases hj : j.is_string = true
    · simp only [hj, Bool.not_true, Bool.false_eq_true, if_false, List.mem_cons, forall_eq_or_imp,
        true_and]
      exact parseLoop_ok_iff rest _
    · simp only [hj, Bool.not_false, if_true, List.mem_cons, forall_eq_or_imp]
      simp

theorem parseLoop_error :
    ∀ (members : List (String × Json)) (m : List (String × String)),
      (∃ e ∈ members, e.2.is_string = false) →
      ∃ e ∈ members, e.2.is_string = false ∧
        HdfReader.parseLoop members m = .error (Err.valueNotString e.1)
  | [], _, h => by simp at h
  | (k, j) :: rest, m, h => by
    unfold HdfReader.parseLoop
    by_cases hj : j.is_string = true
    · simp only [hj, Bool.not_true, Bool.false_eq_true, if_false]
      have h' : ∃ e ∈ rest, e.2.is_string = false := by
        obtain ⟨e, he, hs⟩ := h
        rcases List.mem_cons.mp he with rfl | he
        · rw [hj] at hs; cases hs
        · exact ⟨e, he, hs⟩
      obtain ⟨e, he, hs, hres⟩ := parseLoop_error rest (mapAssign m k j.get_string) h'
      exact ⟨e, List.mem_cons_of_mem _ he, hs, hres⟩
    · have hj' : j.is_string = false := by simpa using hj
      exact ⟨(k, j), List.mem_cons_self _ _, hj', by simp [hj']⟩

theorem parseLoop_entries :
    ∀ (members : List (String × Json)) (m m' : List (String × String)),
      HdfReader.parseLoop members m = .ok m' → KeySorted m →
      (members.map Prod.fst).Nodup →
      KeySorted m' ∧
      ∀ k v, (k, v) ∈ m' ↔
        (k, Json.string v) ∈ members ∨ ((k, v) ∈ m ∧ ∀ e ∈ members, e.1 ≠ k)
  | [], m, m', hh, hs, _ => by
    simp only [HdfReader.parseLoop, Except.ok.injEq] at hh
    subst hh
    exact ⟨hs, fun k v => by simp⟩
  | (k0, j0) :: rest, m, m', hh, hs, hnd => by
    unfold HdfReader.parseLoop at hh
    by_cases hj : j0.is_string = true
    · simp only [hj, Bool.not_true, Bool.false_eq_true, if_false] at hh
      obtain ⟨s, rfl⟩ := is_string_iff.mp hj
      simp only [Json.get_string] at hh
      simp only [List.map_cons, List.nodup_cons] at hnd
      obtain ⟨ih1, ih2⟩ := parseLoop_entries rest (mapAssign m k0 s) m' hh
        (keySorted_mapAssign m k0 s hs) hnd.2
      refine ⟨ih1, fun k v => ?_⟩
      rw [ih2 k v, mem_mapAssign m k0 s hs k v]
      constructor
      · rintro (h | ⟨⟨rfl, rfl⟩ | ⟨h, hne⟩, hno⟩)
        · exact Or.inl (List.mem_cons_of_mem _ h)
        · exact Or.inl (List.mem_cons_self _ _)
        · right
          refine ⟨h, fun e he => ?_⟩
          rcases List.mem_cons.mp he with rfl | he
          · exact fun h' => hne h'.symm
          · exact hno e he
      · rintro (h | ⟨h, hno⟩)
        · rcases List.mem_cons.mp h with h | h
          · simp only [Prod.mk.injEq, Json.string.injEq] at h
            right
            refine ⟨Or.inl h, fun e he hek => ?_⟩
            apply hnd.1
            rw [← h.1, ← hek]
            exact List.mem_map_of_mem _ he
          · exact Or.inl h
        · right
          refine ⟨Or.inr ⟨h, fun h' => hno (k0, Json.string s) (List.mem_cons_self _ _) h'.symm⟩,
            fun e he => hno e (List.mem_cons_of_mem _ he)⟩
    · simp [hj] at hh

/-- C10 (amended): `parseDimensions` accepts the option if and only if it is
a JSON object all of whose values are strings; an empty object is accepted.
A null value is rejected with "Required option 'map' was not set", any other
non-object with "Option 'dimensions' must be a JSON object", an object with a
non-string value with "Every value in 'dimensions' must be a string" naming
such a key.  On acceptance, starting from an empty map and with the keys of
the object distinct, the resulting map is in key order and holds exactly the
entries of the option. -/
theorem C10_parse_dimensions (r : HdfReader) :
    ((∃ r', r.parseDimensions = .ok r') ↔
      ∃ members, r.m_pathDimJson = Json.object members ∧
        ∀ e ∈ members, e.2.is_string = true) ∧
    (r.m_pathDimJson = Json.null → r.parseDimensions = .error Err.mapNotSet) ∧
    (r.m_pathDimJson.is_null = false → r.m_pathDimJson.is_object = false →
      r.parseDimensions = .error Err.notAnObject) ∧
    (∀ members, r.m_pathDimJson = Json.object members →
      (∃ e ∈ members, e.2.is_string = false) →
      ∃ e ∈ members, e.2.is_string = false ∧
        r.parseDimensions = .error (Err.valueNotString e.1)) ∧
    (r.m_pathDimJson = Json.object [] → r.parseDimensions = .ok r) ∧
    (∀ members r', r.m_pathDimJson = Json.object members →
      (members.map Prod.fst).Nodup → r.m_pathDimMap = [] →
      r.parseDimensions = .ok r' →
      KeySorted r'.m_pathDimMap ∧
      ∀ k v, (k, v) ∈ r'.m_pathDimMap ↔ (k, Json.string v) ∈ members) := by
  refine ⟨?_, ?_, ?_, ?_, ?_, ?_⟩
  · unfold HdfReader.parseDimensions
    cases hj : r.m_pathDimJson with
    | object members =>
      simp only [Json.is_null, Json.is_object, Bool.false_eq_true, if_false, Bool.not_true,
        Json.items, Json.object.injEq, exists_eq_left']
      rw [← parseLoop_ok_iff members r.m_pathDimMap]
      cases HdfReader.parseLoop members r.m_pathDimMap with
      | error e => simp
      | ok m => simp
    | null => simp [Json.is_null]
    | boolean b => simp [Json.is_null, Json.is_object]
    | number n => simp [Json.is_null, Json.is_object]
    | string s => simp [Json.is_null, Json.is_object]
    | array xs => simp [Json.is_null, Json.is_object]
  · intro hj
    simp [HdfReader.parseDimensions, hj, Json.is_null]
  · intro h1 h2
    simp [HdfReader.parseDimensions, h1, h2]
  · intro members hj hbad
    obtain ⟨e, he, hs, hres⟩ := parseLoop_error members r.m_pathDimMap hbad
    refine ⟨e, he, hs, ?_⟩
    simp [HdfReader.parseDimensions, hj, Json.is_null, Json.is_object, Json.items, hres]
  · intro hj
    obtain ⟨h, infos, idx, fname, js, mp⟩ := r
    dsimp only at hj
    subst hj
    rfl
  · intro members r' hj hnd hempty hres
    unfold HdfReader.parseDimensions at hres
    simp only [hj, Json.is_null, Json.is_object, Bool.false_eq_true, if_false, Bool.not_true,
      Json.items, hempty] at hres
    cases hl : HdfReader.parseLoop members [] with
    | error e => simp [hl] at hres
    | ok m =>
      simp only [hl, Except.ok.injEq] at hres
      subst hres
      obtain ⟨h1, h2⟩ := parseLoop_entries members [] m hl List.Pairwise.nil hnd
      refine ⟨h1, fun k v => ?_⟩
      rw [h2 k v]
      simp

theorem C10_witness :
    parsedMap (HdfReader.fresh 0 0 "f.h5" exampleJson).parseDimensions
      = some [("x", "/data/x"), ("y", "/data/y")] ∧
    ∀ r', (HdfReader.fresh 0 0 "f.h5" exampleJson).parseDimensions = .ok r' →
      KeySorted r'.m_pathDimMap ∧
      ∀ k v, (k, v) ∈ r'.m_pathDimMap
        ↔ (k, Json.string v) ∈ [("x", Json.string "/data/x"), ("y", Json.string "/data/y")] :=
  ⟨by decide, fun r' h =>
    (C10_parse_dimensions (HdfReader.fresh 0 0 "f.h5" exampleJson)).2.2.2.2.2
      [("x", Json.string "/data/x"), ("y", Json.string "/data/y")] r' rfl (by decide) rfl h⟩

/-- C10 fails as stated: the empty object `{}` is accepted, not rejected, and
yields the empty map. -/
theorem C10_counterexample :
    failure (HdfReader.fresh 0 0 "f.h5" (Json.object [])).parseDimensions = none ∧
    parsedMap (HdfReader.fresh 0 0 "f.h5" (Json.object [])).parseDimensions = some [] := by
  decide

theorem exampleHandler_initialized :
    Hdf5Handler.initialize exampleFs (Hdf5Handler.fresh 0) "f.h5" exampleMap
      = .ok exampleHandler :=
  initState_of_no_error (by decide)

/-- C11: when `initialize`, called on a handler as constructed, completes on
a map, the handler holds as many column descriptors, decode buffers, fetch
cursors and datasets as the map has entries, and it has opened exactly the
paths of the map, in order.  Column `i` is the one of entry `i`: its dataset
is the one the entry's path names in the opened file and its descriptor
carries the entry's key.  Its fetch cursor is 0, its chunk size is the native
chunk size of the dataset when the dataset is chunked and 1024 otherwise, its
element size is the dataset's, and its buffer has `chunkSize * size` bytes:
the product as `resize` receives it, a 64-bit value, which is the exact
product whenever that fits 64 bits. -/
theorem C11_state_after_setup (fs : String → Option H5File) (garbage : Nat)
    (filename : String) (map : List (String × String)) (h' : Hdf5Handler)
    (hh : Hdf5Handler.initialize fs (Hdf5Handler.fresh garbage) filename map = .ok h') :
    h'.m_dimInfos.length = map.length ∧ h'.m_buffers.length = map.length ∧
    h'.m_chunkOffsets.length = map.length ∧ h'.m_dsets.length = map.length ∧
    h'.opened = map.map Prod.snd ∧ h'.reads = [] ∧
    h'.m_chunkOffsets = List.replicate map.length 0 ∧
    ∃ file, fs filename = some file ∧ h'.m_h5File = some file ∧
      ∀ i e, map[i]? = some e →
        ∃ c, h'.column? i = some c ∧ file.openDataSet e.2 = some c.dset ∧
          c.info.name = e.1 ∧ c.offset = 0 ∧
          c.info.chunkSize =
            (if c.dset.layout = H5D_layout_t.H5D_CHUNKED then c.dset.chunkDim0 else 1024) ∧
          c.info.size = c.dset.size ∧
          c.buffer.length = (c.info.chunkSize * c.info.size) % u64 ∧
          (c.info.chunkSize * c.info.size < u64 →
            c.buffer.length = c.info.chunkSize * c.info.size) := by
  have inv := initialize_inv hh
  cases hfile : fs filename with
  | none =>
    unfold Hdf5Handler.initialize at hh
    rw [hfile] at hh
    cases hh
  | some file =>
    rw [initialize_eq hfile] at hh
    obtain ⟨hopened, hf, _, hcols⟩ :=
      initLoop_columns map 0 _ h' hh (initInv_opening garbage file)
    refine ⟨inv.dimInfos, inv.buffers, inv.offsets, inv.dsets, ?_, inv.reads, ?_,
      file, rfl, ?_, ?_⟩
    · rw [hopened]
      rfl
    · rw [List.eq_replicate_iff]
      refine ⟨inv.offsets, ?_⟩
      intro o ho
      obtain ⟨i, hi⟩ := List.mem_iff_getElem?.mp ho
      have hlt : i < map.length := by
        rw [← inv.offsets]; exact (List.getElem?_eq_some.mp hi).1
      obtain ⟨c, hc⟩ := column?_of_lt inv hlt
      have h3 := (column?_eq_some.mp hc).2.2.1
      rw [hi] at h3
      rw [Option.some.inj h3]
      exact (inv.col i c hc).2.2.2.1
    · rw [hf]
      rfl
    · intro i e he
      obtain ⟨c, hc, hopen, hname, _⟩ := hcols i e he
      rw [Nat.zero_add] at hc
      obtain ⟨i1, _, _, i4, i5, i6⟩ := inv.col i c hc
      exact ⟨c, hc, hopen, hname, i4, i6, i1, i5, fun hlt => by rw [i5, Nat.mod_eq_of_lt hlt]⟩

theorem C11_witness :
    Hdf5Handler.initialize exampleFs (Hdf5Handler.fresh 0) "f.h5" exampleMap
      = .ok exampleHandler ∧
    exampleHandler.m_dimInfos.length = exampleMap.length ∧
    exampleHandler.m_buffers.length = exampleMap.length ∧
    exampleHandler.m_chunkOffsets.length = exampleMap.length ∧
    exampleHandler.m_chunkOffsets = List.replicate exampleMap.length 0 :=
  have h := C11_state_after_setup exampleFs 0 "f.h5" exampleMap exampleHandler
    exampleHandler_initialized
  ⟨exampleHandler_initialized, h.1, h.2.1, h.2.2.1, h.2.2.2.2.2.2.1⟩

/-- The state `initialize` leaves on the example (two columns in chunks of
two, of element sizes 2 and 1) and on an unchunked column of element size 1,
by evaluation: fetch cursors 0, chunk sizes 2 and 2, respectively the
fallback 1024, and for the example buffers of `chunkSize * size` bytes. -/
theorem setup_by_evaluation :
    fetchCursors exampleHandler = [0, 0] ∧ chunkSizesOf exampleHandler = [2, 2] ∧
    bufferSizes exampleHandler = [4, 2] ∧ exampleHandler.opened = ["/data/x", "/data/y"] ∧
    initError ( Hdf5Handler.initialize plainFs (Hdf5Handler.fresh 0) "plain.h5"
      [("u", "/data/u")]) = none ∧
    fetchCursors plainHandler = [0] ∧ chunkSizesOf plainHandler = [1024] := by
  decide

/-- A call of `getNextChunk` that completes was made on an existing column. -/
theorem getNextChunk_column {lib : OutOfExtent} {h h' : Hdf5Handler} {i : Nat}
    (hh : h.getNextChunk lib i = .ok h') : ∃ c, h.column? i = some c := by
  unfold Hdf5Handler.getNextChunk at hh
  simp only [bind, Except.bind, vecAt] at hh
  cases h3 : h.m_chunkOffsets[i]? with
  | none => simp [h3] at hh
  | some off =>
    cases h1 : h.m_dimInfos[i]? with
    | none => simp [h3, h1] at hh
    | some d =>
      cases h4 : h.m_buffers[i]? with
      | none => simp [h3, h1, h4] at hh
      | some buf =>
        cases h2 : h.m_dsets[i]? with
        | none => simp [h3, h1, h4, h2] at hh
        | some ds => exact ⟨⟨d, ds, off, buf⟩, column?_eq_some.mpr ⟨h1, h2, h3, h4⟩⟩

/-- What a call of `getNextChunk` that completes has done. -/
theorem getNextChunk_done {lib : OutOfExtent} {h h' : Hdf5Handler} {i : Nat}
    (hh : h.getNextChunk lib i = .ok h') :
    ∃ c bs, h.column? i = some c ∧
      c.dset.read lib c.offset
        (min ((h.m_numPoints + u64 - c.offset) % u64) c.info.chunkSize) = some bs ∧
      bs.length ≤ c.buffer.length ∧
      h' = h.refilled i (bs ++ c.buffer.drop bs.length) ((c.offset + c.info.chunkSize) % u64)
        (i, c.offset, min ((h.m_numPoints + u64 - c.offset) % u64) c.info.chunkSize) := by
  obtain ⟨c, hc⟩ := getNextChunk_column hh
  rw [getNextChunk_some lib hc] at hh
  split at hh
  · cases hh
  · rename_i bs hread
    split at hh
    · rename_i hfit
      simp only [Except.ok.injEq] at hh
      exact ⟨c, bs, hc, hread, hfit, hh.symm⟩
    · cases hh

/-- In every handler state reached from the one `initialize` left, the row
count, the descriptors and the datasets are those of set-up, and every column
still has the element size and the row count of its dataset and a buffer of
the size it was given. -/
theorem fetched_inv {lib : OutOfExtent} {fs : String → Option H5File} {garbage : Nat}
    {filename : String} {map : List (String × String)} {h0 h : Hdf5Handler}
    (hinit : Hdf5Handler.initialize fs (Hdf5Handler.fresh garbage) filename map = .ok h0)
    (hreach : Fetched lib h0 h) :
    h.m_numPoints = h0.m_numPoints ∧ h.m_dimInfos = h0.m_dimInfos ∧
    h.m_dsets = h0.m_dsets ∧
    ∀ i c, h.column? i = some c →
      c.info.size = c.dset.size ∧ c.dset.npoints = h.m_numPoints ∧
      c.buffer.length = (c.info.chunkSize * c.info.size) % u64 := by
  induction hreach with
  | start =>
    have inv := initialize_inv hinit
    refine ⟨rfl, rfl, rfl, ?_⟩
    intro i c hc
    obtain ⟨i1, _, i3, _, i5, _⟩ := inv.col i c hc
    exact ⟨i1, i3, i5⟩
  | @next h1 h2 i _ hg ih =>
    obtain ⟨s1, s2, s3, _⟩ := getNextChunk_static hg
    obtain ⟨e1, e2, e3, ecol⟩ := ih
    refine ⟨by rw [s1, e1], by rw [s2, e2], by rw [s3, e3], ?_⟩
    obtain ⟨c, bs, hc, _, hfit, rfl⟩ := getNextChunk_done hg
    intro j cj hcj
    by_cases hij : i = j
    · subst hij
      rw [refilled_column_self _ _ _ hc] at hcj
      simp only [Option.some.injEq] at hcj
      subst hcj
      obtain ⟨c1, c2, c3⟩ := ecol i c hc
      refine ⟨c1, c2, ?_⟩
      show (bs ++ c.buffer.drop bs.length).length = _
      rw [List.length_append, List.length_drop, ← c3]
      omega
    · rw [refilled_column_other _ _ _ hij] at hcj
      exact ecol j cj hcj

theorem fillColumn_fetched {lib : OutOfExtent} {h0 : Hdf5Handler} {k i : Nat}
    {b b' : BufferInfo} {w : FieldWrite} {h h' : Hdf5Handler}
    (hh : HdfReader.fillColumn lib k i b h = .ok (b', w, h')) (hreach : Fetched lib h0 h) :
    Fetched lib h0 h' := by
  unfold HdfReader.fillColumn at hh
  split at hh
  · cases hh
  · dsimp only at hh
    split at hh
    · cases hh
    · rename_i info1 h1 hre
      split at hh
      · cases hh
      · cases hh
        split at hre
        · split at hre
          · cases hre
          · rename_i h2 hg
            cases hre
            exact Fetched.next hreach hg
        · cases hre
          exact hreach

theorem fillRow_fetched {lib : OutOfExtent} {h0 : Hdf5Handler} {k : Nat} :
    ∀ (todo : List BufferInfo) (index : Nat) (h : Hdf5Handler)
      {infos : List BufferInfo} {ws : List FieldWrite} {h' : Hdf5Handler},
      HdfReader.fillRow lib k index todo h = .ok (infos, ws, h') → Fetched lib h0 h →
      Fetched lib h0 h'
  | [], _, h, infos, ws, h', hh, hreach => by
    simp only [HdfReader.fillRow, Except.ok.injEq, Prod.mk.injEq] at hh
    obtain ⟨_, _, rfl⟩ := hh
    exact hreach
  | b :: rest, index, h, infos, ws, h', hh, hreach => by
    unfold HdfReader.fillRow at hh
    split at hh
    · cases hh
    · rename_i b1 w1 h1 hcol
      split at hh
      · cases hh
      · rename_i infos1 ws1 h2 hrest
        cases hh
        exact fillRow_fetched rest (index + 1) h1 hrest (fillColumn_fetched hcol hreach)

theorem readLoop_fetched {lib : OutOfExtent} {h0 : Hdf5Handler} :
    ∀ (n pi nextId : Nat) (r : HdfReader) {ws : List (Nat × FieldWrite)} {r' : HdfReader},
      HdfReader.readLoop lib n pi nextId r = .ok (ws, r') → Fetched lib h0 r.m_hdf5Handler →
      Fetched lib h0 r'.m_hdf5Handler
  | 0, _, _, r, ws, r', hh, hreach => by
    simp only [HdfReader.readLoop, Except.ok.injEq, Prod.mk.injEq] at hh
    rw [← hh.2]
    exact hreach
  | n + 1, pi, nextId, r, ws, r', hh, hreach => by
    unfold HdfReader.readLoop at hh
    split at hh
    · cases hh
    · rename_i infos ws1 h1 hrow
      split at hh
      · cases hh
      · rename_i more r2 hrest
        cases hh
        exact readLoop_fetched n _ _ _ hrest (fillRow_fetched _ _ _ hrow hreach)

/-- Every handler state a reader passes through between completed calls of
`processOne` and `read` is reached from the handler of the set-up reader by
completed calls of `getNextChunk`. -/
theorem reach_fetched {lib : OutOfExtent} {r0 r : HdfReader} {n : Nat}
    (hreach : Reach lib r0 n r) : Fetched lib r0.m_hdf5Handler r.m_hdf5Handler := by
  induction hreach with
  | start => exact Fetched.start
  | pull _ hone ih =>
    unfold HdfReader.processOne at hone
    split at hone
    · cases hone
    · rename_i infos ws1 h1 hrow
      cases hone
      exact fillRow_fetched _ _ _ hrow ih
  | bulk _ hread ih =>
    unfold HdfReader.read at hread
    dsimp only at hread
    split at hread
    · cases hread
    · rename_i ws1 r1 hloop
      cases hread
      exact readLoop_fetched _ _ _ _ hloop ih

theorem elementsRemaining_of_le {T offset : Nat} (hT : T < u64) (h : offset ≤ T) :
    elementsRemaining T offset = T - offset := by
  unfold elementsRemaining
  have e : T + u64 - offset = (T - offset) + u64 := by omega
  rw [e, Nat.add_mod_right, Nat.mod_eq_of_lt (by omega)]

/-- C12: let `h` be a handler state reached from the one `initialize` left by
completed `getNextChunk` calls, and `i` a column of it whose fetch cursor is
at most the row count (its buffer size `chunkSize * size` fitting 64 bits).
Then `getNextChunk(i)` completes, whatever the library does outside the
extent.  The 64-bit difference it computes is `numPoints - cursor`; it issues
one read, of `selection = min (numPoints - cursor) chunkSize` elements
starting at element `cursor` of column `i`; the bytes read, which are the
stored bytes of those elements (`selection * size` of them in a dataset that
holds `npoints * size` bytes), replace the beginning of the column's buffer
and the rest of the buffer is kept; the fetch cursor becomes `cursor +
chunkSize` modulo 2^64, the nominal chunk size and not `selection`.  The
fetch cursor and the buffer of every other column, the row count, the
descriptors and the datasets are unchanged. -/
theorem C12_getNextChunk_postcondition (lib : OutOfExtent) (fs : String → Option H5File)
    (garbage : Nat) (filename : String) (map : List (String × String))
    (h0 h : Hdf5Handler) (i : Nat) (c : Column)
    (hinit : Hdf5Handler.initialize fs (Hdf5Handler.fresh garbage) filename map = .ok h0)
    (hreach : Fetched lib h0 h) (hc : h.column? i = some c)
    (hcur : c.offset ≤ h.m_numPoints) (hT : h.m_numPoints < u64)
    (hfit : c.info.chunkSize * c.info.size < u64) :
    ∃ h' c',
      h.getNextChunk lib i = .ok h' ∧
      elementsRemaining h.m_numPoints c.offset = h.m_numPoints - c.offset ∧
      h'.reads = h.reads ++
        [(i, c.offset, min (h.m_numPoints - c.offset) c.info.chunkSize)] ∧
      h'.column? i = some c' ∧ c'.info = c.info ∧ c'.dset = c.dset ∧
      c'.offset = (c.offset + c.info.chunkSize) % u64 ∧
      (c.offset + c.info.chunkSize < u64 → c'.offset = c.offset + c.info.chunkSize) ∧
      c'.buffer.length = c.buffer.length ∧
      c'.buffer =
        (c.dset.bytes.drop (c.offset * c.info.size)).take
            (min (h.m_numPoints - c.offset) c.info.chunkSize * c.info.size)
          ++ c.buffer.drop
            ((c.dset.bytes.drop (c.offset * c.info.size)).take
              (min (h.m_numPoints - c.offset) c.info.chunkSize * c.info.size)).length ∧
      (c.dset.bytes.length = c.dset.npoints * c.dset.size →
        ((c.dset.bytes.drop (c.offset * c.info.size)).take
            (min (h.m_numPoints - c.offset) c.info.chunkSize * c.info.size)).length
          = min (h.m_numPoints - c.offset) c.info.chunkSize * c.info.size) ∧
      (∀ j, j ≠ i → h'.m_chunkOffsets[j]? = h.m_chunkOffsets[j]? ∧
        h'.m_buffers[j]? = h.m_buffers[j]?) ∧
      h'.m_chunkOffsets.length = h.m_chunkOffsets.length ∧
      h'.m_buffers.length = h.m_buffers.length ∧
      h'.m_numPoints = h.m_numPoints ∧ h'.m_dimInfos = h.m_dimInfos ∧
      h'.m_dsets = h.m_dsets := by
  obtain ⟨_, _, _, hcol⟩ := fetched_inv hinit hreach
  obtain ⟨i1, i2, i3⟩ := hcol i c hc
  rw [Nat.mod_eq_of_lt hfit] at i3
  have hrem : (h.m_numPoints + u64 - c.offset) % u64 = h.m_numPoints - c.offset :=
    elementsRemaining_of_le hT hcur
  have hsel : min (h.m_numPoints - c.offset) c.info.chunkSize ≤ h.m_numPoints - c.offset :=
    Nat.min_le_left _ _
  have hselC : min (h.m_numPoints - c.offset) c.info.chunkSize ≤ c.info.chunkSize :=
    Nat.min_le_right _ _
  have hselW : min (h.m_numPoints - c.offset) c.info.chunkSize * c.info.size
      ≤ c.info.chunkSize * c.info.size := Nat.mul_le_mul_right _ hselC
  have hread : c.dset.read lib c.offset
      (min ((h.m_numPoints + u64 - c.offset) % u64) c.info.chunkSize)
      = some ((c.dset.bytes.drop (c.offset * c.info.size)).take
          (min (h.m_numPoints - c.offset) c.info.chunkSize * c.info.size)) := by
    rw [hrem]
    unfold DataSet.read
    rw [if_pos (by rw [i2]; omega), i1]
  have hlen : ((c.dset.bytes.drop (c.offset * c.info.size)).take
      (min (h.m_numPoints - c.offset) c.info.chunkSize * c.info.size)).length
      ≤ c.buffer.length := by
    rw [List.length_take, i3]
    exact Nat.le_trans (Nat.min_le_left _ _) hselW
  have hgn := getNextChunk_ok hc hread hlen
  rw [hrem] at hgn
  have hcol' := refilled_column_self
    ((c.dset.bytes.drop (c.offset * c.info.size)).take
        (min (h.m_numPoints - c.offset) c.info.chunkSize * c.info.size)
      ++ c.buffer.drop
        ((c.dset.bytes.drop (c.offset * c.info.size)).take
          (min (h.m_numPoints - c.offset) c.info.chunkSize * c.info.size)).length)
    ((c.offset + c.info.chunkSize) % u64)
    (i, c.offset, min (h.m_numPoints - c.offset) c.info.chunkSize) hc
  refine ⟨_, _, hgn, hrem, rfl, hcol', rfl, rfl, rfl, ?_, ?_, rfl, ?_, ?_, ?_, ?_, rfl, rfl, rfl⟩
  · intro hlt
    exact Nat.mod_eq_of_lt hlt
  · show List.length (_ ++ _) = _
    rw [List.length_append, List.length_drop]
    omega
  · intro hwf
    rw [List.length_take, List.length_drop, hwf, i2, ← i1]
    have h1 : min (h.m_numPoints - c.offset) c.info.chunkSize * c.info.size
        ≤ (h.m_numPoints - c.offset) * c.info.size := Nat.mul_le_mul_right _ hsel
    have h2 : (h.m_numPoints - c.offset) * c.info.size
        = h.m_numPoints * c.info.size - c.offset * c.info.size :=
      Nat.sub_mul _ _ _
    omega
  · intro j hj
    exact ⟨List.getElem?_set_ne (Ne.symm hj), List.getElem?_set_ne (Ne.symm hj)⟩
  · exact List.length_set _ _ _
  · exact List.length_set _ _ _

theorem afterFetch_eq (lib : OutOfExtent) (h : Hdf5Handler) (i : Nat)
    (hok : failure (h.getNextChunk lib i) = none) :
    h.getNextChunk lib i = .ok (h.afterFetch lib i) := by
  unfold Hdf5Handler.afterFetch
  cases hg : h.getNextChunk lib i with
  | error e => rw [hg] at hok; cases hok
  | ok x => rfl

theorem exampleTail_fetched : Fetched rejectOutside exampleHandler exampleTail :=
  Fetched.next
    (Fetched.next Fetched.start (afterFetch_eq rejectOutside exampleHandler 0 (by decide)))
    (afterFetch_eq rejectOutside (exampleHandler.afterFetch rejectOutside 0) 0 (by decide))

theorem exampleTail_column : exampleTail.column? 0 = some exampleTailX :=
  column?_eq_some.mpr ⟨by decide, by decide, by decide, by decide⟩

theorem C12_witness :
    ∃ h' c', exampleTail.getNextChunk rejectOutside 0 = .ok h' ∧
      h'.reads = exampleTail.reads ++ [(0, 4, 1)] ∧
      h'.column? 0 = some c' ∧ c'.offset = 6 ∧ c'.buffer = [14, 0, 13, 0] ∧
      h'.m_chunkOffsets[1]? = exampleTail.m_chunkOffsets[1]? ∧
      h'.m_buffers[1]? = exampleTail.m_buffers[1]? := by
  obtain ⟨h', c', hg, _, hr, hc', _, _, hoff, _, _, hbuf, _, hother, _⟩ :=
    C12_getNextChunk_postcondition rejectOutside exampleFs 0 "f.h5" exampleMap
      exampleHandler exampleTail 0 exampleTailX exampleHandler_initialized
      exampleTail_fetched exampleTail_column (by decide) (by decide) (by decide)
  exact ⟨h', c', hg, hr, hc', hoff, hbuf, (hother 1 (by decide)).1, (hother 1 (by decide)).2⟩

/-- The three refills of column `x` of the example (five rows in chunks of
two), by evaluation: they read 2, 2 and 1 elements from rows 0, 2 and 4, the
fetch cursor goes 2, 4, 6, the last read replaces only the first element of
the buffer, and the cursor and buffer of column `y` stay as set up. -/
theorem fetch_by_evaluation :
    fetchReads (exampleHandler.getNextChunk rejectOutside 0) = some [(0, 0, 2)] ∧
    fetchOffsets (exampleHandler.getNextChunk rejectOutside 0) = some [2, 0] ∧
    fetchBuffers (exampleHandler.getNextChunk rejectOutside 0)
      = some [[10, 0, 11, 0], [0, 0]] ∧
    fetchOffsets ((exampleHandler.afterFetch rejectOutside 0).getNextChunk rejectOutside 0)
      = some [4, 0] ∧
    fetchBuffers ((exampleHandler.afterFetch rejectOutside 0).getNextChunk rejectOutside 0)
      = some [[12, 0, 13, 0], [0, 0]] ∧
    fetchReads (exampleTail.getNextChunk rejectOutside 0)
      = some [(0, 0, 2), (0, 2, 2), (0, 4, 1)] ∧
    fetchOffsets (exampleTail.getNextChunk rejectOutside 0) = some [6, 0] ∧
    fetchBuffers (exampleTail.getNextChunk rejectOutside 0)
      = some [[14, 0, 13, 0], [0, 0]] := by
  decide

theorem ceilDiv_mul_bounds {T C : Nat} (hC : 0 < C) :
    T ≤ ceilDiv T C * C ∧ ceilDiv T C * C < T + C ∧
    (T % C = 0 → ceilDiv T C * C = T) ∧ (T % C ≠ 0 → T < ceilDiv T C * C) := by
  by_cases hz : T % C = 0
  · have h := ceilDiv_mul_of_dvd hC hz
    exact ⟨by omega, by omega, fun _ => h, fun hne => absurd hz hne⟩
  · rw [ceilDiv_of_not_dvd hC hz]
    have h1 := Nat.div_add_mod T C
    have h3 := Nat.mod_lt T hC
    have h4 : (T / C + 1) * C = C * (T / C) + C := by ring
    exact ⟨by omega, by omega, fun h0 => absurd h0 hz, fun _ => by omega⟩

/-- The 64-bit difference `numPoints - cursor` for a cursor where `T`
materialised rows have left it: 0 when the chunk size divides `T`, wrapped
otherwise. -/
theorem elementsRemaining_after_pass {T C : Nat} (hC : 0 < C) (hfit : T + C < u64) :
    elementsRemaining T (ceilDiv T C * C)
      = if T % C = 0 then 0 else u64 - (ceilDiv T C * C - T) := by
  obtain ⟨b1, b2, b3, b4⟩ := ceilDiv_mul_bounds (T := T) hC
  unfold elementsRemaining
  by_cases hz : T % C = 0
  · rw [if_pos hz, b3 hz]
    have e : T + u64 - T = u64 := by omega
    rw [e, Nat.mod_self]
  · rw [if_neg hz]
    have := b4 hz
    rw [Nat.mod_eq_of_lt (by omega)]
    omega

/-- The body of the column loop, when it completes for a row that begins a
chunk of a consistent column, has issued one read: from the column's fetch
cursor, of the number of elements `getNextChunk` selects. -/
theorem fillColumn_refill {lib : OutOfExtent} {row i : Nat} {b b' : BufferInfo} {c : Column}
    {w : FieldWrite} {h h' : Hdf5Handler}
    (hc : h.column? i = some c) (ok : ColOK b c) (hz : row % c.info.chunkSize = 0)
    (hh : HdfReader.fillColumn lib row i b h = .ok (b', w, h')) :
    h'.reads = h.reads ++
      [(i, c.offset, min (elementsRemaining h.m_numPoints c.offset) c.info.chunkSize)] := by
  unfold HdfReader.fillColumn at hh
  split at hh
  · cases hh
  · dsimp only at hh
    split at hh
    · cases hh
    · rename_i info1 h1 hre
      split at hh
      · cases hh
      · cases hh
        split at hre
        · split at hre
          · cases hre
          · rename_i h2 hg
            cases hre
            obtain ⟨c2, bs, hc2, _, _, rfl⟩ := getNextChunk_done hg
            rw [hc] at hc2
            obtain rfl : c = c2 := Option.some.inj hc2
            rfl
        · rename_i hnz
          rw [ok.chunk] at hnz
          exact absurd hz hnz

/-- Materialising row 0 when every fetch cursor stands where `T` materialised
rows have left it issues, if it completes, one read per column, from that
cursor. -/
theorem fillRow_after_ready {lib : OutOfExtent} {T : Nat} :
    ∀ (todo : List BufferInfo) (index : Nat) (h : Hdf5Handler)
      {infos : List BufferInfo} {ws : List FieldWrite} {h' : Hdf5Handler},
      HdfReader.fillRow lib 0 index todo h = .ok (infos, ws, h') →
      h.m_numPoints = T →
      (∀ j b, todo[j]? = some b →
        ∃ c, h.column? (index + j) = some c ∧ ColOK b c ∧
          c.offset = ceilDiv T c.info.chunkSize * c.info.chunkSize) →
      h'.reads = h.reads ++ refillsAfterReady T index (todo.map (fun b => b.info.chunkSize))
  | [], index, h, infos, ws, h', hh, _, _ => by
    simp only [HdfReader.fillRow, Except.ok.injEq, Prod.mk.injEq] at hh
    obtain ⟨rfl, rfl, rfl⟩ := hh
    simp [refillsAfterReady]
  | b :: rest, index, h, infos, ws, h', hh, hT, hcols => by
    unfold HdfReader.fillRow at hh
    split at hh
    · cases hh
    · rename_i b1 w1 h1 hcol
      split at hh
      · cases hh
      · rename_i infos1 ws1 h2 hrest
        cases hh
        obtain ⟨c, hc, ok, hoff⟩ := hcols 0 b (by simp)
        rw [Nat.add_zero] at hc
        have hreads := fillColumn_refill hc ok (Nat.zero_mod _) hcol
        obtain ⟨_, _, _, _, hframe, _⟩ := fillColumn_colOK hc ok hcol
        have hT1 : h1.m_numPoints = T := by rw [(fillColumn_static hcol).2.2.2.1, hT]
        have hcols1 : ∀ j b2, rest[j]? = some b2 →
            ∃ c2, h1.column? (index + 1 + j) = some c2 ∧ ColOK b2 c2 ∧
              c2.offset = ceilDiv T c2.info.chunkSize * c2.info.chunkSize := by
          intro j b2 hb2
          obtain ⟨c2, hc2, ok2, hoff2⟩ := hcols (j + 1) b2 (by simpa using hb2)
          have e : index + (j + 1) = index + 1 + j := by omega
          rw [e] at hc2
          exact ⟨c2, by rw [hframe _ (by omega)]; exact hc2, ok2, hoff2⟩
        rw [fillRow_after_ready rest (index + 1) h1 hrest hT1 hcols1, hreads, hT, hoff,
          List.append_assoc]
        simp only [List.map_cons, refillsAfterReady, ok.chunk, List.singleton_append]

theorem served_eq {lib : OutOfExtent} {h : Hdf5Handler} {i : Nat} {c : Column}
    (hc : h.column? i = some c) :
    h.served lib i =
      (c.dset.read lib c.offset
        (min ((h.m_numPoints + u64 - c.offset) % u64) c.info.chunkSize)).isSome := by
  unfold Hdf5Handler.served
  rw [hc]
  rfl

theorem served_congr {lib : OutOfExtent} {h h' : Hdf5Handler} {i : Nat}
    (hcol : h'.column? i = h.column? i) (hN : h'.m_numPoints = h.m_numPoints) :
    h'.served lib i = h.served lib i := by
  unfold Hdf5Handler.served
  rw [hcol, hN]

/-- The body of the column loop completes for a row that begins a chunk of a
consistent column when the library serves the read of the refill. -/
theorem fillColumn_of_served {lib : OutOfExtent} {row i : Nat} {b : BufferInfo} {c : Column}
    {h : Hdf5Handler} (hc : h.column? i = some c) (ok : ColOK b c)
    (hz : row % c.info.chunkSize = 0) (hs : h.served lib i = true) :
    ∃ b' w h', HdfReader.fillColumn lib row i b h = .ok (b', w, h') := by
  have hC := ok.pos
  have hne : ¬ b.info.chunkSize = 0 := by rw [ok.chunk]; omega
  rw [served_eq hc] at hs
  cases hbs : c.dset.read lib c.offset
      (min ((h.m_numPoints + u64 - c.offset) % u64) c.info.chunkSize) with
  | none => rw [hbs] at hs; cases hs
  | some bs =>
    have hfit : bs.length ≤ c.buffer.length := by
      have h1 := read_length hbs
      have h2 : min ((h.m_numPoints + u64 - c.offset) % u64) c.info.chunkSize * c.dset.size
          ≤ c.info.chunkSize * c.dset.size :=
        Nat.mul_le_mul_right _ (Nat.min_le_right _ _)
      rw [ok.buflen, ← ok.dsize]
      omega
    have hgn := getNextChunk_ok hc hbs hfit
    have hcol' := refilled_column_self (bs ++ c.buffer.drop bs.length)
      ((c.offset + c.info.chunkSize) % u64)
      (i, c.offset, min ((h.m_numPoints + u64 - c.offset) % u64) c.info.chunkSize) hc
    have hb4 := (column?_eq_some.mp hcol').2.2.2
    simp only [Hdf5Handler.refilled] at hb4
    have hlen : (bs ++ c.buffer.drop bs.length).length = c.info.chunkSize * c.info.size := by
      rw [List.length_append, List.length_drop, ← ok.buflen]
      omega
    have hW : c.info.size ≤ c.info.chunkSize * c.info.size :=
      Nat.le_mul_of_pos_left _ hC
    cases hres : HdfReader.fillColumn lib row i b h with
    | ok res => exact ⟨res.1, res.2.1, res.2.2, rfl⟩
    | error e =>
      exfalso
      unfold HdfReader.fillColumn at hres
      rw [if_neg hne] at hres
      simp only [ok.chunk, hz, if_true, hgn, loadBytes, hb4, ok.size, ok.tsize,
        Nat.zero_mul, Nat.zero_mod, Nat.zero_add] at hres
      rw [if_pos (by rw [hlen]; exact hW)] at hres
      cases hres

/-- The body of the column loop raises the read error for a row that begins a
chunk of a column when the library rejects the read of the refill. -/
theorem fillColumn_of_unserved {lib : OutOfExtent} {row i : Nat} {b : BufferInfo}
    {c : Column} {h : Hdf5Handler} (hc : h.column? i = some c) (ok : ColOK b c)
    (hz : row % c.info.chunkSize = 0) (hs : h.served lib i = false) :
    HdfReader.fillColumn lib row i b h = .error Err.readFailed := by
  have hne : ¬ b.info.chunkSize = 0 := by rw [ok.chunk]; have := ok.pos; omega
  rw [served_eq hc] at hs
  have hbs : c.dset.read lib c.offset
      (min ((h.m_numPoints + u64 - c.offset) % u64) c.info.chunkSize) = none := by
    cases hr : c.dset.read lib c.offset
        (min ((h.m_numPoints + u64 - c.offset) % u64) c.info.chunkSize) with
    | none => rfl
    | some bs => rw [hr] at hs; cases hs
  have hgn : h.getNextChunk lib i = .error Err.readFailed := by
    rw [getNextChunk_some lib hc, hbs]
  unfold HdfReader.fillColumn
  rw [if_neg hne]
  simp only [ok.chunk, hz, if_true, hgn]

/-- Materialising row 0 over consistent columns completes when the library
serves the read of every column's refill. -/
theorem fillRow_of_served {lib : OutOfExtent} :
    ∀ (todo : List BufferInfo) (index : Nat) (h : Hdf5Handler),
      ColsOK index todo h →
      (∀ j, j < todo.length → h.served lib (index + j) = true) →
      ∃ infos ws h', HdfReader.fillRow lib 0 index todo h = .ok (infos, ws, h')
  | [], _, h, _, _ => ⟨[], [], h, rfl⟩
  | b :: rest, index, h, hok, hs => by
    obtain ⟨c, hc, ok⟩ := hok 0 b (by simp)
    rw [Nat.add_zero] at hc
    obtain ⟨b1, w1, h1, hcol⟩ :=
      fillColumn_of_served hc ok (Nat.zero_mod _) (by simpa using hs 0 (by simp))
    obtain ⟨_, _, _, _, hframe, _⟩ := fillColumn_colOK hc ok hcol
    have hN : h1.m_numPoints = h.m_numPoints := (fillColumn_static hcol).2.2.2.1
    have hok1 : ColsOK (index + 1) rest h1 := by
      intro j b2 hb2
      obtain ⟨c2, hc2, ok2⟩ := hok (j + 1) b2 (by simpa using hb2)
      have e : index + (j + 1) = index + 1 + j := by omega
      rw [e] at hc2
      exact ⟨c2, by rw [hframe _ (by omega)]; exact hc2, ok2⟩
    have hs1 : ∀ j, j < rest.length → h1.served lib (index + 1 + j) = true := by
      intro j hj
      rw [served_congr (hframe _ (by omega)) hN]
      have e : index + 1 + j = index + (j + 1) := by omega
      rw [e]
      exact hs (j + 1) (by simpa using hj)
    obtain ⟨infos, ws, h2, hrest⟩ := fillRow_of_served rest (index + 1) h1 hok1 hs1
    refine ⟨b1 :: infos, w1 :: ws, h2, ?_⟩
    unfold HdfReader.fillRow
    rw [hcol]
    simp only [hrest]

/-- Materialising row 0 over consistent columns raises the read error when
the library rejects the read of some column's refill. -/
theorem fillRow_of_unserved {lib : OutOfExtent} :
    ∀ (todo : List BufferInfo) (index : Nat) (h : Hdf5Handler) (j : Nat),
      ColsOK index todo h → j < todo.length → h.served lib (index + j) = false →
      HdfReader.fillRow lib 0 index todo h = .error Err.readFailed
  | [], _, _, j, _, hj, _ => by simp at hj
  | b :: rest, index, h, j, hok, hj, hs => by
    obtain ⟨c, hc, ok⟩ := hok 0 b (by simp)
    rw [Nat.add_zero] at hc
    cases hs0 : h.served lib index with
    | false =>
      unfold HdfReader.fillRow
      rw [fillColumn_of_unserved hc ok (Nat.zero_mod _) hs0]
    | true =>
      obtain ⟨b1, w1, h1, hcol⟩ := fillColumn_of_served hc ok (Nat.zero_mod _) hs0
      obtain ⟨_, _, _, _, hframe, _⟩ := fillColumn_colOK hc ok hcol
      have hN : h1.m_numPoints = h.m_numPoints := (fillColumn_static hcol).2.2.2.1
      have hok1 : ColsOK (index + 1) rest h1 := by
        intro k b2 hb2
        obtain ⟨c2, hc2, ok2⟩ := hok (k + 1) b2 (by simpa using hb2)
        have e : index + (k + 1) = index + 1 + k := by omega
        rw [e] at hc2
        exact ⟨c2, by rw [hframe _ (by omega)]; exact hc2, ok2⟩
      cases j with
      | zero =>
        rw [Nat.add_zero, hs0] at hs
        cases hs
      | succ j =>
        have hs1 : h1.served lib (index + 1 + j) = false := by
          rw [served_congr (hframe _ (by omega)) hN]
          have e : index + 1 + j = index + (j + 1) := by omega
          rw [e]
          exact hs
        have ih := fillRow_of_unserved rest (index + 1) h1 j hok1 (by simpa using hj) hs1
        unfold HdfReader.fillRow
        rw [hcol]
        simp only [ih]

/-- C13 (amended): `ready()` changes the row cursor only: on every reader
state it leaves the handler, hence every fetch cursor and every buffer, and
the column entries as they are.  Consequently, on a freshly set-up reader over
`T > 0` rows the first `T` calls of `processOne` complete and leave, also
after `ready()`, the fetch cursor of every column at `ceilDiv T C * C` for its
chunk size `C`: a row at or beyond `T` (equal to `T` exactly when `C` divides
`T`) and not row 0.  There the 64-bit difference `numPoints - cursor` that
`getNextChunk` computes is 0 when `C` divides `T` and has wrapped to
`2^64 - (cursor - T)` otherwise, and a call of `getNextChunk` for the column
asks the library for elements from that cursor on: a read of no element at
row `T`, always served, when `C` divides `T`, and otherwise a read outside the
extent, served or not as the library decides.  The first `processOne` after
`ready()` completes when the library serves that read for every column; it
then returns `true` and has issued exactly one read per column, in column
order, from that cursor.  When the library rejects the read of some column,
the call raises the read error instead. -/
theorem C13_ready_keeps_fetch_cursors (lib : OutOfExtent) (fs : String → Option H5File)
    (reg : String → DimType → Nat) (garbage index0 : Nat) (filename : String) (json : Json)
    (r0 : HdfReader)
    (hp : HdfReader.prepare fs reg (HdfReader.fresh garbage index0 filename json) = some r0)
    (hf : r0.Fits) (hpos : 0 < r0.m_hdf5Handler.m_numPoints) :
    (∀ s : HdfReader, s.ready.m_index = 0 ∧ s.ready.m_hdf5Handler = s.m_hdf5Handler ∧
      s.ready.m_hdf5Handler.m_chunkOffsets = s.m_hdf5Handler.m_chunkOffsets ∧
      s.ready.m_hdf5Handler.m_buffers = s.m_hdf5Handler.m_buffers ∧
      s.ready.m_info = s.m_info ∧ s.ready.m_filename = s.m_filename ∧
      s.ready.m_pathDimMap = s.m_pathDimMap) ∧
    ∃ rows0 r,
      HdfReader.pulls lib r0.m_hdf5Handler.m_numPoints r0 = .ok (rows0, r) ∧
      r.m_index = r0.m_hdf5Handler.m_numPoints ∧
      r.m_hdf5Handler.m_numPoints = r0.m_hdf5Handler.m_numPoints ∧
      r.m_info.length = r.m_hdf5Handler.m_dimInfos.length ∧
      (∀ i c, r.ready.m_hdf5Handler.column? i = some c →
        c.offset = ceilDiv r0.m_hdf5Handler.m_numPoints c.info.chunkSize * c.info.chunkSize ∧
        r0.m_hdf5Handler.m_numPoints ≤ c.offset ∧ 0 < c.offset ∧
        (r0.m_hdf5Handler.m_numPoints % c.info.chunkSize = 0 →
          c.offset = r0.m_hdf5Handler.m_numPoints) ∧
        (r0.m_hdf5Handler.m_numPoints % c.info.chunkSize ≠ 0 →
          r0.m_hdf5Handler.m_numPoints < c.offset) ∧
        elementsRemaining r0.m_hdf5Handler.m_numPoints c.offset =
          (if r0.m_hdf5Handler.m_numPoints % c.info.chunkSize = 0 then 0
            else u64 - (c.offset - r0.m_hdf5Handler.m_numPoints)) ∧
        r.ready.m_hdf5Handler.getNextChunk lib i =
          (match c.dset.read lib c.offset
              (min (elementsRemaining r0.m_hdf5Handler.m_numPoints c.offset)
                c.info.chunkSize) with
          | none => .error .readFailed
          | some bs =>
            if bs.length ≤ c.buffer.length then
              .ok (r.m_hdf5Handler.refilled i (bs ++ c.buffer.drop bs.length)
                ((c.offset + c.info.chunkSize) % u64)
                (i, c.offset,
                  min (elementsRemaining r0.m_hdf5Handler.m_numPoints c.offset)
                    c.info.chunkSize))
            else .error .undefinedBehaviour) ∧
        (r0.m_hdf5Handler.m_numPoints % c.info.chunkSize = 0 →
          r.ready.m_hdf5Handler.served lib i = true) ∧
        (r0.m_hdf5Handler.m_numPoints % c.info.chunkSize ≠ 0 →
          r.ready.m_hdf5Handler.served lib i =
            (lib c.dset c.offset
              (min (elementsRemaining r0.m_hdf5Handler.m_numPoints c.offset)
                c.info.chunkSize)).isSome)) ∧
      (∀ b ws r', HdfReader.processOne lib r.ready = .ok (b, ws, r') →
        b = true ∧ r'.m_index = 1 ∧
        r'.m_hdf5Handler.reads = r.m_hdf5Handler.reads ++
          refillsAfterReady r0.m_hdf5Handler.m_numPoints 0 r0.chunkSizes) ∧
      ((∀ i, i < r.m_info.length → r.ready.m_hdf5Handler.served lib i = true) →
        ∃ ws r', HdfReader.processOne lib r.ready = .ok (true, ws, r')) ∧
      (∀ i, i < r.m_info.length → r.ready.m_hdf5Handler.served lib i = false →
        HdfReader.processOne lib r.ready = .error Err.readFailed) ∧
      (Tolerant lib → ∃ ws r', HdfReader.processOne lib r.ready = .ok (true, ws, r')) := by
  refine ⟨fun s => ⟨rfl, rfl, rfl, rfl, rfl, rfl, rfl⟩, ?_⟩
  obtain ⟨hpass0, _⟩ := prepare_pass hp hf
  obtain ⟨rows0, r, hrun, ⟨hN, hI, hinv⟩, _, _⟩ :=
    pulls_pass lib hf.1 r0.m_hdf5Handler.m_numPoints 0 r0 hpass0 (by omega)
  rw [Nat.zero_add] at hI hinv
  obtain ⟨_, hinfos, _, hdims, _⟩ := pulls_static _ _ hrun
  have hone64 : (0 + 1) % u64 = 1 := Nat.mod_eq_of_lt (by have := hf.1; omega)
  have hge : 1 ≤ r0.m_hdf5Handler.m_numPoints := hpos
  have hidx : r.ready.m_index = 0 := rfl
  have hNr : r.ready.m_hdf5Handler.m_numPoints = r0.m_hdf5Handler.m_numPoints := hN
  have hlen : r.m_info.length = r.m_hdf5Handler.m_dimInfos.length := by
    have h1 := congrArg List.length hinfos
    have h2 := congrArg List.length (prepare_eq hp).2.2.2
    simp only [List.length_map] at h1 h2
    rw [h1, h2, hdims]
  have hcolumn : ∀ i c, r.m_hdf5Handler.column? i = some c →
      ∃ b, r.m_info[i]? = some b ∧ ColAt r0.m_hdf5Handler.m_numPoints
        r0.m_hdf5Handler.m_numPoints i b c := by
    intro i c hc
    have hi : i < r.m_info.length := by
      rw [hlen]
      exact (List.getElem?_eq_some.mp (column?_eq_some.mp hc).1).1
    obtain ⟨c', hc', inv⟩ := hinv i r.m_info[i] (List.getElem?_eq_getElem hi)
    rw [Nat.zero_add] at hc' inv
    rw [hc] at hc'
    obtain rfl : c = c' := Option.some.inj hc'
    exact ⟨r.m_info[i], List.getElem?_eq_getElem hi, inv⟩
  have hrowinv : ∀ j b, r.m_info[j]? = some b →
      ∃ c, r.m_hdf5Handler.column? (0 + j) = some c ∧ ColOK b c ∧
        c.offset = ceilDiv r0.m_hdf5Handler.m_numPoints c.info.chunkSize * c.info.chunkSize := by
    intro j b hb
    obtain ⟨c, hc, inv⟩ := hinv j b hb
    exact ⟨c, hc, ⟨inv.chunk, inv.size, inv.tsize, inv.dsize, inv.pos, inv.fitsBuf,
      inv.buflen⟩, inv.offset⟩
  have hcolsok : ColsOK 0 r.m_info r.m_hdf5Handler := by
    intro j b hb
    obtain ⟨c, hc, ok, _⟩ := hrowinv j b hb
    exact ⟨c, hc, ok⟩
  have hpull : ∀ b ws r', HdfReader.processOne lib r.ready = .ok (b, ws, r') →
      b = true ∧ r'.m_index = 1 ∧
      r'.m_hdf5Handler.reads = r.m_hdf5Handler.reads ++
        refillsAfterReady r0.m_hdf5Handler.m_numPoints 0 r0.chunkSizes := by
    intro b ws r' hone
    obtain ⟨p1, p2, _⟩ := processOne_static hone
    rw [hidx, hone64] at p1
    rw [hidx, hone64, hNr] at p2
    refine ⟨by rw [p2]; exact decide_eq_true hge, p1, ?_⟩
    unfold HdfReader.processOne at hone
    split at hone
    · cases hone
    · rename_i infos ws1 h1 hrow
      cases hone
      have hrow' : HdfReader.fillRow lib 0 0 r.m_info r.m_hdf5Handler
          = .ok (infos, ws, h1) := hrow
      have hcs : r.chunkSizes = r0.chunkSizes := chunkSizes_congr hinfos
      rw [← hcs]
      exact fillRow_after_ready r.m_info 0 r.m_hdf5Handler hrow' hN hrowinv
  refine ⟨rows0, r, hrun, hI, hN, hlen, ?_, hpull, ?_, ?_, ?_⟩
  · intro i c hc
    have hc1 : r.m_hdf5Handler.column? i = some c := hc
    obtain ⟨b, _, inv⟩ := hcolumn i c hc1
    obtain ⟨b1, _, b3, b4⟩ :=
      ceilDiv_mul_bounds (T := r0.m_hdf5Handler.m_numPoints) inv.pos
    have hrem := elementsRemaining_after_pass (T := r0.m_hdf5Handler.m_numPoints)
      inv.pos inv.fitsOff
    rw [← inv.offset] at b1 b3 b4 hrem
    have hserved : r.m_hdf5Handler.served lib i =
        (c.dset.read lib c.offset
          (min (elementsRemaining r0.m_hdf5Handler.m_numPoints c.offset)
            c.info.chunkSize)).isSome := by
      rw [served_eq hc1, hN]
      rfl
    refine ⟨inv.offset, b1, by omega, b3, b4, hrem, ?_, ?_, ?_⟩
    · show r.m_hdf5Handler.getNextChunk lib i = _
      rw [getNextChunk_some lib hc1, hN]
      rfl
    · intro hz
      show r.m_hdf5Handler.served lib i = true
      rw [hserved, hrem, if_pos hz, b3 hz, Nat.zero_min]
      unfold DataSet.read
      rw [if_pos (by rw [inv.npoints]; omega)]
      rfl
    · intro hz
      show r.m_hdf5Handler.served lib i = _
      rw [hserved]
      have hgt := b4 hz
      unfold DataSet.read
      rw [if_neg (by rw [inv.npoints]; omega)]
      cases lib c.dset c.offset
        (min (elementsRemaining r0.m_hdf5Handler.m_numPoints c.offset) c.info.chunkSize) <;> rfl
  · intro hs
    have hs' : ∀ j, j < r.m_info.length → r.m_hdf5Handler.served lib (0 + j) = true := by
      intro j hj
      rw [Nat.zero_add]
      exact hs j hj
    obtain ⟨infos, ws, h1, hfr⟩ := fillRow_of_served r.m_info 0 r.m_hdf5Handler hcolsok hs'
    have hfr' : HdfReader.fillRow lib r.ready.m_index 0 r.ready.m_info r.ready.m_hdf5Handler
        = .ok (infos, ws, h1) := hfr
    cases hres : HdfReader.processOne lib r.ready with
    | error e =>
      unfold HdfReader.processOne at hres
      rw [hfr'] at hres
      cases hres
    | ok x =>
      obtain ⟨b, ws', r'⟩ := x
      obtain ⟨hb, _⟩ := hpull b ws' r' hres
      subst hb
      exact ⟨ws', r', rfl⟩
  · intro i hi hs
    have hfr := fillRow_of_unserved r.m_info 0 r.m_hdf5Handler i hcolsok hi
      (by rw [Nat.zero_add]; exact hs)
    have hfr' : HdfReader.fillRow lib r.ready.m_index 0 r.ready.m_info r.ready.m_hdf5Handler
        = .error Err.readFailed := hfr
    unfold HdfReader.processOne
    rw [hfr']
  · intro hserve
    have hrow : RowOK r.ready.m_index 0 r.ready.m_info r.ready.m_hdf5Handler := by
      intro j b hb
      obtain ⟨c, hc, ok, _⟩ := hrowinv j b hb
      exact ⟨c, hc, ok, Or.inl (Nat.zero_mod _)⟩
    obtain ⟨ws, r', hone, _⟩ := processOne_served hserve hrow
    rw [hidx, hone64, hNr, decide_eq_true hge] at hone
    exact ⟨ws, r', hone⟩

theorem C13_witness :
    exampleReady.Fits ∧ 0 < exampleReady.m_hdf5Handler.m_numPoints ∧
    ∃ rows0 r,
      HdfReader.pulls clipOutside 5 exampleReady = .ok (rows0, r) ∧
      (∀ i c, r.ready.m_hdf5Handler.column? i = some c → 5 ≤ c.offset ∧ 0 < c.offset) ∧
      (∀ b ws r', HdfReader.processOne clipOutside r.ready = .ok (b, ws, r') →
        b = true ∧
        r'.m_hdf5Handler.reads = r.m_hdf5Handler.reads ++ [(0, 6, 2), (1, 6, 2)]) ∧
      ∃ ws r', HdfReader.processOne clipOutside r.ready = .ok (true, ws, r') := by
  obtain ⟨_, rows0, r, hrun, _, _, _, hcols, hpull, _, _, hserved⟩ :=
    C13_ready_keeps_fetch_cursors clipOutside exampleFs exampleReg 0 0 "f.h5" exampleJson
      exampleReady exampleReady_prepared (by decide) (by decide)
  have hev : refillsAfterReady exampleReady.m_hdf5Handler.m_numPoints 0 exampleReady.chunkSizes
      = [(0, 6, 2), (1, 6, 2)] := by decide
  rw [hev] at hpull
  refine ⟨by decide, by decide, rows0, r, hrun, ?_, ?_, hserved tolerant_clipOutside⟩
  · intro i c hc
    exact ⟨(hcols i c hc).2.1, (hcols i c hc).2.2.1⟩
  · intro b ws r' hone
    exact ⟨(hpull b ws r' hone).1, (hpull b ws r' hone).2.2⟩

/-- C13 fails as stated: over five rows in two columns in chunks of two, with
a library that rejects reads outside the extent, five calls of `processOne`
leave both fetch cursors at 6; after `ready()` the refill of column 0 asks for
two elements from row 6, the library rejects the read, so `getNextChunk`
raises and with it the first `processOne`: the call ends at column 0 and does
not refill column 1. -/
theorem C13_counterexample :
    exampleReady.m_hdf5Handler.m_numPoints = 5 ∧ exampleReady.chunkSizes = [2, 2] ∧
    offsetsAfter (HdfReader.pulls rejectOutside 5 exampleReady) = some [6, 6] ∧
    (HdfReader.afterPulls rejectOutside 5 exampleReady).ready.m_hdf5Handler.m_chunkOffsets
      = [6, 6] ∧
    (HdfReader.afterPulls rejectOutside 5 exampleReady).ready.m_hdf5Handler.served
      rejectOutside 0 = false ∧
    failure ((HdfReader.afterPulls rejectOutside 5 exampleReady).ready.m_hdf5Handler.getNextChunk
      rejectOutside 0) = some Err.readFailed ∧
    failure (HdfReader.processOne rejectOutside
      (HdfReader.afterPulls rejectOutside 5 exampleReady).ready) = some Err.readFailed ∧
    returned (HdfReader.secondPass rejectOutside exampleReady 5 1) = none := by
  decide

/-- The pull after `ready()` by evaluation.  Five rows in chunks of two: five
calls leave both fetch cursors at 6, the 64-bit difference `5 - 6` is
`2^64 - 1`, the next refills ask for two elements from row 6, and with a
library that rejects such a request the first call after `ready()` raises.
Four rows in chunks of two: four calls leave the fetch cursor at 4, the
difference is 0, the refill after `ready()` reads no element (from row 4) and
the call hands over what the buffer still holds, the byte of row 2, where the
first call of the first pass handed over that of row 0. -/
theorem pull_after_ready_by_evaluation :
    offsetsAfter (HdfReader.pulls rejectOutside 5 exampleReady) = some [6, 6] ∧
    elementsRemaining 5 6 = 18446744073709551615 ∧
    refillsAfterReady 5 0 exampleReady.chunkSizes = [(0, 6, 2), (1, 6, 2)] ∧
    failure (HdfReader.secondPass rejectOutside exampleReady 5 1) = some Err.readFailed ∧
    offsetsAfter (HdfReader.pulls rejectOutside 4 evenReady) = some [4] ∧
    elementsRemaining 4 4 = 0 ∧
    refillsAfterReady 4 0 evenReady.chunkSizes = [(0, 4, 0)] ∧
    readsAfter (HdfReader.secondPass rejectOutside evenReady 4 1)
      = some [(0, 0, 2), (0, 2, 2), (0, 4, 0)] ∧
    written (HdfReader.pulls rejectOutside 1 evenReady) = some [[[1]]] ∧
    written (HdfReader.secondPass rejectOutside evenReady 4 1) = some [[[3]]] := by
  decide

end pdal
